import Mathlib

/-!
Verification of the fault-tolerant LaTeX parser (`src/parser/latex.rs`).

The parser is embedded shallowly: the lexer's output is a list of
`(kind, text)` tokens, the green-tree builder's output is an inductive
tree, and every parse rule of `Parser` becomes a function from a fuel
bound and a token list to `Option (List GreenElem × List Token)` — the
children it appends to the current node, and the remaining tokens.
`none` models the two panic sources of the Rust code: `eat`'s `unwrap`
on an empty stream and the `unreachable!` arm of `content`'s dispatch
(and, additionally, fuel exhaustion; the totality theorem shows that the
fuel chosen by `parse_latex` is never exhausted).
-/

namespace Latex

/-- Kinds of tokens and nodes. The token band and the node band follow the
spec's data model (section 3); the `*_NAME` token kinds are the ones matched
by `Parser::content`'s dispatch in `latex.rs`. -/
inductive SyntaxKind where
  | WHITESPACE
  | LINE_BREAK
  | COMMENT
  | VERBATIM
  | WORD
  | COMMA
  | EQUALITY_SIGN
  | L_CURLY
  | R_CURLY
  | L_BRACK
  | R_BRACK
  | L_PAREN
  | R_PAREN
  | DOLLAR
  | MISSING
  | ERROR
  | GENERIC_COMMAND_NAME
  | BEGIN_ENVIRONMENT_NAME
  | END_ENVIRONMENT_NAME
  | BEGIN_EQUATION_NAME
  | END_EQUATION_NAME
  | PART_NAME
  | CHAPTER_NAME
  | SECTION_NAME
  | SUBSECTION_NAME
  | SUBSUBSECTION_NAME
  | PARAGRAPH_NAME
  | SUBPARAGRAPH_NAME
  | ENUM_ITEM_NAME
  | CAPTION_NAME
  | CITATION_NAME
  | PACKAGE_INCLUDE_NAME
  | CLASS_INCLUDE_NAME
  | LATEX_INCLUDE_NAME
  | BIBLATEX_INCLUDE_NAME
  | BIBTEX_INCLUDE_NAME
  | GRAPHICS_INCLUDE_NAME
  | SVG_INCLUDE_NAME
  | INKSCAPE_INCLUDE_NAME
  | VERBATIM_INCLUDE_NAME
  | IMPORT_NAME
  | LABEL_DEFINITION_NAME
  | LABEL_REFERENCE_NAME
  | LABEL_REFERENCE_RANGE_NAME
  | LABEL_NUMBER_NAME
  | COMMAND_DEFINITION_NAME
  | MATH_OPERATOR_NAME
  | GLOSSARY_ENTRY_DEFINITION_NAME
  | GLOSSARY_ENTRY_REFERENCE_NAME
  | ACRONYM_DEFINITION_NAME
  | ACRONYM_DECLARATION_NAME
  | ACRONYM_REFERENCE_NAME
  | THEOREM_DEFINITION_NAME
  | COLOR_REFERENCE_NAME
  | COLOR_DEFINITION_NAME
  | COLOR_SET_DEFINITION_NAME
  | TIKZ_LIBRARY_IMPORT_NAME
  | ENVIRONMENT_DEFINITION_NAME
  | BEGIN_BLOCK_COMMENT_NAME
  | END_BLOCK_COMMENT_NAME
  | GRAPHICS_PATH_NAME
  | ROOT
  | PREAMBLE
  | TEXT
  | CURLY_GROUP
  | CURLY_GROUP_WORD
  | CURLY_GROUP_WORD_LIST
  | CURLY_GROUP_COMMAND
  | CURLY_GROUP_KEY_VALUE
  | BRACK_GROUP
  | BRACK_GROUP_WORD
  | BRACK_GROUP_KEY_VALUE
  | MIXED_GROUP
  | KEY
  | VALUE
  | KEY_VALUE_PAIR
  | KEY_VALUE_BODY
  | FORMULA
  | EQUATION
  | GENERIC_COMMAND
  | BEGIN
  | END
  | ENVIRONMENT
  | PART
  | CHAPTER
  | SECTION
  | SUBSECTION
  | SUBSUBSECTION
  | PARAGRAPH
  | SUBPARAGRAPH
  | ENUM_ITEM
  | BLOCK_COMMENT
  | CAPTION
  | CITATION
  | PACKAGE_INCLUDE
  | CLASS_INCLUDE
  | LATEX_INCLUDE
  | BIBLATEX_INCLUDE
  | BIBTEX_INCLUDE
  | GRAPHICS_INCLUDE
  | SVG_INCLUDE
  | INKSCAPE_INCLUDE
  | VERBATIM_INCLUDE
  | IMPORT
  | LABEL_DEFINITION
  | LABEL_REFERENCE
  | LABEL_REFERENCE_RANGE
  | LABEL_NUMBER
  | COMMAND_DEFINITION
  | MATH_OPERATOR
  | GLOSSARY_ENTRY_DEFINITION
  | GLOSSARY_ENTRY_REFERENCE
  | ACRONYM_DEFINITION
  | ACRONYM_DECLARATION
  | ACRONYM_REFERENCE
  | THEOREM_DEFINITION
  | COLOR_REFERENCE
  | COLOR_DEFINITION
  | COLOR_SET_DEFINITION
  | TIKZ_LIBRARY_IMPORT
  | ENVIRONMENT_DEFINITION
  | GRAPHICS_PATH
  deriving DecidableEq, Repr

open SyntaxKind

/-- Modelled from the spec: the predicate `is_command_name(k)` (defined in the
syntax module, outside the provided sources) "returns true for
`GENERIC_COMMAND_NAME` and every command-family token kind". -/
def SyntaxKind.isCommandName : SyntaxKind → Bool
  | GENERIC_COMMAND_NAME | BEGIN_ENVIRONMENT_NAME | END_ENVIRONMENT_NAME
  | BEGIN_EQUATION_NAME | END_EQUATION_NAME
  | PART_NAME | CHAPTER_NAME | SECTION_NAME | SUBSECTION_NAME
  | SUBSUBSECTION_NAME | PARAGRAPH_NAME | SUBPARAGRAPH_NAME
  | ENUM_ITEM_NAME | CAPTION_NAME | CITATION_NAME
  | PACKAGE_INCLUDE_NAME | CLASS_INCLUDE_NAME | LATEX_INCLUDE_NAME
  | BIBLATEX_INCLUDE_NAME | BIBTEX_INCLUDE_NAME | GRAPHICS_INCLUDE_NAME
  | SVG_INCLUDE_NAME | INKSCAPE_INCLUDE_NAME | VERBATIM_INCLUDE_NAME
  | IMPORT_NAME | LABEL_DEFINITION_NAME | LABEL_REFERENCE_NAME
  | LABEL_REFERENCE_RANGE_NAME | LABEL_NUMBER_NAME | COMMAND_DEFINITION_NAME
  | MATH_OPERATOR_NAME | GLOSSARY_ENTRY_DEFINITION_NAME
  | GLOSSARY_ENTRY_REFERENCE_NAME | ACRONYM_DEFINITION_NAME
  | ACRONYM_DECLARATION_NAME | ACRONYM_REFERENCE_NAME
  | THEOREM_DEFINITION_NAME | COLOR_REFERENCE_NAME | COLOR_DEFINITION_NAME
  | COLOR_SET_DEFINITION_NAME | TIKZ_LIBRARY_IMPORT_NAME
  | ENVIRONMENT_DEFINITION_NAME | BEGIN_BLOCK_COMMENT_NAME
  | END_BLOCK_COMMENT_NAME | GRAPHICS_PATH_NAME => true
  | _ => false

/-- The kinds of the token band: exactly the kinds handled by the dispatch of
`Parser::content` (every other kind is a node kind and would hit the
`unreachable!` arm). The lexer only ever emits kinds from this band. -/
def SyntaxKind.isTokenKind : SyntaxKind → Bool
  | WHITESPACE | LINE_BREAK | COMMENT | VERBATIM | WORD | COMMA
  | EQUALITY_SIGN | L_CURLY | R_CURLY | L_BRACK | R_BRACK | L_PAREN
  | R_PAREN | DOLLAR | MISSING | ERROR => true
  | k => k.isCommandName

/-- A lexeme: the `(SyntaxKind, &str)` pair produced by `Lexer::eat`. -/
structure Token where
  kind : SyntaxKind
  text : String
  deriving DecidableEq, Repr

/-- A green-tree element: a leaf token (`GreenNodeBuilder::token`) or an
interior node with its ordered children (`start_node` … `finish_node`). -/
inductive GreenElem where
  | node (kind : SyntaxKind) (children : List GreenElem)
  | token (kind : SyntaxKind) (text : String)
  deriving Repr

/-- The leaf that `Parser::eat` appends for a consumed token. -/
def tokElem (t : Token) : GreenElem := .token t.kind t.text

/-- The zero-length placeholder `builder.token(MISSING.into(), "")`. -/
def missingTok : GreenElem := .token MISSING ""

/-- Concatenation of the texts of a token list (what the input looks like
from the parser's side of the lexer). -/
def textCat : List Token → String
  | [] => ""
  | t :: rest => t.text ++ textCat rest

mutual

/-- Concatenation of the texts of all token leaves of an element, in document
order. -/
def leafCat : GreenElem → String
  | .token _ s => s
  | .node _ cs => leafCatL cs

/-- Concatenation of the texts of all token leaves of a list of elements. -/
def leafCatL : List GreenElem → String
  | [] => ""
  | e :: es => leafCat e ++ leafCatL es

end

/-- The `(allow_environment, allow_comma)` pair threaded through `content`. -/
structure ParserContext where
  allow_environment : Bool
  allow_comma : Bool
  deriving DecidableEq, Repr

/-- The `ParserContext::default()` value. -/
def ctxDefault : ParserContext := ⟨true, true⟩

/-- The kind of the next lexeme (`Parser::peek`). -/
def headKind (toks : List Token) : Option SyntaxKind := toks.head?.map Token.kind

/-- The loop body of `Parser::trivia`: consume a maximal run of
`LINE_BREAK | WHITESPACE | COMMENT` tokens. -/
def takeTrivia : List Token → List GreenElem × List Token
  | [] => ([], [])
  | t :: rest =>
    match t.kind with
    | LINE_BREAK | WHITESPACE | COMMENT =>
      let (es, r) := takeTrivia rest
      (tokElem t :: es, r)
    | _ => ([], t :: rest)

/-- `Parser::expect`: eat the expected kind followed by trivia, or append a
zero-length `MISSING` token. -/
def expect (kind : SyntaxKind) (toks : List Token) : List GreenElem × List Token :=
  match toks with
  | t :: rest =>
    if t.kind = kind then
      let (es, r) := takeTrivia rest
      (tokElem t :: es, r)
    else ([missingTok], t :: rest)
  | [] => ([missingTok], [])

/-- `Parser::expect2`: like `expect` but accepting either of two kinds. -/
def expect2 (kind1 kind2 : SyntaxKind) (toks : List Token) :
    List GreenElem × List Token :=
  match toks with
  | t :: rest =>
    if t.kind = kind1 ∨ t.kind = kind2 then
      let (es, r) := takeTrivia rest
      (tokElem t :: es, r)
    else ([missingTok], t :: rest)
  | [] => ([missingTok], [])

/-- The loop of `Parser::text`: keep eating
`LINE_BREAK | WHITESPACE | COMMENT | WORD | COMMA` tokens, where a `COMMA`
continues the run only when `allow_comma` holds. -/
def textTail (allowComma : Bool) : List Token → List GreenElem × List Token
  | [] => ([], [])
  | t :: rest =>
    match t.kind with
    | LINE_BREAK | WHITESPACE | COMMENT | WORD =>
      let (es, r) := textTail allowComma rest
      (tokElem t :: es, r)
    | COMMA =>
      if allowComma then
        let (es, r) := textTail allowComma rest
        (tokElem t :: es, r)
      else ([], t :: rest)
    | _ => ([], t :: rest)

/-- `Parser::text`: a `TEXT` node around the first token and the following
textual run. -/
def text (context : ParserContext) (toks : List Token) :
    Option (List GreenElem × List Token) :=
  match toks with
  | [] => none
  | t :: rest =>
    let (es, r) := textTail context.allow_comma rest
    some ([.node TEXT (tokElem t :: es)], r)

/-- The loop of `Parser::key`: keep eating `WHITESPACE | COMMENT | WORD`. -/
def keyTail : List Token → List GreenElem × List Token
  | [] => ([], [])
  | t :: rest =>
    match t.kind with
    | WHITESPACE | COMMENT | WORD =>
      let (es, r) := keyTail rest
      (tokElem t :: es, r)
    | _ => ([], t :: rest)

/-- `Parser::key` after its unconditional first `eat` of `t`: the run of
`WHITESPACE | COMMENT | WORD` tokens and then trivia, all inside a `KEY`
node. -/
def keyCore (t : Token) (rest : List Token) : GreenElem × List Token :=
  let (es, r1) := keyTail rest
  let (tr, r2) := takeTrivia r1
  (.node KEY (tokElem t :: es ++ tr), r2)

theorem takeTrivia_len (toks : List Token) : (takeTrivia toks).2.length ≤ toks.length := by
  induction toks with
  | nil => simp [takeTrivia]
  | cons t rest ih =>
    rcases htr : takeTrivia rest with ⟨es, r⟩
    rw [htr] at ih
    simp only [Prod.snd] at ih
    simp only [takeTrivia, htr, List.length_cons]
    split <;> simp <;> omega

theorem keyTail_len (toks : List Token) : (keyTail toks).2.length ≤ toks.length := by
  induction toks with
  | nil => simp [keyTail]
  | cons t rest ih =>
    rcases htr : keyTail rest with ⟨es, r⟩
    rw [htr] at ih
    simp only [Prod.snd] at ih
    simp only [keyTail, htr, List.length_cons]
    split <;> simp <;> omega

theorem keyCore_len (t : Token) (rest : List Token) :
    (keyCore t rest).2.length ≤ rest.length := by
  have h1 := keyTail_len rest
  have h2 := takeTrivia_len (keyTail rest).2
  simp only [keyCore]
  omega

/-- The loop of `Parser::curly_group_word_list`: while the next token is
`LINE_BREAK | WHITESPACE | COMMENT | WORD | COMMA`, parse a `KEY` on `WORD`
and eat anything else. -/
def cgwlLoop : List Token → List GreenElem × List Token
  | [] => ([], [])
  | t :: rest =>
    match t.kind with
    | WORD =>
      match h : keyCore t rest with
      | (ke, r1) =>
        let (es, r2) := cgwlLoop r1
        (ke :: es, r2)
    | LINE_BREAK | WHITESPACE | COMMENT | COMMA =>
      let (es, r) := cgwlLoop rest
      (tokElem t :: es, r)
    | _ => ([], t :: rest)
termination_by toks => toks.length
decreasing_by
  · have := keyCore_len t rest
    rw [h] at this
    simp only [Prod.snd] at this
    simp only [List.length_cons]
    omega
  all_goals simp only [List.length_cons]; omega

/-- `Parser::curly_group_word_list`. -/
def curly_group_word_list (toks : List Token) :
    Option (List GreenElem × List Token) :=
  match toks with
  | [] => none
  | t :: rest =>
    let (es, r1) := cgwlLoop rest
    let (ce, r2) := expect R_CURLY r1
    some ([.node CURLY_GROUP_WORD_LIST (tokElem t :: es ++ ce)], r2)

/-- `Parser::curly_group_command`. -/
def curly_group_command (toks : List Token) :
    Option (List GreenElem × List Token) :=
  match toks with
  | [] => none
  | t :: rest =>
    let (tr, r0) := takeTrivia rest
    match r0 with
    | u :: r0' =>
      if u.kind.isCommandName then
        let (tr2, r1) := takeTrivia r0'
        let (ce, r2) := expect R_CURLY r1
        some ([.node CURLY_GROUP_COMMAND (tokElem t :: tr ++ (tokElem u :: tr2) ++ ce)], r2)
      else
        let (ce, r2) := expect R_CURLY (u :: r0')
        some ([.node CURLY_GROUP_COMMAND (tokElem t :: tr ++ [missingTok] ++ ce)], r2)
    | [] =>
      let (ce, r2) := expect R_CURLY []
      some ([.node CURLY_GROUP_COMMAND (tokElem t :: tr ++ [missingTok] ++ ce)], r2)

/-- `Parser::brack_group_word`. -/
def brack_group_word (toks : List Token) :
    Option (List GreenElem × List Token) :=
  match toks with
  | [] => none
  | t :: rest =>
    let (tr, r0) := takeTrivia rest
    match r0 with
    | u :: r0' =>
      if u.kind = WORD then
        let (ke, r1) := keyCore u r0'
        let (ce, r2) := expect R_BRACK r1
        some ([.node BRACK_GROUP_WORD (tokElem t :: tr ++ [ke] ++ ce)], r2)
      else
        let (ce, r2) := expect R_BRACK (u :: r0')
        some ([.node BRACK_GROUP_WORD (tokElem t :: tr ++ [missingTok] ++ ce)], r2)
    | [] =>
      let (ce, r2) := expect R_BRACK []
      some ([.node BRACK_GROUP_WORD (tokElem t :: tr ++ [missingTok] ++ ce)], r2)

/-- An optional single-token step `if self.peek() == Some(k) { self.eat(); }`:
eat the token when its kind matches, otherwise append `dflt` (either nothing
or a `MISSING` placeholder) and leave the stream unchanged. -/
def eatIf (k : SyntaxKind) (dflt : List GreenElem) (toks : List Token) :
    List GreenElem × List Token :=
  match toks with
  | u :: rest => if u.kind = k then ([tokElem u], rest) else (dflt, u :: rest)
  | [] => (dflt, [])

/-- `Parser::block_comment`. -/
def block_comment (toks : List Token) :
    Option (List GreenElem × List Token) :=
  match toks with
  | [] => none
  | t :: rest =>
    let (v, r1) := eatIf VERBATIM [] rest
    let (e, r2) := eatIf END_BLOCK_COMMENT_NAME [missingTok] r1
    some ([.node BLOCK_COMMENT (tokElem t :: v ++ e)], r2)

/-- `Parser::label_reference`. -/
def label_reference (toks : List Token) :
    Option (List GreenElem × List Token) :=
  match toks with
  | [] => none
  | t :: rest =>
    let (tr, r0) := takeTrivia rest
    match headKind r0 with
    | some L_CURLY =>
      match curly_group_word_list r0 with
      | some (g, r1) => some ([.node LABEL_REFERENCE (tokElem t :: tr ++ g)], r1)
      | none => none
    | _ => some ([.node LABEL_REFERENCE (tokElem t :: tr ++ [missingTok])], r0)

/-- `Parser::tikz_library_import`. -/
def tikz_library_import (toks : List Token) :
    Option (List GreenElem × List Token) :=
  match toks with
  | [] => none
  | t :: rest =>
    let (tr, r0) := takeTrivia rest
    match headKind r0 with
    | some L_CURLY =>
      match curly_group_word_list r0 with
      | some (g, r1) => some ([.node TIKZ_LIBRARY_IMPORT (tokElem t :: tr ++ g)], r1)
      | none => none
    | _ => some ([.node TIKZ_LIBRARY_IMPORT (tokElem t :: tr ++ [missingTok])], r0)

/-- Stop set of the loop of `Parser::curly_group` (and of
`curly_group_without_environments`): stop before `R_CURLY`. -/
def curlyStop : SyntaxKind → Bool
  | R_CURLY => true
  | _ => false

/-- Stop set of the loop of `Parser::brack_group`: the kinds excluded by its
`matches!` (note that `SUBSUBSECTION_NAME` is not among them). -/
def brackGroupStop : SyntaxKind → Bool
  | R_CURLY | R_BRACK | PART_NAME | CHAPTER_NAME | SECTION_NAME
  | SUBSECTION_NAME | PARAGRAPH_NAME | SUBPARAGRAPH_NAME | ENUM_ITEM_NAME
  | END_ENVIRONMENT_NAME => true
  | _ => false

/-- Stop set of the loop of `Parser::mixed_group` (again without
`SUBSUBSECTION_NAME`). -/
def mixedGroupStop : SyntaxKind → Bool
  | R_CURLY | R_BRACK | R_PAREN | PART_NAME | CHAPTER_NAME | SECTION_NAME
  | SUBSECTION_NAME | PARAGRAPH_NAME | SUBPARAGRAPH_NAME | ENUM_ITEM_NAME
  | END_ENVIRONMENT_NAME => true
  | _ => false

/-- Stop set of the loop of `Parser::formula`. -/
def formulaStop : SyntaxKind → Bool
  | R_CURLY | END_ENVIRONMENT_NAME | DOLLAR => true
  | _ => false

/-- Stop set of the loop of `Parser::equation`. -/
def equationStop : SyntaxKind → Bool
  | END_ENVIRONMENT_NAME | R_CURLY | END_EQUATION_NAME => true
  | _ => false

/-- Stop set of the body loop of `Parser::environment`. -/
def envBodyStop : SyntaxKind → Bool
  | R_CURLY | END_ENVIRONMENT_NAME => true
  | _ => false

/-- Stop set of the loop of `Parser::preamble`. -/
def preambleStop : SyntaxKind → Bool
  | END_ENVIRONMENT_NAME => true
  | _ => false

/-- Stop set of the loop of `Parser::value`. -/
def valueStop : SyntaxKind → Bool
  | COMMA | R_BRACK | R_CURLY => true
  | _ => false

/-- Stop set of the trailing loop of `Parser::part`. -/
def partStop : SyntaxKind → Bool
  | END_ENVIRONMENT_NAME | R_CURLY | PART_NAME => true
  | _ => false

/-- Stop set of the trailing loop of `Parser::chapter`. -/
def chapterStop : SyntaxKind → Bool
  | END_ENVIRONMENT_NAME | R_CURLY | PART_NAME | CHAPTER_NAME => true
  | _ => false

/-- Stop set of the trailing loop of `Parser::section`. -/
def sectionStop : SyntaxKind → Bool
  | END_ENVIRONMENT_NAME | R_CURLY | PART_NAME | CHAPTER_NAME
  | SECTION_NAME => true
  | _ => false

/-- Stop set of the trailing loop of `Parser::subsection`. -/
def subsectionStop : SyntaxKind → Bool
  | END_ENVIRONMENT_NAME | R_CURLY | PART_NAME | CHAPTER_NAME | SECTION_NAME
  | SUBSECTION_NAME => true
  | _ => false

/-- Stop set of the trailing loop of `Parser::subsubsection`. -/
def subsubsectionStop : SyntaxKind → Bool
  | END_ENVIRONMENT_NAME | R_CURLY | PART_NAME | CHAPTER_NAME | SECTION_NAME
  | SUBSECTION_NAME | SUBSUBSECTION_NAME => true
  | _ => false

/-- Stop set of the trailing loop of `Parser::paragraph`. -/
def paragraphStop : SyntaxKind → Bool
  | END_ENVIRONMENT_NAME | R_CURLY | PART_NAME | CHAPTER_NAME | SECTION_NAME
  | SUBSECTION_NAME | SUBSUBSECTION_NAME | PARAGRAPH_NAME => true
  | _ => false

/-- Stop set of the trailing loop of `Parser::subparagraph`. -/
def subparagraphStop : SyntaxKind → Bool
  | END_ENVIRONMENT_NAME | R_CURLY | PART_NAME | CHAPTER_NAME | SECTION_NAME
  | SUBSECTION_NAME | SUBSUBSECTION_NAME | PARAGRAPH_NAME
  | SUBPARAGRAPH_NAME => true
  | _ => false

/-- Stop set of the trailing loop of `Parser::enum_item`. -/
def enumItemStop : SyntaxKind → Bool
  | END_ENVIRONMENT_NAME | R_CURLY | PART_NAME | CHAPTER_NAME | SECTION_NAME
  | SUBSECTION_NAME | SUBSUBSECTION_NAME | PARAGRAPH_NAME
  | SUBPARAGRAPH_NAME | ENUM_ITEM_NAME => true
  | _ => false

/-- Empty stop set: the top-level loop of `Parser::parse` runs to the end of
the input. -/
def noStop : SyntaxKind → Bool := fun _ => false

/-- An optional argument slot, `if cond { sub-rule } else { dflt }`: run the
sub-rule when the condition on the lookahead holds, otherwise append `dflt`
(nothing, or a `MISSING` placeholder for a mandatory slot) and leave the
stream unchanged. -/
def slotIf (cond : Prop) [Decidable cond]
    (x : Option (List GreenElem × List Token)) (dflt : List GreenElem)
    (r : List Token) : Option (List GreenElem × List Token) :=
  if cond then x else some (dflt, r)

mutual

/-- `Parser::content`: the dispatch heart. `none` on an empty stream models
the panic of `self.peek().unwrap()`; the final catch-all models the
`unreachable!()` arm (it is only reachable for node kinds, which the lexer
never emits). -/
def content : Nat → ParserContext → List Token → Option (List GreenElem × List Token)
  | 0, _, _ => none
  | _ + 1, _, [] => none
  | fuel + 1, context, t :: rest =>
    match t.kind with
    | LINE_BREAK | WHITESPACE | COMMENT | VERBATIM => some ([tokElem t], rest)
    | L_CURLY =>
      if context.allow_environment then curly_group fuel (t :: rest)
      else curly_group_without_environments fuel (t :: rest)
    | L_BRACK | L_PAREN => mixed_group fuel (t :: rest)
    | R_CURLY | R_BRACK | R_PAREN => some ([.node ERROR [tokElem t]], rest)
    | WORD | COMMA => text context (t :: rest)
    | EQUALITY_SIGN => some ([tokElem t], rest)
    | DOLLAR => formula fuel (t :: rest)
    | GENERIC_COMMAND_NAME => generic_command fuel (t :: rest)
    | BEGIN_ENVIRONMENT_NAME =>
      if context.allow_environment then environment fuel (t :: rest)
      else generic_command fuel (t :: rest)
    | END_ENVIRONMENT_NAME => generic_command fuel (t :: rest)
    | BEGIN_EQUATION_NAME => equation fuel (t :: rest)
    | END_EQUATION_NAME => generic_command fuel (t :: rest)
    | MISSING | ERROR => some ([tokElem t], rest)
    | PART_NAME => sectioning fuel PART partStop (t :: rest)
    | CHAPTER_NAME => sectioning fuel CHAPTER chapterStop (t :: rest)
    | SECTION_NAME => sectioning fuel SECTION sectionStop (t :: rest)
    | SUBSECTION_NAME => sectioning fuel SUBSECTION subsectionStop (t :: rest)
    | SUBSUBSECTION_NAME => sectioning fuel SUBSUBSECTION subsubsectionStop (t :: rest)
    | PARAGRAPH_NAME => sectioning fuel PARAGRAPH paragraphStop (t :: rest)
    | SUBPARAGRAPH_NAME => sectioning fuel SUBPARAGRAPH subparagraphStop (t :: rest)
    | ENUM_ITEM_NAME => enum_item fuel (t :: rest)
    | CAPTION_NAME => caption fuel (t :: rest)
    | CITATION_NAME => citation fuel (t :: rest)
    | PACKAGE_INCLUDE_NAME => generic_include fuel PACKAGE_INCLUDE true (t :: rest)
    | CLASS_INCLUDE_NAME => generic_include fuel CLASS_INCLUDE true (t :: rest)
    | LATEX_INCLUDE_NAME => generic_include fuel LATEX_INCLUDE false (t :: rest)
    | BIBLATEX_INCLUDE_NAME => generic_include fuel BIBLATEX_INCLUDE true (t :: rest)
    | BIBTEX_INCLUDE_NAME => generic_include fuel BIBTEX_INCLUDE false (t :: rest)
    | GRAPHICS_INCLUDE_NAME => generic_include fuel GRAPHICS_INCLUDE true (t :: rest)
    | SVG_INCLUDE_NAME => generic_include fuel SVG_INCLUDE true (t :: rest)
    | INKSCAPE_INCLUDE_NAME => generic_include fuel INKSCAPE_INCLUDE true (t :: rest)
    | VERBATIM_INCLUDE_NAME => generic_include fuel VERBATIM_INCLUDE false (t :: rest)
    | IMPORT_NAME => importCmd fuel (t :: rest)
    | LABEL_DEFINITION_NAME => label_definition fuel (t :: rest)
    | LABEL_REFERENCE_NAME => label_reference (t :: rest)
    | LABEL_REFERENCE_RANGE_NAME => label_reference_range fuel (t :: rest)
    | LABEL_NUMBER_NAME => label_number fuel (t :: rest)
    | COMMAND_DEFINITION_NAME => command_definition fuel (t :: rest)
    | MATH_OPERATOR_NAME => math_operator fuel (t :: rest)
    | GLOSSARY_ENTRY_DEFINITION_NAME => glossary_entry_definition fuel (t :: rest)
    | GLOSSARY_ENTRY_REFERENCE_NAME => glossary_entry_reference fuel (t :: rest)
    | ACRONYM_DEFINITION_NAME => acronym_definition fuel (t :: rest)
    | ACRONYM_DECLARATION_NAME => acronym_declaration fuel (t :: rest)
    | ACRONYM_REFERENCE_NAME => acronym_reference fuel (t :: rest)
    | THEOREM_DEFINITION_NAME => theorem_definition fuel (t :: rest)
    | COLOR_REFERENCE_NAME => color_reference fuel (t :: rest)
    | COLOR_DEFINITION_NAME => color_definition fuel (t :: rest)
    | COLOR_SET_DEFINITION_NAME => color_set_definition fuel (t :: rest)
    | TIKZ_LIBRARY_IMPORT_NAME => tikz_library_import (t :: rest)
    | ENVIRONMENT_DEFINITION_NAME => environment_definition fuel (t :: rest)
    | BEGIN_BLOCK_COMMENT_NAME => block_comment (t :: rest)
    | END_BLOCK_COMMENT_NAME => generic_command fuel (t :: rest)
    | GRAPHICS_PATH_NAME => graphics_path fuel (t :: rest)
    | _ => none

/-- The shared shape of the `while … { self.content(…) }` loops: run `content`
until the end of the input or a token whose kind is in the stop set. -/
def contentLoop : Nat → (SyntaxKind → Bool) → ParserContext → List Token →
    Option (List GreenElem × List Token)
  | 0, _, _, _ => none
  | _ + 1, _, _, [] => some ([], [])
  | fuel + 1, stop, context, t :: rest =>
    if stop t.kind then some ([], t :: rest)
    else do
      let (es1, r1) ← content fuel context (t :: rest)
      let (es2, r2) ← contentLoop fuel stop context r1
      some (es1 ++ es2, r2)

/-- `Parser::curly_group`. -/
def curly_group : Nat → List Token → Option (List GreenElem × List Token)
  | 0, _ => none
  | _ + 1, [] => none
  | fuel + 1, t :: rest => do
    let (es, r1) ← contentLoop fuel curlyStop ctxDefault rest
    let (ce, r2) := expect R_CURLY r1
    some ([.node CURLY_GROUP (tokElem t :: es ++ ce)], r2)

/-- The loop of `Parser::curly_group_impl`: like the `curly_group` loop, but
`\begin`/`\end` are parsed as bare `BEGIN`/`END` nodes. -/
def cgiLoop : Nat → List Token → Option (List GreenElem × List Token)
  | 0, _ => none
  | _ + 1, [] => some ([], [])
  | fuel + 1, t :: rest =>
    match t.kind with
    | R_CURLY => some ([], t :: rest)
    | BEGIN_ENVIRONMENT_NAME => do
      let (es1, r1) ← begin fuel (t :: rest)
      let (es2, r2) ← cgiLoop fuel r1
      some (es1 ++ es2, r2)
    | END_ENVIRONMENT_NAME => do
      let (es1, r1) ← endCmd fuel (t :: rest)
      let (es2, r2) ← cgiLoop fuel r1
      some (es1 ++ es2, r2)
    | _ => do
      let (es1, r1) ← content fuel ctxDefault (t :: rest)
      let (es2, r2) ← cgiLoop fuel r1
      some (es1 ++ es2, r2)

/-- `Parser::curly_group_impl`. -/
def curly_group_impl : Nat → List Token → Option (List GreenElem × List Token)
  | 0, _ => none
  | _ + 1, [] => none
  | fuel + 1, t :: rest => do
    let (es, r1) ← cgiLoop fuel rest
    let (ce, r2) := expect R_CURLY r1
    some ([.node CURLY_GROUP (tokElem t :: es ++ ce)], r2)

/-- `Parser::curly_group_without_environments`. -/
def curly_group_without_environments : Nat → List Token →
    Option (List GreenElem × List Token)
  | 0, _ => none
  | _ + 1, [] => none
  | fuel + 1, t :: rest => do
    let (es, r1) ← contentLoop fuel curlyStop ⟨false, true⟩ rest
    let (ce, r2) := expect R_CURLY r1
    some ([.node CURLY_GROUP (tokElem t :: es ++ ce)], r2)

/-- `Parser::curly_group_word`. -/
def curly_group_word : Nat → List Token → Option (List GreenElem × List Token)
  | 0, _ => none
  | _ + 1, [] => none
  | fuel + 1, t :: rest =>
    let (tr, r0) := takeTrivia rest
    match r0 with
    | u :: r0' =>
      if u.kind = WORD then
        let (ke, r1) := keyCore u r0'
        let (ce, r2) := expect R_CURLY r1
        some ([.node CURLY_GROUP_WORD (tokElem t :: tr ++ [ke] ++ ce)], r2)
      else if u.kind.isCommandName then do
        let (es, r1) ← content fuel ctxDefault (u :: r0')
        let (ce, r2) := expect R_CURLY r1
        some ([.node CURLY_GROUP_WORD (tokElem t :: tr ++ es ++ ce)], r2)
      else
        let (ce, r2) := expect R_CURLY (u :: r0')
        some ([.node CURLY_GROUP_WORD (tokElem t :: tr ++ [missingTok] ++ ce)], r2)
    | [] =>
      let (ce, r2) := expect R_CURLY []
      some ([.node CURLY_GROUP_WORD (tokElem t :: tr ++ [missingTok] ++ ce)], r2)

/-- `Parser::brack_group`. -/
def brack_group : Nat → List Token → Option (List GreenElem × List Token)
  | 0, _ => none
  | _ + 1, [] => none
  | fuel + 1, t :: rest => do
    let (es, r1) ← contentLoop fuel brackGroupStop ctxDefault rest
    let (ce, r2) := expect R_BRACK r1
    some ([.node BRACK_GROUP (tokElem t :: es ++ ce)], r2)

/-- `Parser::mixed_group`. -/
def mixed_group : Nat → List Token → Option (List GreenElem × List Token)
  | 0, _ => none
  | _ + 1, [] => none
  | fuel + 1, t :: rest =>
    let (tr, r0) := takeTrivia rest
    do
      let (es, r1) ← contentLoop fuel mixedGroupStop ctxDefault r0
      let (ce, r2) := expect2 R_BRACK R_PAREN r1
      some ([.node MIXED_GROUP (tokElem t :: tr ++ es ++ ce)], r2)

/-- `Parser::value`. -/
def value : Nat → List Token → Option (List GreenElem × List Token)
  | 0, _ => none
  | fuel + 1, toks => do
    let (es, r) ← contentLoop fuel valueStop ⟨true, false⟩ toks
    some ([.node VALUE es], r)

/-- `Parser::key_value_pair`. -/
def key_value_pair : Nat → List Token → Option (List GreenElem × List Token)
  | 0, _ => none
  | _ + 1, [] => none
  | fuel + 1, t :: rest =>
    let (ke, r1) := keyCore t rest
    match r1 with
    | u :: r1' =>
      if u.kind = EQUALITY_SIGN then
        let (tr, r2) := takeTrivia r1'
        match headKind r2 with
        | some END_ENVIRONMENT_NAME | some R_CURLY | some R_BRACK
        | some R_PAREN | some COMMA | none =>
          some ([.node KEY_VALUE_PAIR ((ke :: tokElem u :: tr) ++ [missingTok])], r2)
        | some _ => do
          let (ves, r3) ← value fuel r2
          some ([.node KEY_VALUE_PAIR ((ke :: tokElem u :: tr) ++ ves)], r3)
      else some ([.node KEY_VALUE_PAIR [ke]], u :: r1')
    | [] => some ([.node KEY_VALUE_PAIR [ke]], [])

/-- The loop of `Parser::key_value_body`. -/
def kvbLoop : Nat → List Token → Option (List GreenElem × List Token)
  | 0, _ => none
  | _ + 1, [] => some ([], [])
  | fuel + 1, t :: rest =>
    match t.kind with
    | LINE_BREAK | WHITESPACE | COMMENT => do
      let (es, r) ← kvbLoop fuel rest
      some (tokElem t :: es, r)
    | WORD => do
      let (pes, r1) ← key_value_pair fuel (t :: rest)
      match r1 with
      | u :: r1' =>
        if u.kind = COMMA then do
          let (es2, r2) ← kvbLoop fuel r1'
          some (pes ++ tokElem u :: es2, r2)
        else some (pes, u :: r1')
      | [] => some (pes, [])
    | _ => some ([], t :: rest)

/-- `Parser::key_value_body`. -/
def key_value_body : Nat → List Token → Option (List GreenElem × List Token)
  | 0, _ => none
  | fuel + 1, toks => do
    let (es, r) ← kvbLoop fuel toks
    some ([.node KEY_VALUE_BODY es], r)

/-- `Parser::group_key_value` (shared by `curly_group_key_value` and
`brack_group_key_value`). -/
def group_key_value : Nat → SyntaxKind → SyntaxKind → List Token →
    Option (List GreenElem × List Token)
  | 0, _, _, _ => none
  | _ + 1, _, _, [] => none
  | fuel + 1, node_kind, right_kind, t :: rest =>
    let (tr, r0) := takeTrivia rest
    do
      let (bes, r1) ← key_value_body fuel r0
      let (ce, r2) := expect right_kind r1
      some ([.node node_kind (tokElem t :: tr ++ bes ++ ce)], r2)

/-- `Parser::formula`. -/
def formula : Nat → List Token → Option (List GreenElem × List Token)
  | 0, _ => none
  | _ + 1, [] => none
  | fuel + 1, t :: rest =>
    let (tr, r0) := takeTrivia rest
    do
      let (es, r1) ← contentLoop fuel formulaStop ctxDefault r0
      let (ce, r2) := expect DOLLAR r1
      some ([.node FORMULA (tokElem t :: tr ++ es ++ ce)], r2)

/-- The loop of `Parser::generic_command`: trivia leaves, curly groups and
mixed groups. -/
def gcLoop : Nat → List Token → Option (List GreenElem × List Token)
  | 0, _ => none
  | _ + 1, [] => some ([], [])
  | fuel + 1, t :: rest =>
    match t.kind with
    | LINE_BREAK | WHITESPACE | COMMENT => do
      let (es, r) ← gcLoop fuel rest
      some (tokElem t :: es, r)
    | L_CURLY => do
      let (g, r1) ← curly_group fuel (t :: rest)
      let (es, r2) ← gcLoop fuel r1
      some (g ++ es, r2)
    | L_BRACK | L_PAREN => do
      let (g, r1) ← mixed_group fuel (t :: rest)
      let (es, r2) ← gcLoop fuel r1
      some (g ++ es, r2)
    | _ => some ([], t :: rest)

/-- `Parser::generic_command`. -/
def generic_command : Nat → List Token → Option (List GreenElem × List Token)
  | 0, _ => none
  | _ + 1, [] => none
  | fuel + 1, t :: rest => do
    let (es, r) ← gcLoop fuel rest
    some ([.node GENERIC_COMMAND (tokElem t :: es)], r)

/-- `Parser::equation`. -/
def equation : Nat → List Token → Option (List GreenElem × List Token)
  | 0, _ => none
  | _ + 1, [] => none
  | fuel + 1, t :: rest => do
    let (es, r1) ← contentLoop fuel equationStop ctxDefault rest
    let (ce, r2) := expect END_EQUATION_NAME r1
    some ([.node EQUATION (tokElem t :: es ++ ce)], r2)

/-- `Parser::begin`. -/
def begin : Nat → List Token → Option (List GreenElem × List Token)
  | 0, _ => none
  | _ + 1, [] => none
  | fuel + 1, t :: rest =>
    let (tr, r0) := takeTrivia rest
    do
      let (g, r1) ← slotIf (headKind r0 = some L_CURLY) (curly_group_word fuel r0) [missingTok] r0
      let (b, r2) ← slotIf (headKind r1 = some L_BRACK) (brack_group fuel r1) [] r1
      some ([.node BEGIN (tokElem t :: tr ++ g ++ b)], r2)

/-- `Parser::end`. -/
def endCmd : Nat → List Token → Option (List GreenElem × List Token)
  | 0, _ => none
  | _ + 1, [] => none
  | fuel + 1, t :: rest =>
    let (tr, r0) := takeTrivia rest
    do
      let (g, r1) ← slotIf (headKind r0 = some L_CURLY) (curly_group_word fuel r0) [missingTok] r0
      some ([.node END (tokElem t :: tr ++ g)], r1)

/-- `Parser::environment`. -/
def environment : Nat → List Token → Option (List GreenElem × List Token)
  | 0, _ => none
  | fuel + 1, toks => do
    let (bes, r1) ← begin fuel toks
    let (mid, r2) ← contentLoop fuel envBodyStop ctxDefault r1
    if headKind r2 = some END_ENVIRONMENT_NAME then do
      let (ees, r3) ← endCmd fuel r2
      some ([.node ENVIRONMENT (bes ++ mid ++ ees)], r3)
    else some ([.node ENVIRONMENT (bes ++ mid ++ [missingTok])], r2)

/-- `Parser::preamble`. -/
def preamble : Nat → List Token → Option (List GreenElem × List Token)
  | 0, _ => none
  | fuel + 1, toks => do
    let (es, r) ← contentLoop fuel preambleStop ctxDefault toks
    some ([.node PREAMBLE es], r)

/-- The shared shape of `Parser::part` … `Parser::subparagraph`: the command
token, trivia, a mandatory curly-group title, then sibling content until a
kind from the rule's stop set. -/
def sectioning : Nat → SyntaxKind → (SyntaxKind → Bool) → List Token →
    Option (List GreenElem × List Token)
  | 0, _, _, _ => none
  | _ + 1, _, _, [] => none
  | fuel + 1, kind, stop, t :: rest =>
    let (tr, r0) := takeTrivia rest
    do
      let (g, r1) ← slotIf (headKind r0 = some L_CURLY) (curly_group fuel r0) [missingTok] r0
      let (es, r2) ← contentLoop fuel stop ctxDefault r1
      some ([.node kind (tokElem t :: tr ++ g ++ es)], r2)

/-- `Parser::enum_item`. -/
def enum_item : Nat → List Token → Option (List GreenElem × List Token)
  | 0, _ => none
  | _ + 1, [] => none
  | fuel + 1, t :: rest =>
    let (tr, r0) := takeTrivia rest
    do
      let (b, r1) ← slotIf (headKind r0 = some L_BRACK) (brack_group fuel r0) [] r0
      let (es, r2) ← contentLoop fuel enumItemStop ctxDefault r1
      some ([.node ENUM_ITEM (tokElem t :: tr ++ b ++ es)], r2)

/-- `Parser::caption`. -/
def caption : Nat → List Token → Option (List GreenElem × List Token)
  | 0, _ => none
  | _ + 1, [] => none
  | fuel + 1, t :: rest =>
    let (tr, r0) := takeTrivia rest
    do
      let (b, r1) ← slotIf (headKind r0 = some L_BRACK) (brack_group fuel r0) [] r0
      let (g, r2) ← slotIf (headKind r1 = some L_CURLY) (curly_group fuel r1) [missingTok] r1
      some ([.node CAPTION (tokElem t :: tr ++ b ++ g)], r2)

/-- `Parser::citation`: the `for _ in 0..2` loop over optional bracket groups
is unrolled into its two iterations. -/
def citation : Nat → List Token → Option (List GreenElem × List Token)
  | 0, _ => none
  | _ + 1, [] => none
  | fuel + 1, t :: rest =>
    let (tr, r0) := takeTrivia rest
    do
      let (b1, r1) ← slotIf (headKind r0 = some L_BRACK) (brack_group fuel r0) [] r0
      let (b2, r2) ← slotIf (headKind r1 = some L_BRACK) (brack_group fuel r1) [] r1
      let (g, r3) ← slotIf (headKind r2 = some L_CURLY) (curly_group_word_list r2) [missingTok] r2
      some ([.node CITATION (tokElem t :: tr ++ b1 ++ b2 ++ g)], r3)

/-- `Parser::generic_include`, parametrised by the node kind and whether a
key-value options block is accepted. -/
def generic_include : Nat → SyntaxKind → Bool → List Token →
    Option (List GreenElem × List Token)
  | 0, _, _, _ => none
  | _ + 1, _, _, [] => none
  | fuel + 1, kind, options, t :: rest =>
    let (tr, r0) := takeTrivia rest
    do
      let (b, r1) ← slotIf (options = true ∧ headKind r0 = some L_BRACK)
          (group_key_value fuel BRACK_GROUP_KEY_VALUE R_BRACK r0) [] r0
      let (g, r2) ← slotIf (headKind r1 = some L_CURLY)
          (curly_group_path_list fuel r1) [missingTok] r1
      some ([.node kind (tokElem t :: tr ++ b ++ g)], r2)

/-- `Parser::import`. -/
def importCmd : Nat → List Token → Option (List GreenElem × List Token)
  | 0, _ => none
  | _ + 1, [] => none
  | fuel + 1, t :: rest =>
    let (tr, r0) := takeTrivia rest
    do
      let (g1, r1) ← slotIf (headKind r0 = some L_CURLY) (curly_group_word fuel r0) [missingTok] r0
      let (g2, r2) ← slotIf (headKind r1 = some L_CURLY) (curly_group_word fuel r1) [missingTok] r1
      some ([.node IMPORT (tokElem t :: tr ++ g1 ++ g2)], r2)

/-- `Parser::label_definition`. -/
def label_definition : Nat → List Token → Option (List GreenElem × List Token)
  | 0, _ => none
  | _ + 1, [] => none
  | fuel + 1, t :: rest =>
    let (tr, r0) := takeTrivia rest
    do
      let (g, r1) ← slotIf (headKind r0 = some L_CURLY) (curly_group_word fuel r0) [missingTok] r0
      some ([.node LABEL_DEFINITION (tokElem t :: tr ++ g)], r1)

/-- `Parser::label_reference_range`. -/
def label_reference_range : Nat → List Token → Option (List GreenElem × List Token)
  | 0, _ => none
  | _ + 1, [] => none
  | fuel + 1, t :: rest =>
    let (tr, r0) := takeTrivia rest
    do
      let (g1, r1) ← slotIf (headKind r0 = some L_CURLY) (curly_group_word fuel r0) [missingTok] r0
      let (g2, r2) ← slotIf (headKind r1 = some L_CURLY) (curly_group_word fuel r1) [missingTok] r1
      some ([.node LABEL_REFERENCE_RANGE (tokElem t :: tr ++ g1 ++ g2)], r2)

/-- `Parser::label_number`: note the unconditional `MISSING` appended right
after the second curly group when that group is present. -/
def label_number : Nat → List Token → Option (List GreenElem × List Token)
  | 0, _ => none
  | _ + 1, [] => none
  | fuel + 1, t :: rest =>
    let (tr, r0) := takeTrivia rest
    do
      let (g1, r1) ← slotIf (headKind r0 = some L_CURLY) (curly_group_word fuel r0) [missingTok] r0
      let (g2, r2) ← slotIf (headKind r1 = some L_CURLY)
          (do
            let (cg, r') ← curly_group fuel r1
            some (cg ++ [missingTok], r'))
          [] r1
      some ([.node LABEL_NUMBER (tokElem t :: tr ++ g1 ++ g2)], r2)

/-- `Parser::command_definition`. -/
def command_definition : Nat → List Token → Option (List GreenElem × List Token)
  | 0, _ => none
  | _ + 1, [] => none
  | fuel + 1, t :: rest =>
    let (tr, r0) := takeTrivia rest
    do
      let (c, r1) ← slotIf (headKind r0 = some L_CURLY) (curly_group_command r0) [missingTok] r0
      let (b, r2) ← slotIf (headKind r1 = some L_BRACK)
          (do
            let (bw, r') ← brack_group_word r1
            if headKind r' = some L_BRACK then do
              let (bg, r'') ← brack_group fuel r'
              some (bw ++ bg, r'')
            else some (bw, r'))
          [] r1
      let (impl, r3) ← slotIf (headKind r2 = some L_CURLY) (curly_group_impl fuel r2) [missingTok] r2
      some ([.node COMMAND_DEFINITION (tokElem t :: tr ++ c ++ b ++ impl)], r3)

/-- `Parser::math_operator`. -/
def math_operator : Nat → List Token → Option (List GreenElem × List Token)
  | 0, _ => none
  | _ + 1, [] => none
  | fuel + 1, t :: rest =>
    let (tr, r0) := takeTrivia rest
    do
      let (c, r1) ← slotIf (headKind r0 = some L_CURLY) (curly_group_command r0) [missingTok] r0
      let (impl, r2) ← slotIf (headKind r1 = some L_CURLY) (curly_group_impl fuel r1) [missingTok] r1
      some ([.node MATH_OPERATOR (tokElem t :: tr ++ c ++ impl)], r2)

/-- `Parser::glossary_entry_definition`. -/
def glossary_entry_definition : Nat → List Token →
    Option (List GreenElem × List Token)
  | 0, _ => none
  | _ + 1, [] => none
  | fuel + 1, t :: rest =>
    let (tr, r0) := takeTrivia rest
    do
      let (g, r1) ← slotIf (headKind r0 = some L_CURLY) (curly_group_word fuel r0) [missingTok] r0
      let (kv, r2) ← slotIf (headKind r1 = some L_CURLY)
          (group_key_value fuel CURLY_GROUP_KEY_VALUE R_CURLY r1) [missingTok] r1
      some ([.node GLOSSARY_ENTRY_DEFINITION (tokElem t :: tr ++ g ++ kv)], r2)

/-- `Parser::glossary_entry_reference`. -/
def glossary_entry_reference : Nat → List Token →
    Option (List GreenElem × List Token)
  | 0, _ => none
  | _ + 1, [] => none
  | fuel + 1, t :: rest =>
    let (tr, r0) := takeTrivia rest
    do
      let (b, r1) ← slotIf (headKind r0 = some L_BRACK)
          (group_key_value fuel BRACK_GROUP_KEY_VALUE R_BRACK r0) [] r0
      let (g, r2) ← slotIf (headKind r1 = some L_CURLY) (curly_group_word fuel r1) [missingTok] r1
      some ([.node GLOSSARY_ENTRY_REFERENCE (tokElem t :: tr ++ b ++ g)], r2)

/-- `Parser::acronym_definition` (all five argument slots are optional — no
`MISSING` placeholders at all). -/
def acronym_definition : Nat → List Token → Option (List GreenElem × List Token)
  | 0, _ => none
  | _ + 1, [] => none
  | fuel + 1, t :: rest =>
    let (tr, r0) := takeTrivia rest
    do
      let (b, r1) ← slotIf (headKind r0 = some L_BRACK)
          (group_key_value fuel BRACK_GROUP_KEY_VALUE R_BRACK r0) [] r0
      let (g, r2) ← slotIf (headKind r1 = some L_CURLY) (curly_group_word fuel r1) [] r1
      let (b2, r3) ← slotIf (headKind r2 = some L_BRACK) (brack_group fuel r2) [] r2
      let (c1, r4) ← slotIf (headKind r3 = some L_CURLY) (curly_group fuel r3) [] r3
      let (c2, r5) ← slotIf (headKind r4 = some L_CURLY) (curly_group fuel r4) [] r4
      some ([.node ACRONYM_DEFINITION (tokElem t :: tr ++ b ++ g ++ b2 ++ c1 ++ c2)], r5)

/-- `Parser::acronym_declaration`. -/
def acronym_declaration : Nat → List Token → Option (List GreenElem × List Token)
  | 0, _ => none
  | _ + 1, [] => none
  | fuel + 1, t :: rest =>
    let (tr, r0) := takeTrivia rest
    do
      let (g, r1) ← slotIf (headKind r0 = some L_CURLY) (curly_group_word fuel r0) [missingTok] r0
      let (kv, r2) ← slotIf (headKind r1 = some L_CURLY)
          (group_key_value fuel CURLY_GROUP_KEY_VALUE R_CURLY r1) [missingTok] r1
      some ([.node ACRONYM_DECLARATION (tokElem t :: tr ++ g ++ kv)], r2)

/-- `Parser::acronym_reference`. -/
def acronym_reference : Nat → List Token → Option (List GreenElem × List Token)
  | 0, _ => none
  | _ + 1, [] => none
  | fuel + 1, t :: rest =>
    let (tr, r0) := takeTrivia rest
    do
      let (b, r1) ← slotIf (headKind r0 = some L_BRACK)
          (group_key_value fuel BRACK_GROUP_KEY_VALUE R_BRACK r0) [] r0
      let (g, r2) ← slotIf (headKind r1 = some L_CURLY) (curly_group_word fuel r1) [missingTok] r1
      some ([.node ACRONYM_REFERENCE (tokElem t :: tr ++ b ++ g)], r2)

/-- `Parser::theorem_definition`. -/
def theorem_definition : Nat → List Token → Option (List GreenElem × List Token)
  | 0, _ => none
  | _ + 1, [] => none
  | fuel + 1, t :: rest =>
    let (tr, r0) := takeTrivia rest
    do
      let (g, r1) ← slotIf (headKind r0 = some L_CURLY) (curly_group_word fuel r0) [missingTok] r0
      let (b, r2) ← slotIf (headKind r1 = some L_BRACK) (brack_group_word r1) [] r1
      let (c, r3) ← slotIf (headKind r2 = some L_CURLY) (curly_group fuel r2) [missingTok] r2
      let (b2, r4) ← slotIf (headKind r3 = some L_BRACK) (brack_group_word r3) [] r3
      some ([.node THEOREM_DEFINITION (tokElem t :: tr ++ g ++ b ++ c ++ b2)], r4)

/-- `Parser::color_reference`. -/
def color_reference : Nat → List Token → Option (List GreenElem × List Token)
  | 0, _ => none
  | _ + 1, [] => none
  | fuel + 1, t :: rest =>
    let (tr, r0) := takeTrivia rest
    do
      let (g, r1) ← slotIf (headKind r0 = some L_CURLY) (curly_group_word fuel r0) [missingTok] r0
      some ([.node COLOR_REFERENCE (tokElem t :: tr ++ g)], r1)

/-- `Parser::color_definition`. -/
def color_definition : Nat → List Token → Option (List GreenElem × List Token)
  | 0, _ => none
  | _ + 1, [] => none
  | fuel + 1, t :: rest =>
    let (tr, r0) := takeTrivia rest
    do
      let (g1, r1) ← slotIf (headKind r0 = some L_CURLY) (curly_group_word fuel r0) [missingTok] r0
      let (g2, r2) ← slotIf (headKind r1 = some L_CURLY) (curly_group_word fuel r1) [missingTok] r1
      let (c, r3) ← slotIf (headKind r2 = some L_CURLY) (curly_group fuel r2) [missingTok] r2
      some ([.node COLOR_DEFINITION (tokElem t :: tr ++ g1 ++ g2 ++ c)], r3)

/-- `Parser::color_set_definition`: the `for _ in 0..3` loop is unrolled. -/
def color_set_definition : Nat → List Token → Option (List GreenElem × List Token)
  | 0, _ => none
  | _ + 1, [] => none
  | fuel + 1, t :: rest =>
    let (tr, r0) := takeTrivia rest
    do
      let (b, r1) ← slotIf (headKind r0 = some L_BRACK) (brack_group_word r0) [] r0
      let (gl, r2) ← slotIf (headKind r1 = some L_CURLY) (curly_group_word_list r1) [missingTok] r1
      let (g1, r3) ← slotIf (headKind r2 = some L_CURLY) (curly_group_word fuel r2) [missingTok] r2
      let (g2, r4) ← slotIf (headKind r3 = some L_CURLY) (curly_group_word fuel r3) [missingTok] r3
      let (g3, r5) ← slotIf (headKind r4 = some L_CURLY) (curly_group_word fuel r4) [missingTok] r4
      some ([.node COLOR_SET_DEFINITION (tokElem t :: tr ++ b ++ gl ++ g1 ++ g2 ++ g3)], r5)

/-- `Parser::environment_definition`. -/
def environment_definition : Nat → List Token →
    Option (List GreenElem × List Token)
  | 0, _ => none
  | _ + 1, [] => none
  | fuel + 1, t :: rest =>
    let (tr, r0) := takeTrivia rest
    do
      let (g, r1) ← slotIf (headKind r0 = some L_CURLY) (curly_group_word fuel r0) [missingTok] r0
      let (b, r2) ← slotIf (headKind r1 = some L_BRACK)
          (do
            let (bw, r') ← brack_group_word r1
            if headKind r' = some L_BRACK then do
              let (bg, r'') ← brack_group fuel r'
              some (bw ++ bg, r'')
            else some (bw, r'))
          [] r1
      let (c1, r3) ← slotIf (headKind r2 = some L_CURLY) (curly_group_without_environments fuel r2) [missingTok] r2
      let (c2, r4) ← slotIf (headKind r3 = some L_CURLY) (curly_group_without_environments fuel r3) [missingTok] r3
      some ([.node ENVIRONMENT_DEFINITION (tokElem t :: tr ++ g ++ b ++ c1 ++ c2)], r4)

/-- The inner loop of `Parser::graphics_path`: successive nested
`curly_group_path`s. -/
def gpLoop : Nat → List Token → Option (List GreenElem × List Token)
  | 0, _ => none
  | _ + 1, [] => some ([], [])
  | fuel + 1, t :: rest =>
    if t.kind = L_CURLY then do
      let (g, r1) ← curly_group_path fuel (t :: rest)
      let (es, r2) ← gpLoop fuel r1
      some (g ++ es, r2)
    else some ([], t :: rest)

/-- The lookahead test of `Parser::graphics_path`:
`matches!(self.lexer.peek(), Some(WORD | EQUALITY_SIGN | L_BRACK | R_BRACK |
GENERIC_COMMAND_NAME))`. -/
def gpWordlike : Option SyntaxKind → Bool
  | some WORD | some EQUALITY_SIGN | some L_BRACK | some R_BRACK
  | some GENERIC_COMMAND_NAME => true
  | _ => false

/-- `Parser::graphics_path`: the only rule with a retroactive node kind: the
checkpointed region becomes a `CURLY_GROUP_WORD` around a single `path` when
the token after the opening curly (and trivia) is word-like, and a plain
`CURLY_GROUP` of nested `curly_group_path`s otherwise. -/
def graphics_path : Nat → List Token → Option (List GreenElem × List Token)
  | 0, _ => none
  | _ + 1, [] => none
  | fuel + 1, t :: rest =>
    let (tr, r0) := takeTrivia rest
    match r0 with
    | u :: r0' =>
      if u.kind = L_CURLY then
        let (tr2, r1) := takeTrivia r0'
        if gpWordlike (headKind r1) = true then do
          let (pes, r2) ← path fuel r1
          let (ce, r3) := expect R_CURLY r2
          some ([.node GRAPHICS_PATH
            (tokElem t :: tr ++ [.node CURLY_GROUP_WORD (tokElem u :: tr2 ++ pes ++ ce)])], r3)
        else do
          let (ges, r2) ← gpLoop fuel r1
          let (ce, r3) := expect R_CURLY r2
          some ([.node GRAPHICS_PATH
            (tokElem t :: tr ++ [.node CURLY_GROUP (tokElem u :: tr2 ++ ges ++ ce)])], r3)
      else some ([.node GRAPHICS_PATH (tokElem t :: tr)], u :: r0')
    | [] => some ([.node GRAPHICS_PATH (tokElem t :: tr)], [])

/-- The loop of `Parser::path`. -/
def pathLoop : Nat → List Token → Option (List GreenElem × List Token)
  | 0, _ => none
  | _ + 1, [] => some ([], [])
  | fuel + 1, t :: rest =>
    match t.kind with
    | WHITESPACE | COMMENT | WORD | EQUALITY_SIGN | L_BRACK | R_BRACK
    | GENERIC_COMMAND_NAME => do
      let (es, r) ← pathLoop fuel rest
      some (tokElem t :: es, r)
    | L_CURLY => do
      let (g, r1) ← curly_group_path fuel (t :: rest)
      let (es, r2) ← pathLoop fuel r1
      some (g ++ es, r2)
    | _ => some ([], t :: rest)

/-- `Parser::path`. -/
def path : Nat → List Token → Option (List GreenElem × List Token)
  | 0, _ => none
  | _ + 1, [] => none
  | fuel + 1, t :: rest => do
    let (es, r) ← pathLoop fuel rest
    some ([.node KEY (tokElem t :: es)], r)

/-- The loop of `Parser::curly_group_path`. -/
def cgpLoop : Nat → List Token → Option (List GreenElem × List Token)
  | 0, _ => none
  | _ + 1, [] => some ([], [])
  | fuel + 1, t :: rest =>
    match t.kind with
    | COMMENT | WORD | EQUALITY_SIGN | COMMA | L_BRACK | R_BRACK
    | GENERIC_COMMAND_NAME => do
      let (p, r1) ← path fuel (t :: rest)
      let (es, r2) ← cgpLoop fuel r1
      some (p ++ es, r2)
    | L_CURLY => do
      let (g, r1) ← curly_group_path fuel (t :: rest)
      let (es, r2) ← cgpLoop fuel r1
      some (g ++ es, r2)
    | WHITESPACE => do
      let (es, r) ← cgpLoop fuel rest
      some (tokElem t :: es, r)
    | _ => some ([], t :: rest)

/-- `Parser::curly_group_path` (node kind `CURLY_GROUP_WORD`). -/
def curly_group_path : Nat → List Token → Option (List GreenElem × List Token)
  | 0, _ => none
  | _ + 1, [] => none
  | fuel + 1, t :: rest =>
    let (tr, r0) := takeTrivia rest
    do
      let (es, r1) ← cgpLoop fuel r0
      let (ce, r2) := expect R_CURLY r1
      some ([.node CURLY_GROUP_WORD (tokElem t :: tr ++ es ++ ce)], r2)

/-- The loop of `Parser::curly_group_path_list`. -/
def cgplLoop : Nat → List Token → Option (List GreenElem × List Token)
  | 0, _ => none
  | _ + 1, [] => some ([], [])
  | fuel + 1, t :: rest =>
    match t.kind with
    | COMMENT | WORD | EQUALITY_SIGN | L_BRACK | R_BRACK
    | GENERIC_COMMAND_NAME => do
      let (p, r1) ← path fuel (t :: rest)
      let (es, r2) ← cgplLoop fuel r1
      some (p ++ es, r2)
    | WHITESPACE | LINE_BREAK | COMMA => do
      let (es, r) ← cgplLoop fuel rest
      some (tokElem t :: es, r)
    | L_CURLY => do
      let (g, r1) ← curly_group_path fuel (t :: rest)
      let (es, r2) ← cgplLoop fuel r1
      some (g ++ es, r2)
    | _ => some ([], t :: rest)

/-- `Parser::curly_group_path_list` (node kind `CURLY_GROUP_WORD_LIST`). -/
def curly_group_path_list : Nat → List Token → Option (List GreenElem × List Token)
  | 0, _ => none
  | _ + 1, [] => none
  | fuel + 1, t :: rest =>
    let (tr, r0) := takeTrivia rest
    do
      let (es, r1) ← cgplLoop fuel r0
      let (ce, r2) := expect R_CURLY r1
      some ([.node CURLY_GROUP_WORD_LIST (tokElem t :: tr ++ es ++ ce)], r2)

end

/-- `Parser::curly_group_key_value`. -/
def curly_group_key_value (fuel : Nat) : List Token →
    Option (List GreenElem × List Token) :=
  group_key_value fuel CURLY_GROUP_KEY_VALUE R_CURLY

/-- `Parser::brack_group_key_value`. -/
def brack_group_key_value (fuel : Nat) : List Token →
    Option (List GreenElem × List Token) :=
  group_key_value fuel BRACK_GROUP_KEY_VALUE R_BRACK

/-- The fuel with which `parse_latex` runs the parser; the totality theorem
shows it is always sufficient. -/
def parseFuel (toks : List Token) : Nat := 4 * toks.length + 32

/-- `parse_latex` / `Parser::parse`: a `ROOT` node containing the preamble and
then content until the end of the input. -/
def parse_latex (toks : List Token) : Option GreenElem := do
  let (pes, r1) ← preamble (parseFuel toks) toks
  let (es, _) ← contentLoop (parseFuel toks) noStop ctxDefault r1
  some (.node ROOT (pes ++ es))

/-- A token stream as produced by the lexer: every kind is from the token
band, i.e. handled by `content`'s dispatch. -/
def Good (toks : List Token) : Prop := ∀ t ∈ toks, t.kind.isTokenKind = true

/-- Shorthand for building concrete tokens. -/
def tk (k : SyntaxKind) (s : String) : Token := ⟨k, s⟩

/-- The set of kinds on which the argument loop of `Parser::generic_command`
keeps going: trivia, curly groups and mixed groups. -/
def gcContinue : SyntaxKind → Bool
  | LINE_BREAK | WHITESPACE | COMMENT | L_CURLY | L_BRACK | L_PAREN => true
  | _ => false

/-- Modelled from the spec: the lexer (`src/parser/lexer.rs` is not among the
provided sources) turns the input string into a stream of tokens whose texts
concatenate back to the input and whose kinds all lie in the token band of
`SyntaxKind` (trivia, text, punctuation, dollar, and the command-name kinds).
`LexerOutput s toks` says that `toks` is a lexer output for the input `s`. -/
def LexerOutput (s : String) (toks : List Token) : Prop :=
  textCat toks = s ∧ Good toks

theorem good_nil : Good [] := by intro t ht; cases ht

theorem good_tail {t : Token} {rest : List Token} (h : Good (t :: rest)) :
    Good rest := fun u hu => h u (List.mem_cons_of_mem t hu)

theorem good_head {t : Token} {rest : List Token} (h : Good (t :: rest)) :
    t.kind.isTokenKind = true := h t (List.mem_cons_self t rest)

@[simp] theorem sEmptyAppend (s : String) : "" ++ s = s := String.empty_append s

@[simp] theorem sAppendEmpty (s : String) : s ++ "" = s := String.append_empty s

@[simp] theorem leafCatL_nil : leafCatL [] = "" := rfl

@[simp] theorem leafCatL_cons (e : GreenElem) (es : List GreenElem) :
    leafCatL (e :: es) = leafCat e ++ leafCatL es := rfl

@[simp] theorem leafCat_token (k : SyntaxKind) (s : String) :
    leafCat (.token k s) = s := rfl

@[simp] theorem leafCat_node (k : SyntaxKind) (cs : List GreenElem) :
    leafCat (.node k cs) = leafCatL cs := rfl

@[simp] theorem leafCat_tokElem (t : Token) : leafCat (tokElem t) = t.text := rfl

@[simp] theorem leafCat_missingTok : leafCat missingTok = "" := rfl

@[simp] theorem leafCatL_append (a b : List GreenElem) :
    leafCatL (a ++ b) = leafCatL a ++ leafCatL b := by
  induction a with
  | nil => simp
  | cons e es ih => simp [ih, String.append_assoc]

@[simp] theorem textCat_nil : textCat [] = "" := rfl

@[simp] theorem textCat_cons (t : Token) (rest : List Token) :
    textCat (t :: rest) = t.text ++ textCat rest := rfl

/-- Invariant of a rule invocation that always consumes at least one token:
it succeeds, the remaining stream is a shorter well-kinded stream, and the
produced leaves concatenated with the remaining text reproduce the incoming
text. -/
def OutS (toks : List Token) (r : Option (List GreenElem × List Token)) : Prop :=
  ∃ es rest, r = some (es, rest) ∧ Good rest ∧ rest.length < toks.length ∧
    leafCatL es ++ textCat rest = textCat toks

/-- Like `OutS` but for loops, which may consume nothing. -/
def OutW (toks : List Token) (r : Option (List GreenElem × List Token)) : Prop :=
  ∃ es rest, r = some (es, rest) ∧ Good rest ∧ rest.length ≤ toks.length ∧
    leafCatL es ++ textCat rest = textCat toks

theorem takeTrivia_out :
    ∀ toks es r, takeTrivia toks = (es, r) → Good toks →
      Good r ∧ r.length ≤ toks.length ∧ leafCatL es ++ textCat r = textCat toks := by
  intro toks
  induction toks with
  | nil =>
    intro es r h _
    simp only [takeTrivia, Prod.mk.injEq] at h
    obtain ⟨he, hr⟩ := h
    subst he; subst hr
    exact ⟨good_nil, by simp, by simp⟩
  | cons t rest ih =>
    intro es r h hg
    rcases htr : takeTrivia rest with ⟨es2, r2⟩
    obtain ⟨hg2, hl, hfid⟩ := ih es2 r2 htr (good_tail hg)
    simp only [takeTrivia, htr] at h
    split at h <;>
      simp only [Prod.mk.injEq] at h <;>
      obtain ⟨he, hr⟩ := h <;>
      subst he <;> subst hr
    all_goals first
      | exact ⟨hg, by simp, by simp⟩
      | exact ⟨hg2, by simp; omega, by simp [String.append_assoc, hfid]⟩

theorem expect_out :
    ∀ k toks es r, expect k toks = (es, r) → Good toks →
      Good r ∧ r.length ≤ toks.length ∧ leafCatL es ++ textCat r = textCat toks := by
  intro k toks es r h hg
  match toks with
  | [] =>
    simp only [expect, Prod.mk.injEq] at h
    obtain ⟨he, hr⟩ := h
    subst he; subst hr
    exact ⟨good_nil, by simp, by simp [missingTok]⟩
  | t :: rest =>
    rcases htr : takeTrivia rest with ⟨es2, r2⟩
    obtain ⟨hg2, hl, hfid⟩ := takeTrivia_out rest es2 r2 htr (good_tail hg)
    simp only [expect, htr] at h
    split at h <;>
      simp only [Prod.mk.injEq] at h <;>
      obtain ⟨he, hr⟩ := h <;>
      subst he <;> subst hr
    · exact ⟨hg2, by simp; omega, by simp [String.append_assoc, hfid]⟩
    · exact ⟨hg, le_refl _, by simp [missingTok]⟩

theorem expect2_out :
    ∀ k1 k2 toks es r, expect2 k1 k2 toks = (es, r) → Good toks →
      Good r ∧ r.length ≤ toks.length ∧ leafCatL es ++ textCat r = textCat toks := by
  intro k1 k2 toks es r h hg
  match toks with
  | [] =>
    simp only [expect2, Prod.mk.injEq] at h
    obtain ⟨he, hr⟩ := h
    subst he; subst hr
    exact ⟨good_nil, by simp, by simp [missingTok]⟩
  | t :: rest =>
    rcases htr : takeTrivia rest with ⟨es2, r2⟩
    obtain ⟨hg2, hl, hfid⟩ := takeTrivia_out rest es2 r2 htr (good_tail hg)
    simp only [expect2, htr] at h
    split at h <;>
      simp only [Prod.mk.injEq] at h <;>
      obtain ⟨he, hr⟩ := h <;>
      subst he <;> subst hr
    · exact ⟨hg2, by simp; omega, by simp [String.append_assoc, hfid]⟩
    · exact ⟨hg, le_refl _, by simp [missingTok]⟩

theorem textTail_out :
    ∀ ac toks es r, textTail ac toks = (es, r) → Good toks →
      Good r ∧ r.length ≤ toks.length ∧ leafCatL es ++ textCat r = textCat toks := by
  intro ac toks
  induction toks with
  | nil =>
    intro es r h _
    simp only [textTail, Prod.mk.injEq] at h
    obtain ⟨he, hr⟩ := h
    subst he; subst hr
    exact ⟨good_nil, by simp, by simp⟩
  | cons t rest ih =>
    intro es r h hg
    rcases htr : textTail ac rest with ⟨es2, r2⟩
    obtain ⟨hg2, hl, hfid⟩ := ih es2 r2 htr (good_tail hg)
    simp only [textTail, htr] at h
    split at h
    all_goals first
      | (split at h <;>
           simp only [Prod.mk.injEq] at h <;>
           obtain ⟨he, hr⟩ := h <;>
           subst he <;> subst hr
         · exact ⟨hg2, by simp; omega, by simp [String.append_assoc, hfid]⟩
         · exact ⟨hg, le_refl _, by simp⟩)
      | (simp only [Prod.mk.injEq] at h
         obtain ⟨he, hr⟩ := h
         subst he; subst hr
         first
           | exact ⟨hg, le_refl _, by simp⟩
           | exact ⟨hg2, by simp; omega, by simp [String.append_assoc, hfid]⟩)

theorem keyTail_out :
    ∀ toks es r, keyTail toks = (es, r) → Good toks →
      Good r ∧ r.length ≤ toks.length ∧ leafCatL es ++ textCat r = textCat toks := by
  intro toks
  induction toks with
  | nil =>
    intro es r h _
    simp only [keyTail, Prod.mk.injEq] at h
    obtain ⟨he, hr⟩ := h
    subst he; subst hr
    exact ⟨good_nil, by simp, by simp⟩
  | cons t rest ih =>
    intro es r h hg
    rcases htr : keyTail rest with ⟨es2, r2⟩
    obtain ⟨hg2, hl, hfid⟩ := ih es2 r2 htr (good_tail hg)
    simp only [keyTail, htr] at h
    split at h <;>
      simp only [Prod.mk.injEq] at h <;>
      obtain ⟨he, hr⟩ := h <;>
      subst he <;> subst hr
    all_goals first
      | exact ⟨hg, by simp, by simp⟩
      | exact ⟨hg2, by simp; omega, by simp [String.append_assoc, hfid]⟩

theorem keyCore_out :
    ∀ t rest e r, keyCore t rest = (e, r) → Good rest →
      Good r ∧ r.length ≤ rest.length ∧ leafCat e ++ textCat r = t.text ++ textCat rest := by
  intro t rest e r h hg
  rcases hkt : keyTail rest with ⟨es1, r1⟩
  obtain ⟨hg1, hl1, hfid1⟩ := keyTail_out rest es1 r1 hkt hg
  rcases htr : takeTrivia r1 with ⟨es2, r2⟩
  obtain ⟨hg2, hl2, hfid2⟩ := takeTrivia_out r1 es2 r2 htr hg1
  simp only [keyCore, hkt, htr, Prod.mk.injEq] at h
  obtain ⟨he, hr⟩ := h
  subst he; subst hr
  refine ⟨hg2, by omega, ?_⟩
  simp [String.append_assoc, hfid2, hfid1]

theorem text_out (context : ParserContext) (toks : List Token)
    (hg : Good toks) (hne : toks ≠ []) : OutS toks (text context toks) := by
  match toks with
  | t :: rest =>
    rcases htt : textTail context.allow_comma rest with ⟨es, r⟩
    obtain ⟨hg2, hl, hfid⟩ := textTail_out context.allow_comma rest es r htt (good_tail hg)
    refine ⟨[.node TEXT (tokElem t :: es)], r, ?_, hg2, by simp; omega, ?_⟩
    · simp [text, htt]
    · simp [String.append_assoc, hfid]


theorem cgwlLoop_out :
    ∀ toks es r, cgwlLoop toks = (es, r) → Good toks →
      Good r ∧ r.length ≤ toks.length ∧ leafCatL es ++ textCat r = textCat toks := by
  intro toks
  induction toks using cgwlLoop.induct with
  | case1 =>
    intro es r h _
    simp only [cgwlLoop, Prod.mk.injEq] at h
    obtain ⟨he, hr⟩ := h
    subst he; subst hr
    exact ⟨good_nil, by simp, by simp⟩
  | case2 t rest hk ke r1 hkc es2 r2 hrec ih =>
    intro es r h hg
    obtain ⟨hgk, hlk, hfidk⟩ := keyCore_out t rest ke r1 hkc (good_tail hg)
    obtain ⟨hg2, hl2, hfid2⟩ := ih es2 r2 hrec hgk
    simp only [cgwlLoop, hk, hkc, hrec, Prod.mk.injEq] at h
    obtain ⟨he, hr⟩ := h
    subst he; subst hr
    refine ⟨hg2, by simp; omega, ?_⟩
    simp [String.append_assoc, hfid2, hfidk]
  | case3 t rest hk es2 r2 hrec ih =>
    intro es r h hg
    obtain ⟨hg2, hl2, hfid2⟩ := ih es2 r2 hrec (good_tail hg)
    simp only [cgwlLoop, hk, hrec, Prod.mk.injEq] at h
    obtain ⟨he, hr⟩ := h
    subst he; subst hr
    exact ⟨hg2, by simp; omega, by simp [String.append_assoc, hfid2]⟩
  | case4 t rest hk es2 r2 hrec ih =>
    intro es r h hg
    obtain ⟨hg2, hl2, hfid2⟩ := ih es2 r2 hrec (good_tail hg)
    simp only [cgwlLoop, hk, hrec, Prod.mk.injEq] at h
    obtain ⟨he, hr⟩ := h
    subst he; subst hr
    exact ⟨hg2, by simp; omega, by simp [String.append_assoc, hfid2]⟩
  | case5 t rest hk es2 r2 hrec ih =>
    intro es r h hg
    obtain ⟨hg2, hl2, hfid2⟩ := ih es2 r2 hrec (good_tail hg)
    simp only [cgwlLoop, hk, hrec, Prod.mk.injEq] at h
    obtain ⟨he, hr⟩ := h
    subst he; subst hr
    exact ⟨hg2, by simp; omega, by simp [String.append_assoc, hfid2]⟩
  | case6 t rest hk es2 r2 hrec ih =>
    intro es r h hg
    obtain ⟨hg2, hl2, hfid2⟩ := ih es2 r2 hrec (good_tail hg)
    simp only [cgwlLoop, hk, hrec, Prod.mk.injEq] at h
    obtain ⟨he, hr⟩ := h
    subst he; subst hr
    exact ⟨hg2, by simp; omega, by simp [String.append_assoc, hfid2]⟩
  | case7 t rest h1 h2 h3 h4 h5 =>
    intro es r h hg
    rw [cgwlLoop] at h
    split at h
    all_goals first
      | exact (h1 ‹t.kind = WORD›).elim
      | exact (h2 ‹t.kind = LINE_BREAK›).elim
      | exact (h3 ‹t.kind = WHITESPACE›).elim
      | exact (h4 ‹t.kind = COMMENT›).elim
      | exact (h5 ‹t.kind = COMMA›).elim
      | (simp only [Prod.mk.injEq] at h
         obtain ⟨he, hr⟩ := h
         subst he; subst hr
         exact ⟨hg, le_refl _, by simp⟩)



theorem curly_group_word_list_out (toks : List Token) (hg : Good toks)
    (hne : toks ≠ []) : OutS toks (curly_group_word_list toks) := by
  match toks with
  | t :: rest =>
    rcases h1 : cgwlLoop rest with ⟨es1, r1⟩
    obtain ⟨hg1, hl1, hfid1⟩ := cgwlLoop_out rest es1 r1 h1 (good_tail hg)
    rcases h2 : expect R_CURLY r1 with ⟨es2, r2⟩
    obtain ⟨hg2, hl2, hfid2⟩ := expect_out R_CURLY r1 es2 r2 h2 hg1
    refine ⟨[.node CURLY_GROUP_WORD_LIST (tokElem t :: es1 ++ es2)], r2, ?_, hg2,
      by simp; omega, ?_⟩
    · simp [curly_group_word_list, h1, h2]
    · simp [String.append_assoc, hfid2, hfid1]

theorem curly_group_command_out (toks : List Token) (hg : Good toks)
    (hne : toks ≠ []) : OutS toks (curly_group_command toks) := by
  match toks with
  | t :: rest =>
    rcases htr : takeTrivia rest with ⟨tr, r0⟩
    obtain ⟨hg0, hl0, hfid0⟩ := takeTrivia_out rest tr r0 htr (good_tail hg)
    match r0 with
    | u :: r0' =>
      simp only [textCat_cons] at hfid0
      by_cases hc : u.kind.isCommandName = true
      · rcases htr2 : takeTrivia r0' with ⟨tr2, r1⟩
        obtain ⟨hg1, hl1, hfid1⟩ := takeTrivia_out r0' tr2 r1 htr2 (good_tail hg0)
        rcases hex : expect R_CURLY r1 with ⟨es2, r2⟩
        obtain ⟨hg2, hl2, hfid2⟩ := expect_out R_CURLY r1 es2 r2 hex hg1
        refine ⟨[.node CURLY_GROUP_COMMAND (tokElem t :: tr ++ (tokElem u :: tr2) ++ es2)],
          r2, ?_, hg2, ?_, ?_⟩
        · simp [curly_group_command, htr, hc, htr2, hex]
        · simp at hl0 hl1 hl2 ⊢
          omega
        · simp [String.append_assoc, hfid2, hfid1, hfid0]
      · rcases hex : expect R_CURLY (u :: r0') with ⟨es2, r2⟩
        obtain ⟨hg2, hl2, hfid2⟩ := expect_out R_CURLY (u :: r0') es2 r2 hex hg0
        refine ⟨[.node CURLY_GROUP_COMMAND (tokElem t :: tr ++ [missingTok] ++ es2)],
          r2, ?_, hg2, ?_, ?_⟩
        · simp [curly_group_command, htr, hc, hex]
        · simp at hl0 hl2 ⊢
          omega
        · simp [missingTok, String.append_assoc, hfid2, hfid0]
    | [] =>
      refine ⟨[.node CURLY_GROUP_COMMAND (tokElem t :: tr ++ [missingTok] ++ [missingTok])],
        [], ?_, good_nil, ?_, ?_⟩
      · simp [curly_group_command, htr, expect]
      · simp
      · simp [missingTok, String.append_assoc, hfid0]
        simp at hfid0
        simp [hfid0]

theorem brack_group_word_out (toks : List Token) (hg : Good toks)
    (hne : toks ≠ []) : OutS toks (brack_group_word toks) := by
  match toks with
  | t :: rest =>
    rcases htr : takeTrivia rest with ⟨tr, r0⟩
    obtain ⟨hg0, hl0, hfid0⟩ := takeTrivia_out rest tr r0 htr (good_tail hg)
    match r0 with
    | u :: r0' =>
      simp only [textCat_cons] at hfid0
      by_cases hw : u.kind = WORD
      · rcases hkc : keyCore u r0' with ⟨ke, r1⟩
        obtain ⟨hg1, hl1, hfid1⟩ := keyCore_out u r0' ke r1 hkc (good_tail hg0)
        rcases hex : expect R_BRACK r1 with ⟨es2, r2⟩
        obtain ⟨hg2, hl2, hfid2⟩ := expect_out R_BRACK r1 es2 r2 hex hg1
        refine ⟨[.node BRACK_GROUP_WORD (tokElem t :: tr ++ [ke] ++ es2)],
          r2, ?_, hg2, ?_, ?_⟩
        · simp [brack_group_word, htr, hw, hkc, hex]
        · simp at hl0 hl1 hl2 ⊢
          omega
        · simp [String.append_assoc, hfid2, hfid1, hfid0]
      · rcases hex : expect R_BRACK (u :: r0') with ⟨es2, r2⟩
        obtain ⟨hg2, hl2, hfid2⟩ := expect_out R_BRACK (u :: r0') es2 r2 hex hg0
        refine ⟨[.node BRACK_GROUP_WORD (tokElem t :: tr ++ [missingTok] ++ es2)],
          r2, ?_, hg2, ?_, ?_⟩
        · simp [brack_group_word, htr, hw, hex]
        · simp at hl0 hl2 ⊢
          omega
        · simp [missingTok, String.append_assoc, hfid2, hfid0]
    | [] =>
      refine ⟨[.node BRACK_GROUP_WORD (tokElem t :: tr ++ [missingTok] ++ [missingTok])],
        [], ?_, good_nil, ?_, ?_⟩
      · simp [brack_group_word, htr, expect]
      · simp
      · simp [missingTok, String.append_assoc]
        simp at hfid0
        simp [hfid0]

theorem eatIf_out (k : SyntaxKind) (dflt : List GreenElem) (toks : List Token)
    (es : List GreenElem) (r : List Token) (h : eatIf k dflt toks = (es, r))
    (hg : Good toks) (hd : leafCatL dflt = "") :
    Good r ∧ r.length ≤ toks.length ∧ leafCatL es ++ textCat r = textCat toks := by
  match toks with
  | [] =>
    simp only [eatIf, Prod.mk.injEq] at h
    obtain ⟨he, hr⟩ := h
    subst he; subst hr
    exact ⟨good_nil, by simp, by simp [hd]⟩
  | u :: rest =>
    simp only [eatIf] at h
    split at h <;>
      simp only [Prod.mk.injEq] at h <;>
      obtain ⟨he, hr⟩ := h <;>
      subst he <;> subst hr
    · exact ⟨good_tail hg, by simp, by simp⟩
    · exact ⟨hg, le_refl _, by simp [hd]⟩

theorem block_comment_out (toks : List Token) (hg : Good toks)
    (hne : toks ≠ []) : OutS toks (block_comment toks) := by
  match toks with
  | t :: rest =>
    rcases h1 : eatIf VERBATIM [] rest with ⟨v, r1⟩
    obtain ⟨hg1, hl1, hfid1⟩ := eatIf_out VERBATIM [] rest v r1 h1 (good_tail hg) (by simp)
    rcases h2 : eatIf END_BLOCK_COMMENT_NAME [missingTok] r1 with ⟨e, r2⟩
    obtain ⟨hg2, hl2, hfid2⟩ :=
      eatIf_out END_BLOCK_COMMENT_NAME [missingTok] r1 e r2 h2 hg1 (by simp)
    refine ⟨[.node BLOCK_COMMENT (tokElem t :: v ++ e)], r2, ?_, hg2, ?_, ?_⟩
    · simp [block_comment, h1, h2]
    · simp
      omega
    · simp [String.append_assoc, hfid2, hfid1]

theorem label_reference_out (toks : List Token) (hg : Good toks)
    (hne : toks ≠ []) : OutS toks (label_reference toks) := by
  match toks with
  | t :: rest =>
    rcases htr : takeTrivia rest with ⟨tr, r0⟩
    obtain ⟨hg0, hl0, hfid0⟩ := takeTrivia_out rest tr r0 htr (good_tail hg)
    simp only [label_reference, htr]
    split
    next hh =>
      have hne0 : r0 ≠ [] := by
        cases r0
        · simp [headKind] at hh
        · simp
      obtain ⟨g, r1, hcg, hg1, hl1, hfid1⟩ := curly_group_word_list_out r0 hg0 hne0
      rw [hcg]
      refine ⟨[.node LABEL_REFERENCE (tokElem t :: tr ++ g)], r1, rfl, hg1, ?_, ?_⟩
      · simp
        omega
      · simp [String.append_assoc, hfid1, hfid0]
    next =>
      refine ⟨[.node LABEL_REFERENCE (tokElem t :: tr ++ [missingTok])], r0, rfl, hg0, ?_, ?_⟩
      · simp
        omega
      · simp [missingTok, String.append_assoc, hfid0]

theorem tikz_library_import_out (toks : List Token) (hg : Good toks)
    (hne : toks ≠ []) : OutS toks (tikz_library_import toks) := by
  match toks with
  | t :: rest =>
    rcases htr : takeTrivia rest with ⟨tr, r0⟩
    obtain ⟨hg0, hl0, hfid0⟩ := takeTrivia_out rest tr r0 htr (good_tail hg)
    simp only [tikz_library_import, htr]
    split
    next hh =>
      have hne0 : r0 ≠ [] := by
        cases r0
        · simp [headKind] at hh
        · simp
      obtain ⟨g, r1, hcg, hg1, hl1, hfid1⟩ := curly_group_word_list_out r0 hg0 hne0
      rw [hcg]
      refine ⟨[.node TIKZ_LIBRARY_IMPORT (tokElem t :: tr ++ g)], r1, rfl, hg1, ?_, ?_⟩
      · simp
        omega
      · simp [String.append_assoc, hfid1, hfid0]
    next =>
      refine ⟨[.node TIKZ_LIBRARY_IMPORT (tokElem t :: tr ++ [missingTok])], r0, rfl, hg0, ?_, ?_⟩
      · simp
        omega
      · simp [missingTok, String.append_assoc, hfid0]




theorem headKind_ne {toks : List Token} {K : SyntaxKind}
    (h : headKind toks = some K) : toks ≠ [] := by
  cases toks
  · simp [headKind] at h
  · simp

theorem headKind_eq_kind {t : Token} {rest : List Token} :
    headKind (t :: rest) = some t.kind := rfl

/-- The parser invariant, proved for every fuel value by induction on the
fuel: given a well-kinded stream and enough fuel (linear in the stream
length, with a per-rule headroom constant), every rule succeeds, consumes
tokens (strictly, for the rules dispatched by `content`), keeps the stream
well-kinded, and satisfies fidelity. -/
structure Tots (fuel : Nat) : Prop where
  content_t : ∀ context toks, Good toks → toks ≠ [] →
    4 * toks.length + 8 ≤ fuel → OutS toks (content fuel context toks)
  contentLoop_t : ∀ stop context toks, Good toks →
    4 * toks.length + 9 ≤ fuel → OutW toks (contentLoop fuel stop context toks)
  curly_group_t : ∀ toks, Good toks → toks ≠ [] →
    4 * toks.length + 7 ≤ fuel → OutS toks (curly_group fuel toks)
  cgiLoop_t : ∀ toks, Good toks →
    4 * toks.length + 9 ≤ fuel → OutW toks (cgiLoop fuel toks)
  curly_group_impl_t : ∀ toks, Good toks → toks ≠ [] →
    4 * toks.length + 7 ≤ fuel → OutS toks (curly_group_impl fuel toks)
  cgwe_t : ∀ toks, Good toks → toks ≠ [] →
    4 * toks.length + 7 ≤ fuel → OutS toks (curly_group_without_environments fuel toks)
  curly_group_word_t : ∀ toks, Good toks → toks ≠ [] →
    4 * toks.length + 6 ≤ fuel → OutS toks (curly_group_word fuel toks)
  brack_group_t : ∀ toks, Good toks → toks ≠ [] →
    4 * toks.length + 7 ≤ fuel → OutS toks (brack_group fuel toks)
  mixed_group_t : ∀ toks, Good toks → toks ≠ [] →
    4 * toks.length + 7 ≤ fuel → OutS toks (mixed_group fuel toks)
  value_t : ∀ toks, Good toks →
    4 * toks.length + 10 ≤ fuel → OutW toks (value fuel toks)
  key_value_pair_t : ∀ toks, Good toks → toks ≠ [] →
    4 * toks.length + 7 ≤ fuel → OutS toks (key_value_pair fuel toks)
  kvbLoop_t : ∀ toks, Good toks →
    4 * toks.length + 8 ≤ fuel → OutW toks (kvbLoop fuel toks)
  key_value_body_t : ∀ toks, Good toks →
    4 * toks.length + 9 ≤ fuel → OutW toks (key_value_body fuel toks)
  group_key_value_t : ∀ nk rk toks, Good toks → toks ≠ [] →
    4 * toks.length + 7 ≤ fuel → OutS toks (group_key_value fuel nk rk toks)
  formula_t : ∀ toks, Good toks → toks ≠ [] →
    4 * toks.length + 7 ≤ fuel → OutS toks (formula fuel toks)
  gcLoop_t : ∀ toks, Good toks →
    4 * toks.length + 9 ≤ fuel → OutW toks (gcLoop fuel toks)
  generic_command_t : ∀ toks, Good toks → toks ≠ [] →
    4 * toks.length + 7 ≤ fuel → OutS toks (generic_command fuel toks)
  equation_t : ∀ toks, Good toks → toks ≠ [] →
    4 * toks.length + 7 ≤ fuel → OutS toks (equation fuel toks)
  begin_t : ∀ toks, Good toks → toks ≠ [] →
    4 * toks.length + 6 ≤ fuel → OutS toks (begin fuel toks)
  endCmd_t : ∀ toks, Good toks → toks ≠ [] →
    4 * toks.length + 6 ≤ fuel → OutS toks (endCmd fuel toks)
  environment_t : ∀ toks, Good toks → toks ≠ [] →
    4 * toks.length + 7 ≤ fuel → OutS toks (environment fuel toks)
  preamble_t : ∀ toks, Good toks →
    4 * toks.length + 10 ≤ fuel → OutW toks (preamble fuel toks)
  sectioning_t : ∀ kind stop toks, Good toks → toks ≠ [] →
    4 * toks.length + 7 ≤ fuel → OutS toks (sectioning fuel kind stop toks)
  enum_item_t : ∀ toks, Good toks → toks ≠ [] →
    4 * toks.length + 7 ≤ fuel → OutS toks (enum_item fuel toks)
  caption_t : ∀ toks, Good toks → toks ≠ [] →
    4 * toks.length + 7 ≤ fuel → OutS toks (caption fuel toks)
  citation_t : ∀ toks, Good toks → toks ≠ [] →
    4 * toks.length + 7 ≤ fuel → OutS toks (citation fuel toks)
  generic_include_t : ∀ kind options toks, Good toks → toks ≠ [] →
    4 * toks.length + 7 ≤ fuel → OutS toks (generic_include fuel kind options toks)
  importCmd_t : ∀ toks, Good toks → toks ≠ [] →
    4 * toks.length + 7 ≤ fuel → OutS toks (importCmd fuel toks)
  label_definition_t : ∀ toks, Good toks → toks ≠ [] →
    4 * toks.length + 7 ≤ fuel → OutS toks (label_definition fuel toks)
  label_reference_range_t : ∀ toks, Good toks → toks ≠ [] →
    4 * toks.length + 7 ≤ fuel → OutS toks (label_reference_range fuel toks)
  label_number_t : ∀ toks, Good toks → toks ≠ [] →
    4 * toks.length + 7 ≤ fuel → OutS toks (label_number fuel toks)
  command_definition_t : ∀ toks, Good toks → toks ≠ [] →
    4 * toks.length + 7 ≤ fuel → OutS toks (command_definition fuel toks)
  math_operator_t : ∀ toks, Good toks → toks ≠ [] →
    4 * toks.length + 7 ≤ fuel → OutS toks (math_operator fuel toks)
  glossary_entry_definition_t : ∀ toks, Good toks → toks ≠ [] →
    4 * toks.length + 7 ≤ fuel → OutS toks (glossary_entry_definition fuel toks)
  glossary_entry_reference_t : ∀ toks, Good toks → toks ≠ [] →
    4 * toks.length + 7 ≤ fuel → OutS toks (glossary_entry_reference fuel toks)
  acronym_definition_t : ∀ toks, Good toks → toks ≠ [] →
    4 * toks.length + 7 ≤ fuel → OutS toks (acronym_definition fuel toks)
  acronym_declaration_t : ∀ toks, Good toks → toks ≠ [] →
    4 * toks.length + 7 ≤ fuel → OutS toks (acronym_declaration fuel toks)
  acronym_reference_t : ∀ toks, Good toks → toks ≠ [] →
    4 * toks.length + 7 ≤ fuel → OutS toks (acronym_reference fuel toks)
  theorem_definition_t : ∀ toks, Good toks → toks ≠ [] →
    4 * toks.length + 7 ≤ fuel → OutS toks (theorem_definition fuel toks)
  color_reference_t : ∀ toks, Good toks → toks ≠ [] →
    4 * toks.length + 7 ≤ fuel → OutS toks (color_reference fuel toks)
  color_definition_t : ∀ toks, Good toks → toks ≠ [] →
    4 * toks.length + 7 ≤ fuel → OutS toks (color_definition fuel toks)
  color_set_definition_t : ∀ toks, Good toks → toks ≠ [] →
    4 * toks.length + 7 ≤ fuel → OutS toks (color_set_definition fuel toks)
  environment_definition_t : ∀ toks, Good toks → toks ≠ [] →
    4 * toks.length + 7 ≤ fuel → OutS toks (environment_definition fuel toks)
  graphics_path_t : ∀ toks, Good toks → toks ≠ [] →
    4 * toks.length + 7 ≤ fuel → OutS toks (graphics_path fuel toks)
  gpLoop_t : ∀ toks, Good toks →
    4 * toks.length + 9 ≤ fuel → OutW toks (gpLoop fuel toks)
  path_t : ∀ toks, Good toks → toks ≠ [] →
    4 * toks.length + 7 ≤ fuel → OutS toks (path fuel toks)
  pathLoop_t : ∀ toks, Good toks →
    4 * toks.length + 9 ≤ fuel → OutW toks (pathLoop fuel toks)
  curly_group_path_t : ∀ toks, Good toks → toks ≠ [] →
    4 * toks.length + 7 ≤ fuel → OutS toks (curly_group_path fuel toks)
  cgpLoop_t : ∀ toks, Good toks →
    4 * toks.length + 9 ≤ fuel → OutW toks (cgpLoop fuel toks)
  curly_group_path_list_t : ∀ toks, Good toks → toks ≠ [] →
    4 * toks.length + 7 ≤ fuel → OutS toks (curly_group_path_list fuel toks)
  cgplLoop_t : ∀ toks, Good toks →
    4 * toks.length + 9 ≤ fuel → OutW toks (cgplLoop fuel toks)

/-- An optional argument slot `if ... then sub-rule else skip-or-MISSING`
satisfies the weak invariant whenever the sub-rule satisfies the strong one
under the condition. -/
theorem slot_out {r0 : List Token} {c : Prop} [Decidable c]
    {x : Option (List GreenElem × List Token)} (dflt : List GreenElem)
    (hg : Good r0) (hd : leafCatL dflt = "")
    (hsub : c → OutS r0 x) :
    OutW r0 (slotIf c x dflt r0) := by
  by_cases hc : c
  · obtain ⟨es, r, he, hgr, hl, hfid⟩ := hsub hc
    exact ⟨es, r, by simp [slotIf, hc, he], hgr, le_of_lt hl, hfid⟩
  · exact ⟨dflt, r0, by simp [slotIf, hc], hg, le_refl _, by simp [hd]⟩

theorem step_contentLoop {fuel : Nat} (ih : Tots fuel) :
    ∀ stop context toks, Good toks → 4 * toks.length + 9 ≤ fuel + 1 →
      OutW toks (contentLoop (fuel + 1) stop context toks) := by
  intro stop context toks hg hf
  match toks with
  | [] => exact ⟨[], [], by simp [contentLoop], good_nil, by simp, by simp⟩
  | t :: rest =>
    simp only [List.length_cons] at hf
    by_cases hstop : stop t.kind = true
    · exact ⟨[], t :: rest, by simp [contentLoop, hstop], hg, le_refl _, by simp⟩
    · obtain ⟨es1, r1, h1, hg1, hl1, hfid1⟩ :=
        ih.content_t context (t :: rest) hg (by simp) (by first | omega | (simp only [List.length_cons]; omega))
      simp only [List.length_cons] at hl1
      obtain ⟨es2, r2, h2, hg2, hl2, hfid2⟩ :=
        ih.contentLoop_t stop context r1 hg1 (by first | omega | (simp only [List.length_cons]; omega))
      refine ⟨es1 ++ es2, r2, ?_, hg2, ?_, ?_⟩
      · simp [contentLoop, hstop, h1, h2]
      · simp
        omega
      · simp only [leafCatL_append, String.append_assoc, hfid2, hfid1]

theorem step_curly_group_v2 {fuel : Nat} (ih : Tots fuel) :
    ∀ toks, Good toks → toks ≠ [] → 4 * toks.length + 7 ≤ fuel + 1 →
      OutS toks (curly_group (fuel + 1) toks) := by
  intro toks hg hne hf
  match toks with
  | t :: rest =>
    simp only [List.length_cons] at hf
    obtain ⟨es1, r1, h1, hg1, hl1, hfid1⟩ :=
      ih.contentLoop_t curlyStop ctxDefault rest (good_tail hg) (by first | omega | (simp only [List.length_cons]; omega))
    rcases h2 : expect R_CURLY r1 with ⟨es2, r2⟩
    obtain ⟨hg2, hl2, hfid2⟩ := expect_out R_CURLY r1 es2 r2 h2 hg1
    refine ⟨[.node CURLY_GROUP (tokElem t :: es1 ++ es2)], r2, ?_, hg2, ?_, ?_⟩
    · simp [curly_group, h1, h2]
    · simp
      omega
    · simp [String.append_assoc, hfid2, hfid1]

theorem step_cgiLoop {fuel : Nat} (ih : Tots fuel) :
    ∀ toks, Good toks → 4 * toks.length + 9 ≤ fuel + 1 →
      OutW toks (cgiLoop (fuel + 1) toks) := by
  intro toks hg hf
  match toks with
  | [] => exact ⟨[], [], by simp [cgiLoop], good_nil, by simp, by simp⟩
  | t :: rest =>
    simp only [List.length_cons] at hf
    cases ht : t.kind
    case R_CURLY =>
      exact ⟨[], t :: rest, by simp [cgiLoop, ht], hg, le_refl _, by simp⟩
    case BEGIN_ENVIRONMENT_NAME =>
      obtain ⟨es1, r1, h1, hg1, hl1, hfid1⟩ :=
        ih.begin_t (t :: rest) hg (by simp) (by first | omega | (simp only [List.length_cons]; omega))
      simp only [List.length_cons] at hl1
      obtain ⟨es2, r2, h2, hg2, hl2, hfid2⟩ := ih.cgiLoop_t r1 hg1 (by first | omega | (simp only [List.length_cons]; omega))
      refine ⟨es1 ++ es2, r2, ?_, hg2, ?_, ?_⟩
      · simp [cgiLoop, ht, h1, h2]
      · simp
        omega
      · simp only [leafCatL_append, String.append_assoc, hfid2, hfid1]
    case END_ENVIRONMENT_NAME =>
      obtain ⟨es1, r1, h1, hg1, hl1, hfid1⟩ :=
        ih.endCmd_t (t :: rest) hg (by simp) (by first | omega | (simp only [List.length_cons]; omega))
      simp only [List.length_cons] at hl1
      obtain ⟨es2, r2, h2, hg2, hl2, hfid2⟩ := ih.cgiLoop_t r1 hg1 (by first | omega | (simp only [List.length_cons]; omega))
      refine ⟨es1 ++ es2, r2, ?_, hg2, ?_, ?_⟩
      · simp [cgiLoop, ht, h1, h2]
      · simp
        omega
      · simp only [leafCatL_append, String.append_assoc, hfid2, hfid1]
    all_goals (
      obtain ⟨es1, r1, h1, hg1, hl1, hfid1⟩ :=
        ih.content_t ctxDefault (t :: rest) hg (by simp) (by first | omega | (simp only [List.length_cons]; omega))
      simp only [List.length_cons] at hl1
      obtain ⟨es2, r2, h2, hg2, hl2, hfid2⟩ := ih.cgiLoop_t r1 hg1 (by first | omega | (simp only [List.length_cons]; omega))
      refine ⟨es1 ++ es2, r2, ?_, hg2, ?_, ?_⟩
      · simp [cgiLoop, ht, h1, h2]
      · simp
        omega
      · simp only [leafCatL_append, String.append_assoc, hfid2, hfid1])

theorem step_curly_group_impl {fuel : Nat} (ih : Tots fuel) :
    ∀ toks, Good toks → toks ≠ [] → 4 * toks.length + 7 ≤ fuel + 1 →
      OutS toks (curly_group_impl (fuel + 1) toks) := by
  intro toks hg hne hf
  match toks with
  | t :: rest =>
    simp only [List.length_cons] at hf
    obtain ⟨es1, r1, h1, hg1, hl1, hfid1⟩ := ih.cgiLoop_t rest (good_tail hg) (by first | omega | (simp only [List.length_cons]; omega))
    rcases h2 : expect R_CURLY r1 with ⟨es2, r2⟩
    obtain ⟨hg2, hl2, hfid2⟩ := expect_out R_CURLY r1 es2 r2 h2 hg1
    refine ⟨[.node CURLY_GROUP (tokElem t :: es1 ++ es2)], r2, ?_, hg2, ?_, ?_⟩
    · simp [curly_group_impl, h1, h2]
    · simp
      omega
    · simp [String.append_assoc, hfid2, hfid1]

theorem step_cgwe {fuel : Nat} (ih : Tots fuel) :
    ∀ toks, Good toks → toks ≠ [] → 4 * toks.length + 7 ≤ fuel + 1 →
      OutS toks (curly_group_without_environments (fuel + 1) toks) := by
  intro toks hg hne hf
  match toks with
  | t :: rest =>
    simp only [List.length_cons] at hf
    obtain ⟨es1, r1, h1, hg1, hl1, hfid1⟩ :=
      ih.contentLoop_t curlyStop ⟨false, true⟩ rest (good_tail hg) (by first | omega | (simp only [List.length_cons]; omega))
    rcases h2 : expect R_CURLY r1 with ⟨es2, r2⟩
    obtain ⟨hg2, hl2, hfid2⟩ := expect_out R_CURLY r1 es2 r2 h2 hg1
    refine ⟨[.node CURLY_GROUP (tokElem t :: es1 ++ es2)], r2, ?_, hg2, ?_, ?_⟩
    · simp [curly_group_without_environments, h1, h2]
    · simp
      omega
    · simp [String.append_assoc, hfid2, hfid1]

theorem step_curly_group_word {fuel : Nat} (ih : Tots fuel) :
    ∀ toks, Good toks → toks ≠ [] → 4 * toks.length + 6 ≤ fuel + 1 →
      OutS toks (curly_group_word (fuel + 1) toks) := by
  intro toks hg hne hf
  match toks with
  | t :: rest =>
    simp only [List.length_cons] at hf
    rcases htr : takeTrivia rest with ⟨tr, r0⟩
    obtain ⟨hg0, hl0, hfid0⟩ := takeTrivia_out rest tr r0 htr (good_tail hg)
    match r0 with
    | u :: r0' =>
      simp only [textCat_cons] at hfid0
      simp only [List.length_cons] at hl0
      by_cases hw : u.kind = WORD
      · rcases hkc : keyCore u r0' with ⟨ke, r1⟩
        obtain ⟨hg1, hl1, hfid1⟩ := keyCore_out u r0' ke r1 hkc (good_tail hg0)
        rcases hex : expect R_CURLY r1 with ⟨es2, r2⟩
        obtain ⟨hg2, hl2, hfid2⟩ := expect_out R_CURLY r1 es2 r2 hex hg1
        refine ⟨[.node CURLY_GROUP_WORD (tokElem t :: tr ++ [ke] ++ es2)],
          r2, ?_, hg2, ?_, ?_⟩
        · simp [curly_group_word, htr, hw, hkc, hex]
        · simp
          omega
        · simp [String.append_assoc, hfid2, hfid1, hfid0]
      · by_cases hc : u.kind.isCommandName = true
        · obtain ⟨es1, r1, h1, hg1, hl1, hfid1⟩ :=
            ih.content_t ctxDefault (u :: r0') hg0 (by simp) (by first | omega | (simp only [List.length_cons]; omega))
          simp only [List.length_cons] at hl1
          rcases hex : expect R_CURLY r1 with ⟨es2, r2⟩
          obtain ⟨hg2, hl2, hfid2⟩ := expect_out R_CURLY r1 es2 r2 hex hg1
          refine ⟨[.node CURLY_GROUP_WORD (tokElem t :: tr ++ es1 ++ es2)],
            r2, ?_, hg2, ?_, ?_⟩
          · simp [curly_group_word, htr, hw, hc, h1, hex]
          · simp
            omega
          · simp only [textCat_cons] at hfid1
            simp [String.append_assoc, hfid2, hfid1, hfid0]
        · rcases hex : expect R_CURLY (u :: r0') with ⟨es2, r2⟩
          obtain ⟨hg2, hl2, hfid2⟩ := expect_out R_CURLY (u :: r0') es2 r2 hex hg0
          simp only [List.length_cons] at hl2
          refine ⟨[.node CURLY_GROUP_WORD (tokElem t :: tr ++ [missingTok] ++ es2)],
            r2, ?_, hg2, ?_, ?_⟩
          · simp [curly_group_word, htr, hw, hc, hex]
          · simp
            omega
          · simp only [textCat_cons] at hfid2
            simp [missingTok, String.append_assoc, hfid2, hfid0]
    | [] =>
      refine ⟨[.node CURLY_GROUP_WORD (tokElem t :: tr ++ [missingTok] ++ [missingTok])],
        [], ?_, good_nil, ?_, ?_⟩
      · simp [curly_group_word, htr, expect]
      · simp
      · simp at hfid0
        simp [missingTok, String.append_assoc, hfid0]

theorem step_brack_group {fuel : Nat} (ih : Tots fuel) :
    ∀ toks, Good toks → toks ≠ [] → 4 * toks.length + 7 ≤ fuel + 1 →
      OutS toks (brack_group (fuel + 1) toks) := by
  intro toks hg hne hf
  match toks with
  | t :: rest =>
    simp only [List.length_cons] at hf
    obtain ⟨es1, r1, h1, hg1, hl1, hfid1⟩ :=
      ih.contentLoop_t brackGroupStop ctxDefault rest (good_tail hg) (by first | omega | (simp only [List.length_cons]; omega))
    rcases h2 : expect R_BRACK r1 with ⟨es2, r2⟩
    obtain ⟨hg2, hl2, hfid2⟩ := expect_out R_BRACK r1 es2 r2 h2 hg1
    refine ⟨[.node BRACK_GROUP (tokElem t :: es1 ++ es2)], r2, ?_, hg2, ?_, ?_⟩
    · simp [brack_group, h1, h2]
    · simp
      omega
    · simp [String.append_assoc, hfid2, hfid1]

theorem step_mixed_group {fuel : Nat} (ih : Tots fuel) :
    ∀ toks, Good toks → toks ≠ [] → 4 * toks.length + 7 ≤ fuel + 1 →
      OutS toks (mixed_group (fuel + 1) toks) := by
  intro toks hg hne hf
  match toks with
  | t :: rest =>
    simp only [List.length_cons] at hf
    rcases htr : takeTrivia rest with ⟨tr, r0⟩
    obtain ⟨hg0, hl0, hfid0⟩ := takeTrivia_out rest tr r0 htr (good_tail hg)
    obtain ⟨es1, r1, h1, hg1, hl1, hfid1⟩ :=
      ih.contentLoop_t mixedGroupStop ctxDefault r0 hg0 (by first | omega | (simp only [List.length_cons]; omega))
    rcases h2 : expect2 R_BRACK R_PAREN r1 with ⟨es2, r2⟩
    obtain ⟨hg2, hl2, hfid2⟩ := expect2_out R_BRACK R_PAREN r1 es2 r2 h2 hg1
    refine ⟨[.node MIXED_GROUP (tokElem t :: tr ++ es1 ++ es2)], r2, ?_, hg2, ?_, ?_⟩
    · simp [mixed_group, htr, h1, h2]
    · simp
      omega
    · simp [String.append_assoc, hfid2, hfid1, hfid0]

theorem step_value {fuel : Nat} (ih : Tots fuel) :
    ∀ toks, Good toks → 4 * toks.length + 10 ≤ fuel + 1 →
      OutW toks (value (fuel + 1) toks) := by
  intro toks hg hf
  obtain ⟨es1, r1, h1, hg1, hl1, hfid1⟩ :=
    ih.contentLoop_t valueStop ⟨true, false⟩ toks hg (by first | omega | (simp only [List.length_cons]; omega))
  refine ⟨[.node VALUE es1], r1, ?_, hg1, hl1, ?_⟩
  · simp [value, h1]
  · simp [String.append_assoc, hfid1]

theorem step_key_value_pair {fuel : Nat} (ih : Tots fuel) :
    ∀ toks, Good toks → toks ≠ [] → 4 * toks.length + 7 ≤ fuel + 1 →
      OutS toks (key_value_pair (fuel + 1) toks) := by
  intro toks hg hne hf
  match toks with
  | t :: rest =>
    simp only [List.length_cons] at hf
    rcases hkc : keyCore t rest with ⟨ke, r1⟩
    obtain ⟨hg1, hl1, hfid1⟩ := keyCore_out t rest ke r1 hkc (good_tail hg)
    match r1 with
    | u :: r1' =>
      simp only [textCat_cons] at hfid1
      simp only [List.length_cons] at hl1
      by_cases heq : u.kind = EQUALITY_SIGN
      · rcases htr : takeTrivia r1' with ⟨tr, r2⟩
        obtain ⟨hg2, hl2, hfid2⟩ := takeTrivia_out r1' tr r2 htr (good_tail hg1)
        match r2 with
        | v :: r2' =>
          simp only [textCat_cons] at hfid2
          simp only [List.length_cons] at hl2
          by_cases hv : v.kind = END_ENVIRONMENT_NAME ∨ v.kind = R_CURLY ∨
              v.kind = R_BRACK ∨ v.kind = R_PAREN ∨ v.kind = COMMA
          · refine ⟨[.node KEY_VALUE_PAIR ((ke :: tokElem u :: tr) ++ [missingTok])],
              v :: r2', ?_, hg2, ?_, ?_⟩
            · simp only [key_value_pair, hkc, heq, htr, headKind_eq_kind]
              rcases hv with hv | hv | hv | hv | hv <;> simp [hv]
            · simp
              omega
            · simp [missingTok, String.append_assoc, hfid2, hfid1]
          · push_neg at hv
            obtain ⟨hv1, hv2, hv3, hv4, hv5⟩ := hv
            obtain ⟨ves, r3, h3, hg3, hl3, hfid3⟩ :=
              ih.value_t (v :: r2') hg2 (by first | omega | (simp only [List.length_cons]; omega))
            simp only [List.length_cons] at hl3
            refine ⟨[.node KEY_VALUE_PAIR ((ke :: tokElem u :: tr) ++ ves)],
              r3, ?_, hg3, ?_, ?_⟩
            · simp only [key_value_pair, hkc, heq, htr, headKind_eq_kind]
              rcases hvk : v.kind <;> simp [hvk] at hv1 hv2 hv3 hv4 hv5 ⊢ <;> simp [h3]
            · simp
              omega
            · simp only [textCat_cons] at hfid3
              simp [String.append_assoc, hfid3, hfid2, hfid1]
        | [] =>
          refine ⟨[.node KEY_VALUE_PAIR ((ke :: tokElem u :: tr) ++ [missingTok])],
            [], ?_, good_nil, ?_, ?_⟩
          · simp [key_value_pair, hkc, heq, htr, headKind]
          · simp
          · simp at hfid2
            simp [missingTok, String.append_assoc, hfid2, hfid1]
      · refine ⟨[.node KEY_VALUE_PAIR [ke]], u :: r1', ?_, hg1, ?_, ?_⟩
        · simp [key_value_pair, hkc, heq]
        · simp
          omega
        · simp [String.append_assoc, hfid1]
    | [] =>
      refine ⟨[.node KEY_VALUE_PAIR [ke]], [], ?_, good_nil, ?_, ?_⟩
      · simp [key_value_pair, hkc]
      · simp
      · simp at hfid1
        simp [String.append_assoc, hfid1]

theorem step_kvbLoop {fuel : Nat} (ih : Tots fuel) :
    ∀ toks, Good toks → 4 * toks.length + 8 ≤ fuel + 1 →
      OutW toks (kvbLoop (fuel + 1) toks) := by
  intro toks hg hf
  match toks with
  | [] => exact ⟨[], [], by simp [kvbLoop], good_nil, by simp, by simp⟩
  | t :: rest =>
    simp only [List.length_cons] at hf
    cases ht : t.kind
    case LINE_BREAK | WHITESPACE | COMMENT =>
      obtain ⟨es1, r1, h1, hg1, hl1, hfid1⟩ :=
        ih.kvbLoop_t rest (good_tail hg) (by omega)
      refine ⟨tokElem t :: es1, r1, ?_, hg1, ?_, ?_⟩
      · simp [kvbLoop, ht, h1]
      · simp
        omega
      · simp [String.append_assoc, hfid1]
    case WORD =>
      obtain ⟨pes, r1, h1, hg1, hl1, hfid1⟩ :=
        ih.key_value_pair_t (t :: rest) hg (by simp)
          (by first | omega | (simp only [List.length_cons]; omega))
      simp only [List.length_cons] at hl1
      match r1 with
      | u :: r1' =>
        simp only [List.length_cons] at hl1
        by_cases hu : u.kind = COMMA
        · obtain ⟨es2, r2, h2, hg2, hl2, hfid2⟩ :=
            ih.kvbLoop_t r1' (good_tail hg1)
              (by first | omega | (simp only [List.length_cons]; omega))
          refine ⟨pes ++ tokElem u :: es2, r2, ?_, hg2, ?_, ?_⟩
          · simp [kvbLoop, ht, h1, hu, h2]
          · simp
            omega
          · simp only [textCat_cons] at hfid1
            simp [String.append_assoc, hfid2, hfid1]
        · refine ⟨pes, u :: r1', ?_, hg1, ?_, ?_⟩
          · simp [kvbLoop, ht, h1, hu]
          · simp
            omega
          · exact hfid1
      | [] =>
        refine ⟨pes, [], ?_, good_nil, ?_, ?_⟩
        · simp [kvbLoop, ht, h1]
        · simp
        · exact hfid1
    all_goals
      exact ⟨[], t :: rest, by simp [kvbLoop, ht], hg, le_refl _, by simp⟩

theorem step_key_value_body {fuel : Nat} (ih : Tots fuel) :
    ∀ toks, Good toks → 4 * toks.length + 9 ≤ fuel + 1 →
      OutW toks (key_value_body (fuel + 1) toks) := by
  intro toks hg hf
  obtain ⟨es1, r1, h1, hg1, hl1, hfid1⟩ := ih.kvbLoop_t toks hg (by omega)
  refine ⟨[.node KEY_VALUE_BODY es1], r1, ?_, hg1, hl1, ?_⟩
  · simp [key_value_body, h1]
  · simp [String.append_assoc, hfid1]

theorem step_group_key_value {fuel : Nat} (ih : Tots fuel) :
    ∀ nk rk toks, Good toks → toks ≠ [] → 4 * toks.length + 7 ≤ fuel + 1 →
      OutS toks (group_key_value (fuel + 1) nk rk toks) := by
  intro nk rk toks hg hne hf
  match toks with
  | t :: rest =>
    simp only [List.length_cons] at hf
    rcases htr : takeTrivia rest with ⟨tr, r0⟩
    obtain ⟨hg0, hl0, hfid0⟩ := takeTrivia_out rest tr r0 htr (good_tail hg)
    obtain ⟨es1, r1, h1, hg1, hl1, hfid1⟩ := ih.key_value_body_t r0 hg0 (by omega)
    rcases h2 : expect rk r1 with ⟨es2, r2⟩
    obtain ⟨hg2, hl2, hfid2⟩ := expect_out rk r1 es2 r2 h2 hg1
    refine ⟨[.node nk (tokElem t :: tr ++ es1 ++ es2)], r2, ?_, hg2, ?_, ?_⟩
    · simp [group_key_value, htr, h1, h2]
    · simp
      omega
    · simp [String.append_assoc, hfid2, hfid1, hfid0]

theorem step_formula {fuel : Nat} (ih : Tots fuel) :
    ∀ toks, Good toks → toks ≠ [] → 4 * toks.length + 7 ≤ fuel + 1 →
      OutS toks (formula (fuel + 1) toks) := by
  intro toks hg hne hf
  match toks with
  | t :: rest =>
    simp only [List.length_cons] at hf
    rcases htr : takeTrivia rest with ⟨tr, r0⟩
    obtain ⟨hg0, hl0, hfid0⟩ := takeTrivia_out rest tr r0 htr (good_tail hg)
    obtain ⟨es1, r1, h1, hg1, hl1, hfid1⟩ :=
      ih.contentLoop_t formulaStop ctxDefault r0 hg0 (by omega)
    rcases h2 : expect DOLLAR r1 with ⟨es2, r2⟩
    obtain ⟨hg2, hl2, hfid2⟩ := expect_out DOLLAR r1 es2 r2 h2 hg1
    refine ⟨[.node FORMULA (tokElem t :: tr ++ es1 ++ es2)], r2, ?_, hg2, ?_, ?_⟩
    · simp [formula, htr, h1, h2]
    · simp
      omega
    · simp [String.append_assoc, hfid2, hfid1, hfid0]

theorem step_gcLoop {fuel : Nat} (ih : Tots fuel) :
    ∀ toks, Good toks → 4 * toks.length + 9 ≤ fuel + 1 →
      OutW toks (gcLoop (fuel + 1) toks) := by
  intro toks hg hf
  match toks with
  | [] => exact ⟨[], [], by simp [gcLoop], good_nil, by simp, by simp⟩
  | t :: rest =>
    simp only [List.length_cons] at hf
    cases ht : t.kind
    case LINE_BREAK | WHITESPACE | COMMENT =>
      obtain ⟨es1, r1, h1, hg1, hl1, hfid1⟩ :=
        ih.gcLoop_t rest (good_tail hg) (by omega)
      refine ⟨tokElem t :: es1, r1, ?_, hg1, ?_, ?_⟩
      · simp [gcLoop, ht, h1]
      · simp
        omega
      · simp [String.append_assoc, hfid1]
    case L_CURLY =>
      obtain ⟨es1, r1, h1, hg1, hl1, hfid1⟩ :=
        ih.curly_group_t (t :: rest) hg (by simp)
          (by first | omega | (simp only [List.length_cons]; omega))
      simp only [List.length_cons] at hl1
      obtain ⟨es2, r2, h2, hg2, hl2, hfid2⟩ := ih.gcLoop_t r1 hg1 (by omega)
      refine ⟨es1 ++ es2, r2, ?_, hg2, ?_, ?_⟩
      · simp [gcLoop, ht, h1, h2]
      · simp
        omega
      · simp only [textCat_cons] at hfid1
        simp only [leafCatL_append, String.append_assoc, hfid2, hfid1]
        simp
    case L_BRACK | L_PAREN =>
      obtain ⟨es1, r1, h1, hg1, hl1, hfid1⟩ :=
        ih.mixed_group_t (t :: rest) hg (by simp)
          (by first | omega | (simp only [List.length_cons]; omega))
      simp only [List.length_cons] at hl1
      obtain ⟨es2, r2, h2, hg2, hl2, hfid2⟩ := ih.gcLoop_t r1 hg1 (by omega)
      refine ⟨es1 ++ es2, r2, ?_, hg2, ?_, ?_⟩
      · simp [gcLoop, ht, h1, h2]
      · simp
        omega
      · simp only [textCat_cons] at hfid1
        simp only [leafCatL_append, String.append_assoc, hfid2, hfid1]
        simp
    all_goals
      exact ⟨[], t :: rest, by simp [gcLoop, ht], hg, le_refl _, by simp⟩

theorem step_generic_command {fuel : Nat} (ih : Tots fuel) :
    ∀ toks, Good toks → toks ≠ [] → 4 * toks.length + 7 ≤ fuel + 1 →
      OutS toks (generic_command (fuel + 1) toks) := by
  intro toks hg hne hf
  match toks with
  | t :: rest =>
    simp only [List.length_cons] at hf
    obtain ⟨es1, r1, h1, hg1, hl1, hfid1⟩ := ih.gcLoop_t rest (good_tail hg) (by omega)
    refine ⟨[.node GENERIC_COMMAND (tokElem t :: es1)], r1, ?_, hg1, ?_, ?_⟩
    · simp [generic_command, h1]
    · simp
      omega
    · simp [String.append_assoc, hfid1]

theorem step_equation {fuel : Nat} (ih : Tots fuel) :
    ∀ toks, Good toks → toks ≠ [] → 4 * toks.length + 7 ≤ fuel + 1 →
      OutS toks (equation (fuel + 1) toks) := by
  intro toks hg hne hf
  match toks with
  | t :: rest =>
    simp only [List.length_cons] at hf
    obtain ⟨es1, r1, h1, hg1, hl1, hfid1⟩ :=
      ih.contentLoop_t equationStop ctxDefault rest (good_tail hg) (by omega)
    rcases h2 : expect END_EQUATION_NAME r1 with ⟨es2, r2⟩
    obtain ⟨hg2, hl2, hfid2⟩ := expect_out END_EQUATION_NAME r1 es2 r2 h2 hg1
    refine ⟨[.node EQUATION (tokElem t :: es1 ++ es2)], r2, ?_, hg2, ?_, ?_⟩
    · simp [equation, h1, h2]
    · simp
      omega
    · simp [String.append_assoc, hfid2, hfid1]

theorem step_begin {fuel : Nat} (ih : Tots fuel) :
    ∀ toks, Good toks → toks ≠ [] → 4 * toks.length + 6 ≤ fuel + 1 →
      OutS toks (begin (fuel + 1) toks) := by
  intro toks hg hne hf
  match toks with
  | t :: rest =>
    simp only [List.length_cons] at hf
    rcases htr : takeTrivia rest with ⟨tr, r0⟩
    obtain ⟨hg0, hl0, hfid0⟩ := takeTrivia_out rest tr r0 htr (good_tail hg)
    obtain ⟨g, r1, h1, hg1, hl1, hfid1⟩ := slot_out [missingTok] hg0 (by simp [missingTok])
      (fun (hc : headKind r0 = some L_CURLY) => ih.curly_group_word_t r0 hg0 (headKind_ne hc) (by omega))
    obtain ⟨b, r2, h2, hg2, hl2, hfid2⟩ := slot_out [] hg1 (by simp)
      (fun (hc : headKind r1 = some L_BRACK) => ih.brack_group_t r1 hg1 (headKind_ne hc) (by omega))
    refine ⟨[.node BEGIN (tokElem t :: tr ++ g ++ b)], r2, ?_, hg2, ?_, ?_⟩
    · simp [begin, htr, h1, h2]
    · simp
      omega
    · simp [String.append_assoc, hfid2, hfid1, hfid0]

theorem step_endCmd {fuel : Nat} (ih : Tots fuel) :
    ∀ toks, Good toks → toks ≠ [] → 4 * toks.length + 6 ≤ fuel + 1 →
      OutS toks (endCmd (fuel + 1) toks) := by
  intro toks hg hne hf
  match toks with
  | t :: rest =>
    simp only [List.length_cons] at hf
    rcases htr : takeTrivia rest with ⟨tr, r0⟩
    obtain ⟨hg0, hl0, hfid0⟩ := takeTrivia_out rest tr r0 htr (good_tail hg)
    obtain ⟨g, r1, h1, hg1, hl1, hfid1⟩ := slot_out [missingTok] hg0 (by simp [missingTok])
      (fun (hc : headKind r0 = some L_CURLY) => ih.curly_group_word_t r0 hg0 (headKind_ne hc) (by omega))
    refine ⟨[.node END (tokElem t :: tr ++ g)], r1, ?_, hg1, ?_, ?_⟩
    · simp [endCmd, htr, h1]
    · simp
      omega
    · simp [String.append_assoc, hfid1, hfid0]

theorem step_environment {fuel : Nat} (ih : Tots fuel) :
    ∀ toks, Good toks → toks ≠ [] → 4 * toks.length + 7 ≤ fuel + 1 →
      OutS toks (environment (fuel + 1) toks) := by
  intro toks hg hne hf
  obtain ⟨bes, r1, h1, hg1, hl1, hfid1⟩ := ih.begin_t toks hg hne (by omega)
  obtain ⟨mid, r2, h2, hg2, hl2, hfid2⟩ :=
    ih.contentLoop_t envBodyStop ctxDefault r1 hg1 (by omega)
  by_cases he : headKind r2 = some END_ENVIRONMENT_NAME
  · obtain ⟨ees, r3, h3, hg3, hl3, hfid3⟩ :=
      ih.endCmd_t r2 hg2 (headKind_ne he) (by omega)
    refine ⟨[.node ENVIRONMENT (bes ++ mid ++ ees)], r3, ?_, hg3, ?_, ?_⟩
    · simp [environment, h1, h2, he, h3]
    · omega
    · simp [String.append_assoc, hfid3, hfid2, hfid1]
  · refine ⟨[.node ENVIRONMENT (bes ++ mid ++ [missingTok])], r2, ?_, hg2, ?_, ?_⟩
    · simp [environment, h1, h2, he]
    · omega
    · simp [missingTok, String.append_assoc, hfid2, hfid1]

theorem step_preamble {fuel : Nat} (ih : Tots fuel) :
    ∀ toks, Good toks → 4 * toks.length + 10 ≤ fuel + 1 →
      OutW toks (preamble (fuel + 1) toks) := by
  intro toks hg hf
  obtain ⟨es, r, h, hgr, hl, hfid⟩ :=
    ih.contentLoop_t preambleStop ctxDefault toks hg (by omega)
  exact ⟨[.node PREAMBLE es], r, by simp [preamble, h], hgr, hl,
    by simp [String.append_assoc, hfid]⟩

theorem step_sectioning {fuel : Nat} (ih : Tots fuel) :
    ∀ kind stop toks, Good toks → toks ≠ [] → 4 * toks.length + 7 ≤ fuel + 1 →
      OutS toks (sectioning (fuel + 1) kind stop toks) := by
  intro kind stop toks hg hne hf
  match toks with
  | t :: rest =>
    simp only [List.length_cons] at hf
    rcases htr : takeTrivia rest with ⟨tr, r0⟩
    obtain ⟨hg0, hl0, hfid0⟩ := takeTrivia_out rest tr r0 htr (good_tail hg)
    obtain ⟨g, r1, h1, hg1, hl1, hfid1⟩ := slot_out [missingTok] hg0 (by simp [missingTok])
      (fun (hc : headKind r0 = some L_CURLY) => ih.curly_group_t r0 hg0 (headKind_ne hc) (by omega))
    obtain ⟨es, r2, h2, hg2, hl2, hfid2⟩ :=
      ih.contentLoop_t stop ctxDefault r1 hg1 (by omega)
    refine ⟨[.node kind (tokElem t :: tr ++ g ++ es)], r2, ?_, hg2, ?_, ?_⟩
    · simp [sectioning, htr, h1, h2]
    · simp
      omega
    · simp [String.append_assoc, hfid2, hfid1, hfid0]

theorem step_enum_item {fuel : Nat} (ih : Tots fuel) :
    ∀ toks, Good toks → toks ≠ [] → 4 * toks.length + 7 ≤ fuel + 1 →
      OutS toks (enum_item (fuel + 1) toks) := by
  intro toks hg hne hf
  match toks with
  | t :: rest =>
    simp only [List.length_cons] at hf
    rcases htr : takeTrivia rest with ⟨tr, r0⟩
    obtain ⟨hg0, hl0, hfid0⟩ := takeTrivia_out rest tr r0 htr (good_tail hg)
    obtain ⟨b, r1, h1, hg1, hl1, hfid1⟩ := slot_out [] hg0 (by simp)
      (fun (hc : headKind r0 = some L_BRACK) => ih.brack_group_t r0 hg0 (headKind_ne hc) (by omega))
    obtain ⟨es, r2, h2, hg2, hl2, hfid2⟩ :=
      ih.contentLoop_t enumItemStop ctxDefault r1 hg1 (by omega)
    refine ⟨[.node ENUM_ITEM (tokElem t :: tr ++ b ++ es)], r2, ?_, hg2, ?_, ?_⟩
    · simp [enum_item, htr, h1, h2]
    · simp
      omega
    · simp [String.append_assoc, hfid2, hfid1, hfid0]

theorem step_caption {fuel : Nat} (ih : Tots fuel) :
    ∀ toks, Good toks → toks ≠ [] → 4 * toks.length + 7 ≤ fuel + 1 →
      OutS toks (caption (fuel + 1) toks) := by
  intro toks hg hne hf
  match toks with
  | t :: rest =>
    simp only [List.length_cons] at hf
    rcases htr : takeTrivia rest with ⟨tr, r0⟩
    obtain ⟨hg0, hl0, hfid0⟩ := takeTrivia_out rest tr r0 htr (good_tail hg)
    obtain ⟨b, r1, h1, hg1, hl1, hfid1⟩ := slot_out [] hg0 (by simp)
      (fun (hc : headKind r0 = some L_BRACK) => ih.brack_group_t r0 hg0 (headKind_ne hc) (by omega))
    obtain ⟨g, r2, h2, hg2, hl2, hfid2⟩ := slot_out [missingTok] hg1 (by simp [missingTok])
      (fun (hc : headKind r1 = some L_CURLY) => ih.curly_group_t r1 hg1 (headKind_ne hc) (by omega))
    refine ⟨[.node CAPTION (tokElem t :: tr ++ b ++ g)], r2, ?_, hg2, ?_, ?_⟩
    · simp [caption, htr, h1, h2]
    · simp
      omega
    · simp [String.append_assoc, hfid2, hfid1, hfid0]

theorem step_citation {fuel : Nat} (ih : Tots fuel) :
    ∀ toks, Good toks → toks ≠ [] → 4 * toks.length + 7 ≤ fuel + 1 →
      OutS toks (citation (fuel + 1) toks) := by
  intro toks hg hne hf
  match toks with
  | t :: rest =>
    simp only [List.length_cons] at hf
    rcases htr : takeTrivia rest with ⟨tr, r0⟩
    obtain ⟨hg0, hl0, hfid0⟩ := takeTrivia_out rest tr r0 htr (good_tail hg)
    obtain ⟨b1, r1, h1, hg1, hl1, hfid1⟩ := slot_out [] hg0 (by simp)
      (fun (hc : headKind r0 = some L_BRACK) => ih.brack_group_t r0 hg0 (headKind_ne hc) (by omega))
    obtain ⟨b2, r2, h2, hg2, hl2, hfid2⟩ := slot_out [] hg1 (by simp)
      (fun (hc : headKind r1 = some L_BRACK) => ih.brack_group_t r1 hg1 (headKind_ne hc) (by omega))
    obtain ⟨g, r3, h3, hg3, hl3, hfid3⟩ := slot_out [missingTok] hg2 (by simp [missingTok])
      (fun (hc : headKind r2 = some L_CURLY) => curly_group_word_list_out r2 hg2 (headKind_ne hc))
    refine ⟨[.node CITATION (tokElem t :: tr ++ b1 ++ b2 ++ g)], r3, ?_, hg3, ?_, ?_⟩
    · simp [citation, htr, h1, h2, h3]
    · simp
      omega
    · simp [String.append_assoc, hfid3, hfid2, hfid1, hfid0]

theorem step_generic_include {fuel : Nat} (ih : Tots fuel) :
    ∀ kind options toks, Good toks → toks ≠ [] → 4 * toks.length + 7 ≤ fuel + 1 →
      OutS toks (generic_include (fuel + 1) kind options toks) := by
  intro kind options toks hg hne hf
  match toks with
  | t :: rest =>
    simp only [List.length_cons] at hf
    rcases htr : takeTrivia rest with ⟨tr, r0⟩
    obtain ⟨hg0, hl0, hfid0⟩ := takeTrivia_out rest tr r0 htr (good_tail hg)
    obtain ⟨b, r1, h1, hg1, hl1, hfid1⟩ := slot_out [] hg0 (by simp)
      (fun (hc : options = true ∧ headKind r0 = some L_BRACK) => ih.group_key_value_t BRACK_GROUP_KEY_VALUE R_BRACK r0 hg0
        (headKind_ne hc.2) (by omega))
    obtain ⟨g, r2, h2, hg2, hl2, hfid2⟩ := slot_out [missingTok] hg1 (by simp [missingTok])
      (fun (hc : headKind r1 = some L_CURLY) => ih.curly_group_path_list_t r1 hg1 (headKind_ne hc) (by omega))
    refine ⟨[.node kind (tokElem t :: tr ++ b ++ g)], r2, ?_, hg2, ?_, ?_⟩
    · simp [generic_include, htr, h1, h2]
    · simp
      omega
    · simp [String.append_assoc, hfid2, hfid1, hfid0]

theorem step_importCmd {fuel : Nat} (ih : Tots fuel) :
    ∀ toks, Good toks → toks ≠ [] → 4 * toks.length + 7 ≤ fuel + 1 →
      OutS toks (importCmd (fuel + 1) toks) := by
  intro toks hg hne hf
  match toks with
  | t :: rest =>
    simp only [List.length_cons] at hf
    rcases htr : takeTrivia rest with ⟨tr, r0⟩
    obtain ⟨hg0, hl0, hfid0⟩ := takeTrivia_out rest tr r0 htr (good_tail hg)
    obtain ⟨g1, r1, h1, hg1, hl1, hfid1⟩ := slot_out [missingTok] hg0 (by simp [missingTok])
      (fun (hc : headKind r0 = some L_CURLY) => ih.curly_group_word_t r0 hg0 (headKind_ne hc) (by omega))
    obtain ⟨g2, r2, h2, hg2, hl2, hfid2⟩ := slot_out [missingTok] hg1 (by simp [missingTok])
      (fun (hc : headKind r1 = some L_CURLY) => ih.curly_group_word_t r1 hg1 (headKind_ne hc) (by omega))
    refine ⟨[.node IMPORT (tokElem t :: tr ++ g1 ++ g2)], r2, ?_, hg2, ?_, ?_⟩
    · simp [importCmd, htr, h1, h2]
    · simp
      omega
    · simp [String.append_assoc, hfid2, hfid1, hfid0]

theorem step_label_definition {fuel : Nat} (ih : Tots fuel) :
    ∀ toks, Good toks → toks ≠ [] → 4 * toks.length + 7 ≤ fuel + 1 →
      OutS toks (label_definition (fuel + 1) toks) := by
  intro toks hg hne hf
  match toks with
  | t :: rest =>
    simp only [List.length_cons] at hf
    rcases htr : takeTrivia rest with ⟨tr, r0⟩
    obtain ⟨hg0, hl0, hfid0⟩ := takeTrivia_out rest tr r0 htr (good_tail hg)
    obtain ⟨g, r1, h1, hg1, hl1, hfid1⟩ := slot_out [missingTok] hg0 (by simp [missingTok])
      (fun (hc : headKind r0 = some L_CURLY) => ih.curly_group_word_t r0 hg0 (headKind_ne hc) (by omega))
    refine ⟨[.node LABEL_DEFINITION (tokElem t :: tr ++ g)], r1, ?_, hg1, ?_, ?_⟩
    · simp [label_definition, htr, h1]
    · simp
      omega
    · simp [String.append_assoc, hfid1, hfid0]

theorem step_label_reference_range {fuel : Nat} (ih : Tots fuel) :
    ∀ toks, Good toks → toks ≠ [] → 4 * toks.length + 7 ≤ fuel + 1 →
      OutS toks (label_reference_range (fuel + 1) toks) := by
  intro toks hg hne hf
  match toks with
  | t :: rest =>
    simp only [List.length_cons] at hf
    rcases htr : takeTrivia rest with ⟨tr, r0⟩
    obtain ⟨hg0, hl0, hfid0⟩ := takeTrivia_out rest tr r0 htr (good_tail hg)
    obtain ⟨g1, r1, h1, hg1, hl1, hfid1⟩ := slot_out [missingTok] hg0 (by simp [missingTok])
      (fun (hc : headKind r0 = some L_CURLY) => ih.curly_group_word_t r0 hg0 (headKind_ne hc) (by omega))
    obtain ⟨g2, r2, h2, hg2, hl2, hfid2⟩ := slot_out [missingTok] hg1 (by simp [missingTok])
      (fun (hc : headKind r1 = some L_CURLY) => ih.curly_group_word_t r1 hg1 (headKind_ne hc) (by omega))
    refine ⟨[.node LABEL_REFERENCE_RANGE (tokElem t :: tr ++ g1 ++ g2)], r2, ?_, hg2, ?_, ?_⟩
    · simp [label_reference_range, htr, h1, h2]
    · simp
      omega
    · simp [String.append_assoc, hfid2, hfid1, hfid0]

theorem step_label_number {fuel : Nat} (ih : Tots fuel) :
    ∀ toks, Good toks → toks ≠ [] → 4 * toks.length + 7 ≤ fuel + 1 →
      OutS toks (label_number (fuel + 1) toks) := by
  intro toks hg hne hf
  match toks with
  | t :: rest =>
    simp only [List.length_cons] at hf
    rcases htr : takeTrivia rest with ⟨tr, r0⟩
    obtain ⟨hg0, hl0, hfid0⟩ := takeTrivia_out rest tr r0 htr (good_tail hg)
    obtain ⟨g1, r1, h1, hg1, hl1, hfid1⟩ := slot_out [missingTok] hg0 (by simp [missingTok])
      (fun (hc : headKind r0 = some L_CURLY) => ih.curly_group_word_t r0 hg0 (headKind_ne hc) (by omega))
    obtain ⟨g2, r2, h2, hg2, hl2, hfid2⟩ := slot_out [] hg1 (by simp)
      (fun (hc : headKind r1 = some L_CURLY) => by
        show OutS r1 ((curly_group fuel r1).bind fun p => some (p.1 ++ [missingTok], p.2))
        obtain ⟨cg, rr, hcg, hgr, hlr, hfidr⟩ :=
          ih.curly_group_t r1 hg1 (headKind_ne hc) (by omega)
        exact ⟨cg ++ [missingTok], rr, by simp [hcg], hgr, hlr,
          by simp [missingTok, String.append_assoc, hfidr]⟩)
    refine ⟨[.node LABEL_NUMBER (tokElem t :: tr ++ g1 ++ g2)], r2, ?_, hg2, ?_, ?_⟩
    · simp [label_number, htr, h1, h2]
    · simp
      omega
    · simp [String.append_assoc, hfid2, hfid1, hfid0]

theorem gpWordlike_ne {toks : List Token} (h : gpWordlike (headKind toks) = true) :
    toks ≠ [] := by
  cases toks
  · simp [headKind, gpWordlike] at h
  · simp

theorem step_command_definition {fuel : Nat} (ih : Tots fuel) :
    ∀ toks, Good toks → toks ≠ [] → 4 * toks.length + 7 ≤ fuel + 1 →
      OutS toks (command_definition (fuel + 1) toks) := by
  intro toks hg hne hf
  match toks with
  | t :: rest =>
    simp only [List.length_cons] at hf
    rcases htr : takeTrivia rest with ⟨tr, r0⟩
    obtain ⟨hg0, hl0, hfid0⟩ := takeTrivia_out rest tr r0 htr (good_tail hg)
    obtain ⟨c, r1, h1, hg1, hl1, hfid1⟩ := slot_out [missingTok] hg0 (by simp [missingTok])
      (fun (hc : headKind r0 = some L_CURLY) => curly_group_command_out r0 hg0 (headKind_ne hc))
    obtain ⟨b, r2, h2, hg2, hl2, hfid2⟩ := slot_out [] hg1 (by simp)
      (fun (hc : headKind r1 = some L_BRACK) => by
        show OutS r1 ((brack_group_word r1).bind fun p =>
          if headKind p.2 = some L_BRACK then
            (brack_group fuel p.2).bind fun q => some (p.1 ++ q.1, q.2)
          else some (p.1, p.2))
        obtain ⟨bw, rb, hbw, hgb, hlb, hfidb⟩ := brack_group_word_out r1 hg1 (headKind_ne hc)
        by_cases hb : headKind rb = some L_BRACK
        · obtain ⟨bg, rb2, hbg, hgb2, hlb2, hfidb2⟩ :=
            ih.brack_group_t rb hgb (headKind_ne hb) (by omega)
          exact ⟨bw ++ bg, rb2, by simp [hbw, hb, hbg], hgb2, by omega,
            by simp [String.append_assoc, hfidb2, hfidb]⟩
        · exact ⟨bw, rb, by simp [hbw, hb], hgb, hlb, hfidb⟩)
    obtain ⟨impl, r3, h3, hg3, hl3, hfid3⟩ := slot_out [missingTok] hg2 (by simp [missingTok])
      (fun (hc : headKind r2 = some L_CURLY) => ih.curly_group_impl_t r2 hg2 (headKind_ne hc) (by omega))
    refine ⟨[.node COMMAND_DEFINITION (tokElem t :: tr ++ c ++ b ++ impl)], r3, ?_, hg3, ?_, ?_⟩
    · simp [command_definition, htr, h1, h2, h3]
    · simp
      omega
    · simp [String.append_assoc, hfid3, hfid2, hfid1, hfid0]

theorem step_math_operator {fuel : Nat} (ih : Tots fuel) :
    ∀ toks, Good toks → toks ≠ [] → 4 * toks.length + 7 ≤ fuel + 1 →
      OutS toks (math_operator (fuel + 1) toks) := by
  intro toks hg hne hf
  match toks with
  | t :: rest =>
    simp only [List.length_cons] at hf
    rcases htr : takeTrivia rest with ⟨tr, r0⟩
    obtain ⟨hg0, hl0, hfid0⟩ := takeTrivia_out rest tr r0 htr (good_tail hg)
    obtain ⟨c, r1, h1, hg1, hl1, hfid1⟩ := slot_out [missingTok] hg0 (by simp [missingTok])
      (fun (hc : headKind r0 = some L_CURLY) => curly_group_command_out r0 hg0 (headKind_ne hc))
    obtain ⟨impl, r2, h2, hg2, hl2, hfid2⟩ := slot_out [missingTok] hg1 (by simp [missingTok])
      (fun (hc : headKind r1 = some L_CURLY) => ih.curly_group_impl_t r1 hg1 (headKind_ne hc) (by omega))
    refine ⟨[.node MATH_OPERATOR (tokElem t :: tr ++ c ++ impl)], r2, ?_, hg2, ?_, ?_⟩
    · simp [math_operator, htr, h1, h2]
    · simp
      omega
    · simp [String.append_assoc, hfid2, hfid1, hfid0]

theorem step_glossary_entry_definition {fuel : Nat} (ih : Tots fuel) :
    ∀ toks, Good toks → toks ≠ [] → 4 * toks.length + 7 ≤ fuel + 1 →
      OutS toks (glossary_entry_definition (fuel + 1) toks) := by
  intro toks hg hne hf
  match toks with
  | t :: rest =>
    simp only [List.length_cons] at hf
    rcases htr : takeTrivia rest with ⟨tr, r0⟩
    obtain ⟨hg0, hl0, hfid0⟩ := takeTrivia_out rest tr r0 htr (good_tail hg)
    obtain ⟨g, r1, h1, hg1, hl1, hfid1⟩ := slot_out [missingTok] hg0 (by simp [missingTok])
      (fun (hc : headKind r0 = some L_CURLY) => ih.curly_group_word_t r0 hg0 (headKind_ne hc) (by omega))
    obtain ⟨kv, r2, h2, hg2, hl2, hfid2⟩ := slot_out [missingTok] hg1 (by simp [missingTok])
      (fun (hc : headKind r1 = some L_CURLY) =>
        ih.group_key_value_t CURLY_GROUP_KEY_VALUE R_CURLY r1 hg1 (headKind_ne hc) (by omega))
    refine ⟨[.node GLOSSARY_ENTRY_DEFINITION (tokElem t :: tr ++ g ++ kv)], r2, ?_, hg2, ?_, ?_⟩
    · simp [glossary_entry_definition, htr, h1, h2]
    · simp
      omega
    · simp [String.append_assoc, hfid2, hfid1, hfid0]

theorem step_glossary_entry_reference {fuel : Nat} (ih : Tots fuel) :
    ∀ toks, Good toks → toks ≠ [] → 4 * toks.length + 7 ≤ fuel + 1 →
      OutS toks (glossary_entry_reference (fuel + 1) toks) := by
  intro toks hg hne hf
  match toks with
  | t :: rest =>
    simp only [List.length_cons] at hf
    rcases htr : takeTrivia rest with ⟨tr, r0⟩
    obtain ⟨hg0, hl0, hfid0⟩ := takeTrivia_out rest tr r0 htr (good_tail hg)
    obtain ⟨b, r1, h1, hg1, hl1, hfid1⟩ := slot_out [] hg0 (by simp)
      (fun (hc : headKind r0 = some L_BRACK) =>
        ih.group_key_value_t BRACK_GROUP_KEY_VALUE R_BRACK r0 hg0 (headKind_ne hc) (by omega))
    obtain ⟨g, r2, h2, hg2, hl2, hfid2⟩ := slot_out [missingTok] hg1 (by simp [missingTok])
      (fun (hc : headKind r1 = some L_CURLY) => ih.curly_group_word_t r1 hg1 (headKind_ne hc) (by omega))
    refine ⟨[.node GLOSSARY_ENTRY_REFERENCE (tokElem t :: tr ++ b ++ g)], r2, ?_, hg2, ?_, ?_⟩
    · simp [glossary_entry_reference, htr, h1, h2]
    · simp
      omega
    · simp [String.append_assoc, hfid2, hfid1, hfid0]

theorem step_acronym_definition {fuel : Nat} (ih : Tots fuel) :
    ∀ toks, Good toks → toks ≠ [] → 4 * toks.length + 7 ≤ fuel + 1 →
      OutS toks (acronym_definition (fuel + 1) toks) := by
  intro toks hg hne hf
  match toks with
  | t :: rest =>
    simp only [List.length_cons] at hf
    rcases htr : takeTrivia rest with ⟨tr, r0⟩
    obtain ⟨hg0, hl0, hfid0⟩ := takeTrivia_out rest tr r0 htr (good_tail hg)
    obtain ⟨b, r1, h1, hg1, hl1, hfid1⟩ := slot_out [] hg0 (by simp)
      (fun (hc : headKind r0 = some L_BRACK) =>
        ih.group_key_value_t BRACK_GROUP_KEY_VALUE R_BRACK r0 hg0 (headKind_ne hc) (by omega))
    obtain ⟨g, r2, h2, hg2, hl2, hfid2⟩ := slot_out [] hg1 (by simp)
      (fun (hc : headKind r1 = some L_CURLY) => ih.curly_group_word_t r1 hg1 (headKind_ne hc) (by omega))
    obtain ⟨b2, r3, h3, hg3, hl3, hfid3⟩ := slot_out [] hg2 (by simp)
      (fun (hc : headKind r2 = some L_BRACK) => ih.brack_group_t r2 hg2 (headKind_ne hc) (by omega))
    obtain ⟨c1, r4, h4, hg4, hl4, hfid4⟩ := slot_out [] hg3 (by simp)
      (fun (hc : headKind r3 = some L_CURLY) => ih.curly_group_t r3 hg3 (headKind_ne hc) (by omega))
    obtain ⟨c2, r5, h5, hg5, hl5, hfid5⟩ := slot_out [] hg4 (by simp)
      (fun (hc : headKind r4 = some L_CURLY) => ih.curly_group_t r4 hg4 (headKind_ne hc) (by omega))
    refine ⟨[.node ACRONYM_DEFINITION (tokElem t :: tr ++ b ++ g ++ b2 ++ c1 ++ c2)],
      r5, ?_, hg5, ?_, ?_⟩
    · simp [acronym_definition, htr, h1, h2, h3, h4, h5]
    · simp
      omega
    · simp [String.append_assoc, hfid5, hfid4, hfid3, hfid2, hfid1, hfid0]

theorem step_acronym_declaration {fuel : Nat} (ih : Tots fuel) :
    ∀ toks, Good toks → toks ≠ [] → 4 * toks.length + 7 ≤ fuel + 1 →
      OutS toks (acronym_declaration (fuel + 1) toks) := by
  intro toks hg hne hf
  match toks with
  | t :: rest =>
    simp only [List.length_cons] at hf
    rcases htr : takeTrivia rest with ⟨tr, r0⟩
    obtain ⟨hg0, hl0, hfid0⟩ := takeTrivia_out rest tr r0 htr (good_tail hg)
    obtain ⟨g, r1, h1, hg1, hl1, hfid1⟩ := slot_out [missingTok] hg0 (by simp [missingTok])
      (fun (hc : headKind r0 = some L_CURLY) => ih.curly_group_word_t r0 hg0 (headKind_ne hc) (by omega))
    obtain ⟨kv, r2, h2, hg2, hl2, hfid2⟩ := slot_out [missingTok] hg1 (by simp [missingTok])
      (fun (hc : headKind r1 = some L_CURLY) =>
        ih.group_key_value_t CURLY_GROUP_KEY_VALUE R_CURLY r1 hg1 (headKind_ne hc) (by omega))
    refine ⟨[.node ACRONYM_DECLARATION (tokElem t :: tr ++ g ++ kv)], r2, ?_, hg2, ?_, ?_⟩
    · simp [acronym_declaration, htr, h1, h2]
    · simp
      omega
    · simp [String.append_assoc, hfid2, hfid1, hfid0]

theorem step_acronym_reference {fuel : Nat} (ih : Tots fuel) :
    ∀ toks, Good toks → toks ≠ [] → 4 * toks.length + 7 ≤ fuel + 1 →
      OutS toks (acronym_reference (fuel + 1) toks) := by
  intro toks hg hne hf
  match toks with
  | t :: rest =>
    simp only [List.length_cons] at hf
    rcases htr : takeTrivia rest with ⟨tr, r0⟩
    obtain ⟨hg0, hl0, hfid0⟩ := takeTrivia_out rest tr r0 htr (good_tail hg)
    obtain ⟨b, r1, h1, hg1, hl1, hfid1⟩ := slot_out [] hg0 (by simp)
      (fun (hc : headKind r0 = some L_BRACK) =>
        ih.group_key_value_t BRACK_GROUP_KEY_VALUE R_BRACK r0 hg0 (headKind_ne hc) (by omega))
    obtain ⟨g, r2, h2, hg2, hl2, hfid2⟩ := slot_out [missingTok] hg1 (by simp [missingTok])
      (fun (hc : headKind r1 = some L_CURLY) => ih.curly_group_word_t r1 hg1 (headKind_ne hc) (by omega))
    refine ⟨[.node ACRONYM_REFERENCE (tokElem t :: tr ++ b ++ g)], r2, ?_, hg2, ?_, ?_⟩
    · simp [acronym_reference, htr, h1, h2]
    · simp
      omega
    · simp [String.append_assoc, hfid2, hfid1, hfid0]

theorem step_theorem_definition {fuel : Nat} (ih : Tots fuel) :
    ∀ toks, Good toks → toks ≠ [] → 4 * toks.length + 7 ≤ fuel + 1 →
      OutS toks (theorem_definition (fuel + 1) toks) := by
  intro toks hg hne hf
  match toks with
  | t :: rest =>
    simp only [List.length_cons] at hf
    rcases htr : takeTrivia rest with ⟨tr, r0⟩
    obtain ⟨hg0, hl0, hfid0⟩ := takeTrivia_out rest tr r0 htr (good_tail hg)
    obtain ⟨g, r1, h1, hg1, hl1, hfid1⟩ := slot_out [missingTok] hg0 (by simp [missingTok])
      (fun (hc : headKind r0 = some L_CURLY) => ih.curly_group_word_t r0 hg0 (headKind_ne hc) (by omega))
    obtain ⟨b, r2, h2, hg2, hl2, hfid2⟩ := slot_out [] hg1 (by simp)
      (fun (hc : headKind r1 = some L_BRACK) => brack_group_word_out r1 hg1 (headKind_ne hc))
    obtain ⟨c, r3, h3, hg3, hl3, hfid3⟩ := slot_out [missingTok] hg2 (by simp [missingTok])
      (fun (hc : headKind r2 = some L_CURLY) => ih.curly_group_t r2 hg2 (headKind_ne hc) (by omega))
    obtain ⟨b2, r4, h4, hg4, hl4, hfid4⟩ := slot_out [] hg3 (by simp)
      (fun (hc : headKind r3 = some L_BRACK) => brack_group_word_out r3 hg3 (headKind_ne hc))
    refine ⟨[.node THEOREM_DEFINITION (tokElem t :: tr ++ g ++ b ++ c ++ b2)], r4, ?_, hg4, ?_, ?_⟩
    · simp [theorem_definition, htr, h1, h2, h3, h4]
    · simp
      omega
    · simp [String.append_assoc, hfid4, hfid3, hfid2, hfid1, hfid0]

theorem step_color_reference {fuel : Nat} (ih : Tots fuel) :
    ∀ toks, Good toks → toks ≠ [] → 4 * toks.length + 7 ≤ fuel + 1 →
      OutS toks (color_reference (fuel + 1) toks) := by
  intro toks hg hne hf
  match toks with
  | t :: rest =>
    simp only [List.length_cons] at hf
    rcases htr : takeTrivia rest with ⟨tr, r0⟩
    obtain ⟨hg0, hl0, hfid0⟩ := takeTrivia_out rest tr r0 htr (good_tail hg)
    obtain ⟨g, r1, h1, hg1, hl1, hfid1⟩ := slot_out [missingTok] hg0 (by simp [missingTok])
      (fun (hc : headKind r0 = some L_CURLY) => ih.curly_group_word_t r0 hg0 (headKind_ne hc) (by omega))
    refine ⟨[.node COLOR_REFERENCE (tokElem t :: tr ++ g)], r1, ?_, hg1, ?_, ?_⟩
    · simp [color_reference, htr, h1]
    · simp
      omega
    · simp [String.append_assoc, hfid1, hfid0]

theorem step_color_definition {fuel : Nat} (ih : Tots fuel) :
    ∀ toks, Good toks → toks ≠ [] → 4 * toks.length + 7 ≤ fuel + 1 →
      OutS toks (color_definition (fuel + 1) toks) := by
  intro toks hg hne hf
  match toks with
  | t :: rest =>
    simp only [List.length_cons] at hf
    rcases htr : takeTrivia rest with ⟨tr, r0⟩
    obtain ⟨hg0, hl0, hfid0⟩ := takeTrivia_out rest tr r0 htr (good_tail hg)
    obtain ⟨g1, r1, h1, hg1, hl1, hfid1⟩ := slot_out [missingTok] hg0 (by simp [missingTok])
      (fun (hc : headKind r0 = some L_CURLY) => ih.curly_group_word_t r0 hg0 (headKind_ne hc) (by omega))
    obtain ⟨g2, r2, h2, hg2, hl2, hfid2⟩ := slot_out [missingTok] hg1 (by simp [missingTok])
      (fun (hc : headKind r1 = some L_CURLY) => ih.curly_group_word_t r1 hg1 (headKind_ne hc) (by omega))
    obtain ⟨c, r3, h3, hg3, hl3, hfid3⟩ := slot_out [missingTok] hg2 (by simp [missingTok])
      (fun (hc : headKind r2 = some L_CURLY) => ih.curly_group_t r2 hg2 (headKind_ne hc) (by omega))
    refine ⟨[.node COLOR_DEFINITION (tokElem t :: tr ++ g1 ++ g2 ++ c)], r3, ?_, hg3, ?_, ?_⟩
    · simp [color_definition, htr, h1, h2, h3]
    · simp
      omega
    · simp [String.append_assoc, hfid3, hfid2, hfid1, hfid0]

theorem step_color_set_definition {fuel : Nat} (ih : Tots fuel) :
    ∀ toks, Good toks → toks ≠ [] → 4 * toks.length + 7 ≤ fuel + 1 →
      OutS toks (color_set_definition (fuel + 1) toks) := by
  intro toks hg hne hf
  match toks with
  | t :: rest =>
    simp only [List.length_cons] at hf
    rcases htr : takeTrivia rest with ⟨tr, r0⟩
    obtain ⟨hg0, hl0, hfid0⟩ := takeTrivia_out rest tr r0 htr (good_tail hg)
    obtain ⟨b, r1, h1, hg1, hl1, hfid1⟩ := slot_out [] hg0 (by simp)
      (fun (hc : headKind r0 = some L_BRACK) => brack_group_word_out r0 hg0 (headKind_ne hc))
    obtain ⟨gl, r2, h2, hg2, hl2, hfid2⟩ := slot_out [missingTok] hg1 (by simp [missingTok])
      (fun (hc : headKind r1 = some L_CURLY) => curly_group_word_list_out r1 hg1 (headKind_ne hc))
    obtain ⟨g1, r3, h3, hg3, hl3, hfid3⟩ := slot_out [missingTok] hg2 (by simp [missingTok])
      (fun (hc : headKind r2 = some L_CURLY) => ih.curly_group_word_t r2 hg2 (headKind_ne hc) (by omega))
    obtain ⟨g2, r4, h4, hg4, hl4, hfid4⟩ := slot_out [missingTok] hg3 (by simp [missingTok])
      (fun (hc : headKind r3 = some L_CURLY) => ih.curly_group_word_t r3 hg3 (headKind_ne hc) (by omega))
    obtain ⟨g3, r5, h5, hg5, hl5, hfid5⟩ := slot_out [missingTok] hg4 (by simp [missingTok])
      (fun (hc : headKind r4 = some L_CURLY) => ih.curly_group_word_t r4 hg4 (headKind_ne hc) (by omega))
    refine ⟨[.node COLOR_SET_DEFINITION (tokElem t :: tr ++ b ++ gl ++ g1 ++ g2 ++ g3)],
      r5, ?_, hg5, ?_, ?_⟩
    · simp [color_set_definition, htr, h1, h2, h3, h4, h5]
    · simp
      omega
    · simp [String.append_assoc, hfid5, hfid4, hfid3, hfid2, hfid1, hfid0]

theorem step_environment_definition {fuel : Nat} (ih : Tots fuel) :
    ∀ toks, Good toks → toks ≠ [] → 4 * toks.length + 7 ≤ fuel + 1 →
      OutS toks (environment_definition (fuel + 1) toks) := by
  intro toks hg hne hf
  match toks with
  | t :: rest =>
    simp only [List.length_cons] at hf
    rcases htr : takeTrivia rest with ⟨tr, r0⟩
    obtain ⟨hg0, hl0, hfid0⟩ := takeTrivia_out rest tr r0 htr (good_tail hg)
    obtain ⟨g, r1, h1, hg1, hl1, hfid1⟩ := slot_out [missingTok] hg0 (by simp [missingTok])
      (fun (hc : headKind r0 = some L_CURLY) => ih.curly_group_word_t r0 hg0 (headKind_ne hc) (by omega))
    obtain ⟨b, r2, h2, hg2, hl2, hfid2⟩ := slot_out [] hg1 (by simp)
      (fun (hc : headKind r1 = some L_BRACK) => by
        show OutS r1 ((brack_group_word r1).bind fun p =>
          if headKind p.2 = some L_BRACK then
            (brack_group fuel p.2).bind fun q => some (p.1 ++ q.1, q.2)
          else some (p.1, p.2))
        obtain ⟨bw, rb, hbw, hgb, hlb, hfidb⟩ := brack_group_word_out r1 hg1 (headKind_ne hc)
        by_cases hb : headKind rb = some L_BRACK
        · obtain ⟨bg, rb2, hbg, hgb2, hlb2, hfidb2⟩ :=
            ih.brack_group_t rb hgb (headKind_ne hb) (by omega)
          exact ⟨bw ++ bg, rb2, by simp [hbw, hb, hbg], hgb2, by omega,
            by simp [String.append_assoc, hfidb2, hfidb]⟩
        · exact ⟨bw, rb, by simp [hbw, hb], hgb, hlb, hfidb⟩)
    obtain ⟨c1, r3, h3, hg3, hl3, hfid3⟩ := slot_out [missingTok] hg2 (by simp [missingTok])
      (fun (hc : headKind r2 = some L_CURLY) => ih.cgwe_t r2 hg2 (headKind_ne hc) (by omega))
    obtain ⟨c2, r4, h4, hg4, hl4, hfid4⟩ := slot_out [missingTok] hg3 (by simp [missingTok])
      (fun (hc : headKind r3 = some L_CURLY) => ih.cgwe_t r3 hg3 (headKind_ne hc) (by omega))
    refine ⟨[.node ENVIRONMENT_DEFINITION (tokElem t :: tr ++ g ++ b ++ c1 ++ c2)],
      r4, ?_, hg4, ?_, ?_⟩
    · simp [environment_definition, htr, h1, h2, h3, h4]
    · simp
      omega
    · simp [String.append_assoc, hfid4, hfid3, hfid2, hfid1, hfid0]

theorem step_gpLoop {fuel : Nat} (ih : Tots fuel) :
    ∀ toks, Good toks → 4 * toks.length + 9 ≤ fuel + 1 →
      OutW toks (gpLoop (fuel + 1) toks) := by
  intro toks hg hf
  match toks with
  | [] => exact ⟨[], [], by simp [gpLoop], good_nil, by simp, by simp⟩
  | t :: rest =>
    simp only [List.length_cons] at hf
    by_cases hk : t.kind = L_CURLY
    · obtain ⟨es1, r1, h1, hg1, hl1, hfid1⟩ :=
        ih.curly_group_path_t (t :: rest) hg (by simp)
          (by first | omega | (simp only [List.length_cons]; omega))
      simp only [List.length_cons] at hl1
      obtain ⟨es2, r2, h2, hg2, hl2, hfid2⟩ := ih.gpLoop_t r1 hg1 (by omega)
      refine ⟨es1 ++ es2, r2, ?_, hg2, ?_, ?_⟩
      · simp [gpLoop, hk, h1, h2]
      · simp
        omega
      · simp only [textCat_cons] at hfid1
        simp only [leafCatL_append, String.append_assoc, hfid2, hfid1]
        simp
    · exact ⟨[], t :: rest, by simp [gpLoop, hk], hg, le_refl _, by simp⟩

theorem step_path {fuel : Nat} (ih : Tots fuel) :
    ∀ toks, Good toks → toks ≠ [] → 4 * toks.length + 7 ≤ fuel + 1 →
      OutS toks (path (fuel + 1) toks) := by
  intro toks hg hne hf
  match toks with
  | t :: rest =>
    simp only [List.length_cons] at hf
    obtain ⟨es1, r1, h1, hg1, hl1, hfid1⟩ := ih.pathLoop_t rest (good_tail hg) (by omega)
    refine ⟨[.node KEY (tokElem t :: es1)], r1, ?_, hg1, ?_, ?_⟩
    · simp [path, h1]
    · simp
      omega
    · simp [String.append_assoc, hfid1]

theorem step_pathLoop {fuel : Nat} (ih : Tots fuel) :
    ∀ toks, Good toks → 4 * toks.length + 9 ≤ fuel + 1 →
      OutW toks (pathLoop (fuel + 1) toks) := by
  intro toks hg hf
  match toks with
  | [] => exact ⟨[], [], by simp [pathLoop], good_nil, by simp, by simp⟩
  | t :: rest =>
    simp only [List.length_cons] at hf
    cases ht : t.kind
    case WHITESPACE | COMMENT | WORD | EQUALITY_SIGN | L_BRACK | R_BRACK
    | GENERIC_COMMAND_NAME =>
      obtain ⟨es1, r1, h1, hg1, hl1, hfid1⟩ :=
        ih.pathLoop_t rest (good_tail hg) (by omega)
      refine ⟨tokElem t :: es1, r1, ?_, hg1, ?_, ?_⟩
      · simp [pathLoop, ht, h1]
      · simp
        omega
      · simp [String.append_assoc, hfid1]
    case L_CURLY =>
      obtain ⟨es1, r1, h1, hg1, hl1, hfid1⟩ :=
        ih.curly_group_path_t (t :: rest) hg (by simp)
          (by first | omega | (simp only [List.length_cons]; omega))
      simp only [List.length_cons] at hl1
      obtain ⟨es2, r2, h2, hg2, hl2, hfid2⟩ := ih.pathLoop_t r1 hg1 (by omega)
      refine ⟨es1 ++ es2, r2, ?_, hg2, ?_, ?_⟩
      · simp [pathLoop, ht, h1, h2]
      · simp
        omega
      · simp only [textCat_cons] at hfid1
        simp only [leafCatL_append, String.append_assoc, hfid2, hfid1]
        simp
    all_goals
      exact ⟨[], t :: rest, by simp [pathLoop, ht], hg, le_refl _, by simp⟩

theorem step_curly_group_path {fuel : Nat} (ih : Tots fuel) :
    ∀ toks, Good toks → toks ≠ [] → 4 * toks.length + 7 ≤ fuel + 1 →
      OutS toks (curly_group_path (fuel + 1) toks) := by
  intro toks hg hne hf
  match toks with
  | t :: rest =>
    simp only [List.length_cons] at hf
    rcases htr : takeTrivia rest with ⟨tr, r0⟩
    obtain ⟨hg0, hl0, hfid0⟩ := takeTrivia_out rest tr r0 htr (good_tail hg)
    obtain ⟨es1, r1, h1, hg1, hl1, hfid1⟩ := ih.cgpLoop_t r0 hg0 (by omega)
    rcases h2 : expect R_CURLY r1 with ⟨es2, r2⟩
    obtain ⟨hg2, hl2, hfid2⟩ := expect_out R_CURLY r1 es2 r2 h2 hg1
    refine ⟨[.node CURLY_GROUP_WORD (tokElem t :: tr ++ es1 ++ es2)], r2, ?_, hg2, ?_, ?_⟩
    · simp [curly_group_path, htr, h1, h2]
    · simp
      omega
    · simp [String.append_assoc, hfid2, hfid1, hfid0]

theorem step_cgpLoop {fuel : Nat} (ih : Tots fuel) :
    ∀ toks, Good toks → 4 * toks.length + 9 ≤ fuel + 1 →
      OutW toks (cgpLoop (fuel + 1) toks) := by
  intro toks hg hf
  match toks with
  | [] => exact ⟨[], [], by simp [cgpLoop], good_nil, by simp, by simp⟩
  | t :: rest =>
    simp only [List.length_cons] at hf
    cases ht : t.kind
    case COMMENT | WORD | EQUALITY_SIGN | COMMA | L_BRACK | R_BRACK
    | GENERIC_COMMAND_NAME =>
      obtain ⟨es1, r1, h1, hg1, hl1, hfid1⟩ :=
        ih.path_t (t :: rest) hg (by simp)
          (by first | omega | (simp only [List.length_cons]; omega))
      simp only [List.length_cons] at hl1
      obtain ⟨es2, r2, h2, hg2, hl2, hfid2⟩ := ih.cgpLoop_t r1 hg1 (by omega)
      refine ⟨es1 ++ es2, r2, ?_, hg2, ?_, ?_⟩
      · simp [cgpLoop, ht, h1, h2]
      · simp
        omega
      · simp only [textCat_cons] at hfid1
        simp only [leafCatL_append, String.append_assoc, hfid2, hfid1]
        simp
    case L_CURLY =>
      obtain ⟨es1, r1, h1, hg1, hl1, hfid1⟩ :=
        ih.curly_group_path_t (t :: rest) hg (by simp)
          (by first | omega | (simp only [List.length_cons]; omega))
      simp only [List.length_cons] at hl1
      obtain ⟨es2, r2, h2, hg2, hl2, hfid2⟩ := ih.cgpLoop_t r1 hg1 (by omega)
      refine ⟨es1 ++ es2, r2, ?_, hg2, ?_, ?_⟩
      · simp [cgpLoop, ht, h1, h2]
      · simp
        omega
      · simp only [textCat_cons] at hfid1
        simp only [leafCatL_append, String.append_assoc, hfid2, hfid1]
        simp
    case WHITESPACE =>
      obtain ⟨es1, r1, h1, hg1, hl1, hfid1⟩ :=
        ih.cgpLoop_t rest (good_tail hg) (by omega)
      refine ⟨tokElem t :: es1, r1, ?_, hg1, ?_, ?_⟩
      · simp [cgpLoop, ht, h1]
      · simp
        omega
      · simp [String.append_assoc, hfid1]
    all_goals
      exact ⟨[], t :: rest, by simp [cgpLoop, ht], hg, le_refl _, by simp⟩

theorem step_cgplLoop {fuel : Nat} (ih : Tots fuel) :
    ∀ toks, Good toks → 4 * toks.length + 9 ≤ fuel + 1 →
      OutW toks (cgplLoop (fuel + 1) toks) := by
  intro toks hg hf
  match toks with
  | [] => exact ⟨[], [], by simp [cgplLoop], good_nil, by simp, by simp⟩
  | t :: rest =>
    simp only [List.length_cons] at hf
    cases ht : t.kind
    case COMMENT | WORD | EQUALITY_SIGN | L_BRACK | R_BRACK
    | GENERIC_COMMAND_NAME =>
      obtain ⟨es1, r1, h1, hg1, hl1, hfid1⟩ :=
        ih.path_t (t :: rest) hg (by simp)
          (by first | omega | (simp only [List.length_cons]; omega))
      simp only [List.length_cons] at hl1
      obtain ⟨es2, r2, h2, hg2, hl2, hfid2⟩ := ih.cgplLoop_t r1 hg1 (by omega)
      refine ⟨es1 ++ es2, r2, ?_, hg2, ?_, ?_⟩
      · simp [cgplLoop, ht, h1, h2]
      · simp
        omega
      · simp only [textCat_cons] at hfid1
        simp only [leafCatL_append, String.append_assoc, hfid2, hfid1]
        simp
    case WHITESPACE | LINE_BREAK | COMMA =>
      obtain ⟨es1, r1, h1, hg1, hl1, hfid1⟩ :=
        ih.cgplLoop_t rest (good_tail hg) (by omega)
      refine ⟨tokElem t :: es1, r1, ?_, hg1, ?_, ?_⟩
      · simp [cgplLoop, ht, h1]
      · simp
        omega
      · simp [String.append_assoc, hfid1]
    case L_CURLY =>
      obtain ⟨es1, r1, h1, hg1, hl1, hfid1⟩ :=
        ih.curly_group_path_t (t :: rest) hg (by simp)
          (by first | omega | (simp only [List.length_cons]; omega))
      simp only [List.length_cons] at hl1
      obtain ⟨es2, r2, h2, hg2, hl2, hfid2⟩ := ih.cgplLoop_t r1 hg1 (by omega)
      refine ⟨es1 ++ es2, r2, ?_, hg2, ?_, ?_⟩
      · simp [cgplLoop, ht, h1, h2]
      · simp
        omega
      · simp only [textCat_cons] at hfid1
        simp only [leafCatL_append, String.append_assoc, hfid2, hfid1]
        simp
    all_goals
      exact ⟨[], t :: rest, by simp [cgplLoop, ht], hg, le_refl _, by simp⟩

theorem step_curly_group_path_list {fuel : Nat} (ih : Tots fuel) :
    ∀ toks, Good toks → toks ≠ [] → 4 * toks.length + 7 ≤ fuel + 1 →
      OutS toks (curly_group_path_list (fuel + 1) toks) := by
  intro toks hg hne hf
  match toks with
  | t :: rest =>
    simp only [List.length_cons] at hf
    rcases htr : takeTrivia rest with ⟨tr, r0⟩
    obtain ⟨hg0, hl0, hfid0⟩ := takeTrivia_out rest tr r0 htr (good_tail hg)
    obtain ⟨es1, r1, h1, hg1, hl1, hfid1⟩ := ih.cgplLoop_t r0 hg0 (by omega)
    rcases h2 : expect R_CURLY r1 with ⟨es2, r2⟩
    obtain ⟨hg2, hl2, hfid2⟩ := expect_out R_CURLY r1 es2 r2 h2 hg1
    refine ⟨[.node CURLY_GROUP_WORD_LIST (tokElem t :: tr ++ es1 ++ es2)], r2, ?_, hg2, ?_, ?_⟩
    · simp [curly_group_path_list, htr, h1, h2]
    · simp
      omega
    · simp [String.append_assoc, hfid2, hfid1, hfid0]

theorem step_graphics_path {fuel : Nat} (ih : Tots fuel) :
    ∀ toks, Good toks → toks ≠ [] → 4 * toks.length + 7 ≤ fuel + 1 →
      OutS toks (graphics_path (fuel + 1) toks) := by
  intro toks hg hne hf
  match toks with
  | t :: rest =>
    simp only [List.length_cons] at hf
    rcases htr : takeTrivia rest with ⟨tr, r0⟩
    obtain ⟨hg0, hl0, hfid0⟩ := takeTrivia_out rest tr r0 htr (good_tail hg)
    match r0 with
    | u :: r0' =>
      simp only [textCat_cons] at hfid0
      simp only [List.length_cons] at hl0
      by_cases hu : u.kind = L_CURLY
      · rcases htr2 : takeTrivia r0' with ⟨tr2, r1⟩
        obtain ⟨hg1, hl1, hfid1⟩ := takeTrivia_out r0' tr2 r1 htr2 (good_tail hg0)
        by_cases hw : gpWordlike (headKind r1) = true
        · obtain ⟨pes, r2, h2, hg2, hl2, hfid2⟩ :=
            ih.path_t r1 hg1 (gpWordlike_ne hw) (by omega)
          rcases h3 : expect R_CURLY r2 with ⟨es3, r3⟩
          obtain ⟨hg3, hl3, hfid3⟩ := expect_out R_CURLY r2 es3 r3 h3 hg2
          refine ⟨[.node GRAPHICS_PATH
            (tokElem t :: tr ++ [.node CURLY_GROUP_WORD (tokElem u :: tr2 ++ pes ++ es3)])],
            r3, ?_, hg3, ?_, ?_⟩
          · simp [graphics_path, htr, hu, htr2, hw, h2, h3]
          · simp
            omega
          · simp [String.append_assoc, hfid3, hfid2, hfid1, hfid0]
        · obtain ⟨ges, r2, h2, hg2, hl2, hfid2⟩ := ih.gpLoop_t r1 hg1 (by omega)
          rcases h3 : expect R_CURLY r2 with ⟨es3, r3⟩
          obtain ⟨hg3, hl3, hfid3⟩ := expect_out R_CURLY r2 es3 r3 h3 hg2
          refine ⟨[.node GRAPHICS_PATH
            (tokElem t :: tr ++ [.node CURLY_GROUP (tokElem u :: tr2 ++ ges ++ es3)])],
            r3, ?_, hg3, ?_, ?_⟩
          · simp [graphics_path, htr, hu, htr2, hw, h2, h3]
          · simp
            omega
          · simp [String.append_assoc, hfid3, hfid2, hfid1, hfid0]
      · refine ⟨[.node GRAPHICS_PATH (tokElem t :: tr)], u :: r0', ?_, hg0, ?_, ?_⟩
        · simp [graphics_path, htr, hu]
        · simp
          omega
        · simp [String.append_assoc, hfid0]
    | [] =>
      refine ⟨[.node GRAPHICS_PATH (tokElem t :: tr)], [], ?_, good_nil, ?_, ?_⟩
      · simp [graphics_path, htr]
      · simp
      · simp at hfid0
        simp [String.append_assoc, hfid0]

set_option maxHeartbeats 2000000 in
theorem step_content {fuel : Nat} (ih : Tots fuel) :
    ∀ context toks, Good toks → toks ≠ [] → 4 * toks.length + 8 ≤ fuel + 1 →
      OutS toks (content (fuel + 1) context toks) := by
  intro context toks hg hne hf
  match toks with
  | t :: rest =>
    simp only [List.length_cons] at hf
    have hk := good_head hg
    have hfe : 4 * (t :: rest).length + 7 ≤ fuel := by
      simp only [List.length_cons]
      omega
    have hne2 : t :: rest ≠ [] := by simp
    cases ht : t.kind
    case LINE_BREAK | WHITESPACE | COMMENT | VERBATIM | EQUALITY_SIGN
    | MISSING | ERROR =>
      exact ⟨[tokElem t], rest, by simp [content, ht], good_tail hg, by simp, by simp⟩
    case R_CURLY | R_BRACK | R_PAREN =>
      exact ⟨[.node ERROR [tokElem t]], rest, by simp [content, ht], good_tail hg,
        by simp, by simp⟩
    case WORD | COMMA =>
      obtain ⟨es, r, he, hgr, hl, hfid⟩ := text_out context (t :: rest) hg hne2
      exact ⟨es, r, by simp only [content, ht]; exact he, hgr, hl, hfid⟩
    case L_CURLY =>
      by_cases hae : context.allow_environment = true
      · obtain ⟨es, r, he, hgr, hl, hfid⟩ := ih.curly_group_t (t :: rest) hg hne2 hfe
        exact ⟨es, r, by simp [content, ht, hae, he], hgr, hl, hfid⟩
      · obtain ⟨es, r, he, hgr, hl, hfid⟩ := ih.cgwe_t (t :: rest) hg hne2 hfe
        exact ⟨es, r, by simp [content, ht, hae, he], hgr, hl, hfid⟩
    case L_BRACK | L_PAREN =>
      obtain ⟨es, r, he, hgr, hl, hfid⟩ := ih.mixed_group_t (t :: rest) hg hne2 hfe
      exact ⟨es, r, by simp only [content, ht]; exact he, hgr, hl, hfid⟩
    case DOLLAR =>
      obtain ⟨es, r, he, hgr, hl, hfid⟩ := ih.formula_t (t :: rest) hg hne2 hfe
      exact ⟨es, r, by simp only [content, ht]; exact he, hgr, hl, hfid⟩
    case GENERIC_COMMAND_NAME | END_ENVIRONMENT_NAME | END_EQUATION_NAME
    | END_BLOCK_COMMENT_NAME =>
      obtain ⟨es, r, he, hgr, hl, hfid⟩ := ih.generic_command_t (t :: rest) hg hne2 hfe
      exact ⟨es, r, by simp only [content, ht]; exact he, hgr, hl, hfid⟩
    case BEGIN_ENVIRONMENT_NAME =>
      by_cases hae : context.allow_environment = true
      · obtain ⟨es, r, he, hgr, hl, hfid⟩ := ih.environment_t (t :: rest) hg hne2 hfe
        exact ⟨es, r, by simp [content, ht, hae, he], hgr, hl, hfid⟩
      · obtain ⟨es, r, he, hgr, hl, hfid⟩ := ih.generic_command_t (t :: rest) hg hne2 hfe
        exact ⟨es, r, by simp [content, ht, hae, he], hgr, hl, hfid⟩
    case BEGIN_EQUATION_NAME =>
      obtain ⟨es, r, he, hgr, hl, hfid⟩ := ih.equation_t (t :: rest) hg hne2 hfe
      exact ⟨es, r, by simp only [content, ht]; exact he, hgr, hl, hfid⟩
    case PART_NAME =>
      obtain ⟨es, r, he, hgr, hl, hfid⟩ :=
        ih.sectioning_t PART partStop (t :: rest) hg hne2 hfe
      exact ⟨es, r, by simp only [content, ht]; exact he, hgr, hl, hfid⟩
    case CHAPTER_NAME =>
      obtain ⟨es, r, he, hgr, hl, hfid⟩ :=
        ih.sectioning_t CHAPTER chapterStop (t :: rest) hg hne2 hfe
      exact ⟨es, r, by simp only [content, ht]; exact he, hgr, hl, hfid⟩
    case SECTION_NAME =>
      obtain ⟨es, r, he, hgr, hl, hfid⟩ :=
        ih.sectioning_t SECTION sectionStop (t :: rest) hg hne2 hfe
      exact ⟨es, r, by simp only [content, ht]; exact he, hgr, hl, hfid⟩
    case SUBSECTION_NAME =>
      obtain ⟨es, r, he, hgr, hl, hfid⟩ :=
        ih.sectioning_t SUBSECTION subsectionStop (t :: rest) hg hne2 hfe
      exact ⟨es, r, by simp only [content, ht]; exact he, hgr, hl, hfid⟩
    case SUBSUBSECTION_NAME =>
      obtain ⟨es, r, he, hgr, hl, hfid⟩ :=
        ih.sectioning_t SUBSUBSECTION subsubsectionStop (t :: rest) hg hne2 hfe
      exact ⟨es, r, by simp only [content, ht]; exact he, hgr, hl, hfid⟩
    case PARAGRAPH_NAME =>
      obtain ⟨es, r, he, hgr, hl, hfid⟩ :=
        ih.sectioning_t PARAGRAPH paragraphStop (t :: rest) hg hne2 hfe
      exact ⟨es, r, by simp only [content, ht]; exact he, hgr, hl, hfid⟩
    case SUBPARAGRAPH_NAME =>
      obtain ⟨es, r, he, hgr, hl, hfid⟩ :=
        ih.sectioning_t SUBPARAGRAPH subparagraphStop (t :: rest) hg hne2 hfe
      exact ⟨es, r, by simp only [content, ht]; exact he, hgr, hl, hfid⟩
    case ENUM_ITEM_NAME =>
      obtain ⟨es, r, he, hgr, hl, hfid⟩ := ih.enum_item_t (t :: rest) hg hne2 hfe
      exact ⟨es, r, by simp only [content, ht]; exact he, hgr, hl, hfid⟩
    case CAPTION_NAME =>
      obtain ⟨es, r, he, hgr, hl, hfid⟩ := ih.caption_t (t :: rest) hg hne2 hfe
      exact ⟨es, r, by simp only [content, ht]; exact he, hgr, hl, hfid⟩
    case CITATION_NAME =>
      obtain ⟨es, r, he, hgr, hl, hfid⟩ := ih.citation_t (t :: rest) hg hne2 hfe
      exact ⟨es, r, by simp only [content, ht]; exact he, hgr, hl, hfid⟩
    case PACKAGE_INCLUDE_NAME =>
      obtain ⟨es, r, he, hgr, hl, hfid⟩ :=
        ih.generic_include_t PACKAGE_INCLUDE true (t :: rest) hg hne2 hfe
      exact ⟨es, r, by simp only [content, ht]; exact he, hgr, hl, hfid⟩
    case CLASS_INCLUDE_NAME =>
      obtain ⟨es, r, he, hgr, hl, hfid⟩ :=
        ih.generic_include_t CLASS_INCLUDE true (t :: rest) hg hne2 hfe
      exact ⟨es, r, by simp only [content, ht]; exact he, hgr, hl, hfid⟩
    case LATEX_INCLUDE_NAME =>
      obtain ⟨es, r, he, hgr, hl, hfid⟩ :=
        ih.generic_include_t LATEX_INCLUDE false (t :: rest) hg hne2 hfe
      exact ⟨es, r, by simp only [content, ht]; exact he, hgr, hl, hfid⟩
    case BIBLATEX_INCLUDE_NAME =>
      obtain ⟨es, r, he, hgr, hl, hfid⟩ :=
        ih.generic_include_t BIBLATEX_INCLUDE true (t :: rest) hg hne2 hfe
      exact ⟨es, r, by simp only [content, ht]; exact he, hgr, hl, hfid⟩
    case BIBTEX_INCLUDE_NAME =>
      obtain ⟨es, r, he, hgr, hl, hfid⟩ :=
        ih.generic_include_t BIBTEX_INCLUDE false (t :: rest) hg hne2 hfe
      exact ⟨es, r, by simp only [content, ht]; exact he, hgr, hl, hfid⟩
    case GRAPHICS_INCLUDE_NAME =>
      obtain ⟨es, r, he, hgr, hl, hfid⟩ :=
        ih.generic_include_t GRAPHICS_INCLUDE true (t :: rest) hg hne2 hfe
      exact ⟨es, r, by simp only [content, ht]; exact he, hgr, hl, hfid⟩
    case SVG_INCLUDE_NAME =>
      obtain ⟨es, r, he, hgr, hl, hfid⟩ :=
        ih.generic_include_t SVG_INCLUDE true (t :: rest) hg hne2 hfe
      exact ⟨es, r, by simp only [content, ht]; exact he, hgr, hl, hfid⟩
    case INKSCAPE_INCLUDE_NAME =>
      obtain ⟨es, r, he, hgr, hl, hfid⟩ :=
        ih.generic_include_t INKSCAPE_INCLUDE true (t :: rest) hg hne2 hfe
      exact ⟨es, r, by simp only [content, ht]; exact he, hgr, hl, hfid⟩
    case VERBATIM_INCLUDE_NAME =>
      obtain ⟨es, r, he, hgr, hl, hfid⟩ :=
        ih.generic_include_t VERBATIM_INCLUDE false (t :: rest) hg hne2 hfe
      exact ⟨es, r, by simp only [content, ht]; exact he, hgr, hl, hfid⟩
    case IMPORT_NAME =>
      obtain ⟨es, r, he, hgr, hl, hfid⟩ := ih.importCmd_t (t :: rest) hg hne2 hfe
      exact ⟨es, r, by simp only [content, ht]; exact he, hgr, hl, hfid⟩
    case LABEL_DEFINITION_NAME =>
      obtain ⟨es, r, he, hgr, hl, hfid⟩ := ih.label_definition_t (t :: rest) hg hne2 hfe
      exact ⟨es, r, by simp only [content, ht]; exact he, hgr, hl, hfid⟩
    case LABEL_REFERENCE_NAME =>
      obtain ⟨es, r, he, hgr, hl, hfid⟩ := label_reference_out (t :: rest) hg hne2
      exact ⟨es, r, by simp only [content, ht]; exact he, hgr, hl, hfid⟩
    case LABEL_REFERENCE_RANGE_NAME =>
      obtain ⟨es, r, he, hgr, hl, hfid⟩ := ih.label_reference_range_t (t :: rest) hg hne2 hfe
      exact ⟨es, r, by simp only [content, ht]; exact he, hgr, hl, hfid⟩
    case LABEL_NUMBER_NAME =>
      obtain ⟨es, r, he, hgr, hl, hfid⟩ := ih.label_number_t (t :: rest) hg hne2 hfe
      exact ⟨es, r, by simp only [content, ht]; exact he, hgr, hl, hfid⟩
    case COMMAND_DEFINITION_NAME =>
      obtain ⟨es, r, he, hgr, hl, hfid⟩ := ih.command_definition_t (t :: rest) hg hne2 hfe
      exact ⟨es, r, by simp only [content, ht]; exact he, hgr, hl, hfid⟩
    case MATH_OPERATOR_NAME =>
      obtain ⟨es, r, he, hgr, hl, hfid⟩ := ih.math_operator_t (t :: rest) hg hne2 hfe
      exact ⟨es, r, by simp only [content, ht]; exact he, hgr, hl, hfid⟩
    case GLOSSARY_ENTRY_DEFINITION_NAME =>
      obtain ⟨es, r, he, hgr, hl, hfid⟩ :=
        ih.glossary_entry_definition_t (t :: rest) hg hne2 hfe
      exact ⟨es, r, by simp only [content, ht]; exact he, hgr, hl, hfid⟩
    case GLOSSARY_ENTRY_REFERENCE_NAME =>
      obtain ⟨es, r, he, hgr, hl, hfid⟩ :=
        ih.glossary_entry_reference_t (t :: rest) hg hne2 hfe
      exact ⟨es, r, by simp only [content, ht]; exact he, hgr, hl, hfid⟩
    case ACRONYM_DEFINITION_NAME =>
      obtain ⟨es, r, he, hgr, hl, hfid⟩ := ih.acronym_definition_t (t :: rest) hg hne2 hfe
      exact ⟨es, r, by simp only [content, ht]; exact he, hgr, hl, hfid⟩
    case ACRONYM_DECLARATION_NAME =>
      obtain ⟨es, r, he, hgr, hl, hfid⟩ := ih.acronym_declaration_t (t :: rest) hg hne2 hfe
      exact ⟨es, r, by simp only [content, ht]; exact he, hgr, hl, hfid⟩
    case ACRONYM_REFERENCE_NAME =>
      obtain ⟨es, r, he, hgr, hl, hfid⟩ := ih.acronym_reference_t (t :: rest) hg hne2 hfe
      exact ⟨es, r, by simp only [content, ht]; exact he, hgr, hl, hfid⟩
    case THEOREM_DEFINITION_NAME =>
      obtain ⟨es, r, he, hgr, hl, hfid⟩ := ih.theorem_definition_t (t :: rest) hg hne2 hfe
      exact ⟨es, r, by simp only [content, ht]; exact he, hgr, hl, hfid⟩
    case COLOR_REFERENCE_NAME =>
      obtain ⟨es, r, he, hgr, hl, hfid⟩ := ih.color_reference_t (t :: rest) hg hne2 hfe
      exact ⟨es, r, by simp only [content, ht]; exact he, hgr, hl, hfid⟩
    case COLOR_DEFINITION_NAME =>
      obtain ⟨es, r, he, hgr, hl, hfid⟩ := ih.color_definition_t (t :: rest) hg hne2 hfe
      exact ⟨es, r, by simp only [content, ht]; exact he, hgr, hl, hfid⟩
    case COLOR_SET_DEFINITION_NAME =>
      obtain ⟨es, r, he, hgr, hl, hfid⟩ := ih.color_set_definition_t (t :: rest) hg hne2 hfe
      exact ⟨es, r, by simp only [content, ht]; exact he, hgr, hl, hfid⟩
    case TIKZ_LIBRARY_IMPORT_NAME =>
      obtain ⟨es, r, he, hgr, hl, hfid⟩ := tikz_library_import_out (t :: rest) hg hne2
      exact ⟨es, r, by simp only [content, ht]; exact he, hgr, hl, hfid⟩
    case ENVIRONMENT_DEFINITION_NAME =>
      obtain ⟨es, r, he, hgr, hl, hfid⟩ :=
        ih.environment_definition_t (t :: rest) hg hne2 hfe
      exact ⟨es, r, by simp only [content, ht]; exact he, hgr, hl, hfid⟩
    case BEGIN_BLOCK_COMMENT_NAME =>
      obtain ⟨es, r, he, hgr, hl, hfid⟩ := block_comment_out (t :: rest) hg hne2
      exact ⟨es, r, by simp only [content, ht]; exact he, hgr, hl, hfid⟩
    case GRAPHICS_PATH_NAME =>
      obtain ⟨es, r, he, hgr, hl, hfid⟩ := ih.graphics_path_t (t :: rest) hg hne2 hfe
      exact ⟨es, r, by simp only [content, ht]; exact he, hgr, hl, hfid⟩
    all_goals (
      rw [ht] at hk
      simp [SyntaxKind.isTokenKind, SyntaxKind.isCommandName] at hk)

/-- The parser invariant holds at every fuel value. -/
theorem totsAll : ∀ fuel, Tots fuel := by
  intro fuel
  induction fuel with
  | zero => constructor <;> (intros; exfalso; omega)
  | succ fuel ih =>
    exact ⟨step_content ih, step_contentLoop ih, step_curly_group_v2 ih, step_cgiLoop ih,
      step_curly_group_impl ih, step_cgwe ih, step_curly_group_word ih, step_brack_group ih,
      step_mixed_group ih, step_value ih, step_key_value_pair ih, step_kvbLoop ih,
      step_key_value_body ih, step_group_key_value ih, step_formula ih, step_gcLoop ih,
      step_generic_command ih, step_equation ih, step_begin ih, step_endCmd ih,
      step_environment ih, step_preamble ih, step_sectioning ih, step_enum_item ih,
      step_caption ih, step_citation ih, step_generic_include ih, step_importCmd ih,
      step_label_definition ih, step_label_reference_range ih, step_label_number ih,
      step_command_definition ih, step_math_operator ih, step_glossary_entry_definition ih,
      step_glossary_entry_reference ih, step_acronym_definition ih, step_acronym_declaration ih,
      step_acronym_reference ih, step_theorem_definition ih, step_color_reference ih,
      step_color_definition ih, step_color_set_definition ih, step_environment_definition ih,
      step_graphics_path ih, step_gpLoop ih, step_path ih, step_pathLoop ih,
      step_curly_group_path ih, step_cgpLoop ih, step_curly_group_path_list ih, step_cgplLoop ih⟩

/-- Every `content` loop stops only at the end of the input or in front of a
token from its stop set. -/
theorem contentLoop_stop :
    ∀ fuel stop context toks es rest,
      contentLoop fuel stop context toks = some (es, rest) →
      rest = [] ∨ ∃ u rs, rest = u :: rs ∧ stop u.kind = true := by
  intro fuel
  induction fuel with
  | zero =>
    intro stop context toks es rest h
    simp [contentLoop] at h
  | succ fuel ih =>
    intro stop context toks es rest h
    match toks with
    | [] =>
      simp only [contentLoop, Option.some.injEq, Prod.mk.injEq] at h
      exact Or.inl h.2.symm
    | t :: rest' =>
      simp only [contentLoop] at h
      by_cases hstop : stop t.kind = true
      · rw [if_pos hstop] at h
        simp only [Option.some.injEq, Prod.mk.injEq] at h
        exact Or.inr ⟨t, rest', h.2.symm, hstop⟩
      · rw [if_neg hstop] at h
        rw [Option.bind_eq_bind', Option.bind_eq_some] at h
        obtain ⟨⟨es1, r1⟩, hc, h⟩ := h
        simp only at h
        rw [Option.bind_eq_bind', Option.bind_eq_some] at h
        obtain ⟨⟨es2, r2⟩, hcl, h⟩ := h
        simp only [Option.some.injEq, Prod.mk.injEq] at h
        obtain ⟨_, hr⟩ := h
        subst hr
        exact ih stop context r1 es2 _ hcl

/-- A successful `preamble` always produces exactly one `PREAMBLE` node. -/
theorem preamble_shape :
    ∀ fuel toks es r, preamble fuel toks = some (es, r) →
      ∃ inner, es = [GreenElem.node PREAMBLE inner] := by
  intro fuel toks es r h
  match fuel with
  | 0 => simp [preamble] at h
  | fuel + 1 =>
    simp only [preamble] at h
    rcases hcl : contentLoop fuel preambleStop ctxDefault toks with _ | ⟨es1, r1⟩
    · simp [hcl] at h
    · simp [hcl] at h
      exact ⟨es1, h.1.symm⟩

/-- Totality plus fidelity of `parse_latex` on a well-kinded stream: the parse
succeeds, the root is a `ROOT` node whose first child is the `PREAMBLE` node,
and the leaves reproduce the input. -/
theorem parse_latex_total (toks : List Token) (hg : Good toks) :
    ∃ inner es2, parse_latex toks = some (.node ROOT (.node PREAMBLE inner :: es2)) ∧
      leafCat (.node ROOT (.node PREAMBLE inner :: es2)) = textCat toks := by
  obtain ⟨pes, r1, h1, hg1, hl1, hfid1⟩ :=
    (totsAll (parseFuel toks)).preamble_t toks hg (by simp only [parseFuel]; omega)
  obtain ⟨es2, r2, h2, hg2, hl2, hfid2⟩ :=
    (totsAll (parseFuel toks)).contentLoop_t noStop ctxDefault r1 hg1
      (by simp only [parseFuel]; omega)
  have hr2 : r2 = [] := by
    rcases contentLoop_stop (parseFuel toks) noStop ctxDefault r1 es2 r2 h2 with
      h | ⟨u, rs, _, hstop⟩
    · exact h
    · simp [noStop] at hstop
  subst hr2
  obtain ⟨inner, hinner⟩ := preamble_shape _ _ _ _ h1
  subst hinner
  simp only [textCat_nil, sAppendEmpty] at hfid2
  simp only [leafCatL_cons, leafCatL_nil, leafCat_node, sAppendEmpty] at hfid1
  refine ⟨inner, es2, ?_, ?_⟩
  · simp [parse_latex, h1, h2]
  · simp [String.append_assoc, hfid2, hfid1]



/-- A `content` loop stops immediately, consuming nothing, when the next
token's kind is in its stop set. -/
theorem contentLoop_immediate (fuel : Nat) (stop : SyntaxKind → Bool)
    (context : ParserContext) (t : Token) (rs : List Token)
    (h : stop t.kind = true) :
    contentLoop (fuel + 1) stop context (t :: rs) = some ([], t :: rs) := by
  simp [contentLoop, h]

theorem preambleStop_true_iff (k : SyntaxKind) :
    preambleStop k = true ↔ k = END_ENVIRONMENT_NAME := by
  cases k <;> simp [preambleStop]

theorem envBodyStop_true_iff (k : SyntaxKind) :
    envBodyStop k = true ↔ k = R_CURLY ∨ k = END_ENVIRONMENT_NAME := by
  cases k <;> simp [envBodyStop]

theorem begin_shape :
    ∀ fuel toks es r, begin fuel toks = some (es, r) →
      ∃ inner, es = [GreenElem.node BEGIN inner] := by
  intro fuel toks es r h
  match fuel, toks with
  | 0, _ => simp [begin] at h
  | fuel + 1, [] => simp [begin] at h
  | fuel + 1, t :: rest =>
    rcases htr : takeTrivia rest with ⟨tr, r0⟩
    simp only [begin, htr] at h
    rw [Option.bind_eq_bind', Option.bind_eq_some] at h
    obtain ⟨⟨g, r1⟩, h1, h⟩ := h
    simp only at h
    rw [Option.bind_eq_bind', Option.bind_eq_some] at h
    obtain ⟨⟨b, r2⟩, h2, h⟩ := h
    simp only [Option.some.injEq, Prod.mk.injEq] at h
    exact ⟨_, h.1.symm⟩

theorem endCmd_shape :
    ∀ fuel toks es r, endCmd fuel toks = some (es, r) →
      ∃ inner, es = [GreenElem.node END inner] := by
  intro fuel toks es r h
  match fuel, toks with
  | 0, _ => simp [endCmd] at h
  | fuel + 1, [] => simp [endCmd] at h
  | fuel + 1, t :: rest =>
    rcases htr : takeTrivia rest with ⟨tr, r0⟩
    simp only [endCmd, htr] at h
    rw [Option.bind_eq_bind', Option.bind_eq_some] at h
    obtain ⟨⟨g, r1⟩, h1, h⟩ := h
    simp only [Option.some.injEq, Prod.mk.injEq] at h
    exact ⟨_, h.1.symm⟩

theorem curly_group_shape :
    ∀ fuel toks es r, curly_group fuel toks = some (es, r) →
      ∃ cs, es = [GreenElem.node CURLY_GROUP cs] := by
  intro fuel toks es r h
  match fuel, toks with
  | 0, _ => simp [curly_group] at h
  | fuel + 1, [] => simp [curly_group] at h
  | fuel + 1, t :: rest =>
    simp only [curly_group] at h
    rw [Option.bind_eq_bind', Option.bind_eq_some] at h
    obtain ⟨⟨es1, r1⟩, h1, h⟩ := h
    simp only at h
    rcases hex : expect R_CURLY r1 with ⟨es2, r2⟩
    rw [hex] at h
    simp only [Option.some.injEq, Prod.mk.injEq] at h
    exact ⟨_, h.1.symm⟩

theorem mixed_group_shape :
    ∀ fuel toks es r, mixed_group fuel toks = some (es, r) →
      ∃ cs, es = [GreenElem.node MIXED_GROUP cs] := by
  intro fuel toks es r h
  match fuel, toks with
  | 0, _ => simp [mixed_group] at h
  | fuel + 1, [] => simp [mixed_group] at h
  | fuel + 1, t :: rest =>
    rcases htr : takeTrivia rest with ⟨tr, r0⟩
    simp only [mixed_group, htr] at h
    rw [Option.bind_eq_bind', Option.bind_eq_some] at h
    obtain ⟨⟨es1, r1⟩, h1, h⟩ := h
    simp only at h
    rcases hex : expect2 R_BRACK R_PAREN r1 with ⟨es2, r2⟩
    rw [hex] at h
    simp only [Option.some.injEq, Prod.mk.injEq] at h
    exact ⟨_, h.1.symm⟩

theorem gcLoop_shape :
    ∀ fuel toks es r, gcLoop fuel toks = some (es, r) →
      (∀ e ∈ es,
        (∃ u : Token, e = tokElem u ∧
          (u.kind = LINE_BREAK ∨ u.kind = WHITESPACE ∨ u.kind = COMMENT)) ∨
        (∃ cs, e = GreenElem.node CURLY_GROUP cs) ∨
        (∃ cs, e = GreenElem.node MIXED_GROUP cs)) ∧
      (r = [] ∨ ∃ u rs, r = u :: rs ∧ gcContinue u.kind = false) := by
  intro fuel
  induction fuel with
  | zero => intro toks es r h; simp [gcLoop] at h
  | succ fuel ih =>
    intro toks es r h
    match toks with
    | [] =>
      simp only [gcLoop, Option.some.injEq, Prod.mk.injEq] at h
      obtain ⟨h1, h2⟩ := h
      subst h1; subst h2
      exact ⟨by simp, Or.inl rfl⟩
    | t :: rest =>
      rcases ht : t.kind with _ | _ | _ | _ | _ | _ | _ | _ | _ | _ | _ | _ | _ | _ | _ | _ | _ | _ | _ | _ | _ | _ | _ | _ | _ | _ | _ | _ | _ | _ | _ | _ | _ | _ | _ | _ | _ | _ | _ | _ | _ | _ | _ | _ | _ | _ | _ | _ | _ | _ | _ | _ | _ | _ | _ | _ | _ | _ | _ | _ | _ | _ | _ | _ | _ | _ | _ | _ | _ | _ | _ | _ | _ | _ | _ | _ | _ | _ | _ | _ | _ | _ | _ | _ | _ | _ | _ | _ | _ | _ | _ | _ | _ | _ | _ | _ | _ | _ | _ | _ | _ <;> simp only [gcLoop, ht] at h <;>
      first
      | -- trivia arms
        ((try rw [Option.bind_eq_bind'] at h); rw [Option.bind_eq_some] at h
         obtain ⟨⟨es1, r1⟩, h1, h⟩ := h
         simp only [Option.some.injEq, Prod.mk.injEq] at h
         obtain ⟨he, hr⟩ := h
         obtain ⟨hmem, hrest⟩ := ih rest es1 r1 h1
         subst he
         rw [← hr]
         refine ⟨?_, hrest⟩
         intro e hmemE
         rcases List.mem_cons.mp hmemE with hE | hE
         · exact Or.inl ⟨t, hE, by simp [ht]⟩
         · exact hmem e hE)
      | -- curly / mixed group arms
        ((try rw [Option.bind_eq_bind'] at h); rw [Option.bind_eq_some] at h
         obtain ⟨⟨g, r1⟩, h1, h⟩ := h
         (try simp only at h)
         (try rw [Option.bind_eq_bind'] at h); rw [Option.bind_eq_some] at h
         obtain ⟨⟨es2, r2⟩, h2, h⟩ := h
         simp only [Option.some.injEq, Prod.mk.injEq] at h
         obtain ⟨he, hr⟩ := h
         have hshape : (∃ cs, g = [GreenElem.node CURLY_GROUP cs]) ∨
             (∃ cs, g = [GreenElem.node MIXED_GROUP cs]) := by
           first
           | exact Or.inl (curly_group_shape fuel (t :: rest) g r1 h1)
           | exact Or.inr (mixed_group_shape fuel (t :: rest) g r1 h1)
         obtain ⟨hmem, hrest⟩ := ih r1 es2 r2 h2
         subst he
         rw [← hr]
         refine ⟨?_, hrest⟩
         intro e hmemE
         rcases List.mem_append.mp hmemE with hE | hE
         · rcases hshape with ⟨cs, hg⟩ | ⟨cs, hg⟩ <;> subst hg <;>
             simp only [List.mem_singleton] at hE
           · exact Or.inr (Or.inl ⟨cs, hE⟩)
           · exact Or.inr (Or.inr ⟨cs, hE⟩)
         · exact hmem e hE)
      | -- default arm
        (simp only [Option.some.injEq, Prod.mk.injEq] at h
         obtain ⟨he, hr⟩ := h
         subst he; subst hr
         exact ⟨by simp, Or.inr ⟨t, rest, rfl, by simp [gcContinue, ht]⟩⟩)

/-- C1: for every input string `s`, concatenating the texts of all token
leaves of `parse(s)` in document order equals `s` exactly; `MISSING` leaves
carry the empty text, so they contribute nothing. -/
theorem claim_C1 :
    ∀ (s : String) (toks : List Token), LexerOutput s toks →
      ∃ t, parse_latex toks = some t ∧ leafCat t = s := by
  intro s toks hlex
  obtain ⟨hcat, hg⟩ := hlex
  obtain ⟨inner, es2, hp, hfid⟩ := parse_latex_total toks hg
  exact ⟨_, hp, by rw [hfid, hcat]⟩

theorem claim_C1_witness :
    ∃ t, parse_latex [tk WORD "hello", tk WHITESPACE " ", tk WORD "world"] =
        some t ∧ leafCat t = "hello world" :=
  claim_C1 "hello world" [tk WORD "hello", tk WHITESPACE " ", tk WORD "world"]
    ⟨rfl, by
      intro u hu
      simp only [List.mem_cons, List.not_mem_nil, or_false] at hu
      rcases hu with rfl | rfl | rfl <;> rfl⟩

/-- C2: the parser is total: on every lexer output it succeeds (never errors,
never panics, and the fuel bound never runs out) and returns a tree whose
top-level node has kind `ROOT`, including for the empty input and for
single-token inputs. -/
theorem claim_C2 :
    (∀ (s : String) (toks : List Token), LexerOutput s toks →
      ∃ children, parse_latex toks = some (.node ROOT children)) ∧
    parse_latex [] = some (.node ROOT [.node PREAMBLE []]) ∧
    (∀ t : Token, t.kind.isTokenKind = true →
      ∃ children, parse_latex [t] = some (.node ROOT children)) := by
  refine ⟨?_, rfl, ?_⟩
  · intro s toks hlex
    obtain ⟨inner, es2, hp, _⟩ := parse_latex_total toks hlex.2
    exact ⟨_, hp⟩
  · intro t ht
    obtain ⟨inner, es2, hp, _⟩ := parse_latex_total [t]
      (by intro u hu; simp only [List.mem_singleton] at hu; subst hu; exact ht)
    exact ⟨_, hp⟩

theorem claim_C2_witness :
    ∃ children, parse_latex [tk R_CURLY "\x7d"] = some (.node ROOT children) :=
  claim_C2.1 "\x7d" [tk R_CURLY "\x7d"] ⟨rfl, by
    intro u hu
    simp only [List.mem_cons, List.not_mem_nil, or_false] at hu
    rcases hu with rfl <;> rfl⟩

/-- C8: the `content` dispatch wraps a stray closer (`R_CURLY`, `R_BRACK` or
`R_PAREN` reaching it without an enclosing group rule consuming it) in a
singleton `ERROR` node holding exactly that token; in particular the
single-token input consisting of one `R_CURLY` lexeme parses to
`ROOT(PREAMBLE(ERROR(R_CURLY)))`. -/
theorem claim_C8 :
    (∀ (fuel : Nat) (context : ParserContext) (t : Token) (rest : List Token),
      t.kind = R_CURLY ∨ t.kind = R_BRACK ∨ t.kind = R_PAREN →
      content (fuel + 1) context (t :: rest) =
        some ([.node ERROR [tokElem t]], rest)) ∧
    parse_latex [tk R_CURLY "\x7d"] =
      some (.node ROOT [.node PREAMBLE [.node ERROR [.token R_CURLY "\x7d"]]]) := by
  refine ⟨?_, rfl⟩
  intro fuel context t rest h
  rcases h with h | h | h <;> simp [content, h]

theorem claim_C8_witness :
    content 5 ctxDefault [tk R_BRACK "]"] =
      some ([.node ERROR [tokElem (tk R_BRACK "]")]], []) :=
  claim_C8.1 4 ctxDefault (tk R_BRACK "]") [] (Or.inr (Or.inl rfl))

/-- C9: parsing is a pure, deterministic function of the token stream: equal
inputs give equal results, and two successful runs on the same input give
the same tree, `MISSING`/`ERROR` placements included. -/
theorem claim_C9 :
    (∀ toks1 toks2 : List Token, toks1 = toks2 →
      parse_latex toks1 = parse_latex toks2) ∧
    (∀ toks t1 t2, parse_latex toks = some t1 → parse_latex toks = some t2 →
      t1 = t2) := by
  constructor
  · intro toks1 toks2 h; rw [h]
  · intro toks t1 t2 h1 h2
    rw [h1] at h2
    exact Option.some.inj h2

theorem claim_C9_witness :
    parse_latex [tk WORD "x"] = parse_latex [tk WORD "x"] :=
  claim_C9.1 [tk WORD "x"] [tk WORD "x"] rfl

/-- C3: the `PREAMBLE` node is always the first child of `ROOT`; the preamble
region runs until end of input or the first `END_ENVIRONMENT_NAME` at the top
level, so a top-level `\section` does not end it and its `SECTION` node sits
inside `PREAMBLE`. -/
theorem claim_C3 :
    (∀ toks t, parse_latex toks = some t →
      ∃ inner after, t = GreenElem.node ROOT (.node PREAMBLE inner :: after)) ∧
    (∀ fuel toks es rest, preamble fuel toks = some (es, rest) →
      rest = [] ∨ ∃ u rs, rest = u :: rs ∧ u.kind = END_ENVIRONMENT_NAME) ∧
    parse_latex [tk SECTION_NAME "\\section", tk L_CURLY "\x7b", tk WORD "Intro",
        tk R_CURLY "\x7d", tk WHITESPACE " ", tk WORD "text"] =
      some (.node ROOT [.node PREAMBLE [.node SECTION
        [.token SECTION_NAME "\\section",
         .node CURLY_GROUP [.token L_CURLY "\x7b",
           .node TEXT [.token WORD "Intro"],
           .token R_CURLY "\x7d", .token WHITESPACE " "],
         .node TEXT [.token WORD "text"]]]]) := by
  refine ⟨?_, ?_, rfl⟩
  · intro toks t h
    simp only [parse_latex] at h
    (try rw [Option.bind_eq_bind'] at h); rw [Option.bind_eq_some] at h
    obtain ⟨⟨pes, r1⟩, hp, h⟩ := h
    (try simp only at h)
    (try rw [Option.bind_eq_bind'] at h); rw [Option.bind_eq_some] at h
    obtain ⟨⟨es, r2⟩, hc, h⟩ := h
    simp only [Option.some.injEq] at h
    obtain ⟨inner, hpe⟩ := preamble_shape (parseFuel toks) toks pes r1 hp
    subst hpe
    exact ⟨inner, es, by rw [← h]; simp⟩
  · intro fuel toks es rest h
    match fuel with
    | 0 => simp [preamble] at h
    | fuel + 1 =>
      simp only [preamble] at h
      (try rw [Option.bind_eq_bind'] at h); rw [Option.bind_eq_some] at h
      obtain ⟨⟨es1, r1⟩, hc, h⟩ := h
      simp only [Option.some.injEq, Prod.mk.injEq] at h
      obtain ⟨_, hr⟩ := h
      rcases contentLoop_stop fuel preambleStop ctxDefault toks es1 r1 hc with
        h0 | ⟨u, rs, hru, hsu⟩
      · exact Or.inl (hr ▸ h0)
      · exact Or.inr ⟨u, rs, hr ▸ hru, (preambleStop_true_iff u.kind).mp hsu⟩

theorem claim_C3_witness :
    ∃ inner after,
      GreenElem.node ROOT [.node PREAMBLE [.node SECTION
        [.token SECTION_NAME "\\section",
         .node CURLY_GROUP [.token L_CURLY "\x7b",
           .node TEXT [.token WORD "Intro"],
           .token R_CURLY "\x7d", .token WHITESPACE " "],
         .node TEXT [.token WORD "text"]]]] =
        GreenElem.node ROOT (.node PREAMBLE inner :: after) :=
  claim_C3.1 [tk SECTION_NAME "\\section", tk L_CURLY "\x7b", tk WORD "Intro",
    tk R_CURLY "\x7d", tk WHITESPACE " ", tk WORD "text"] _ rfl

/-- C4: an `ENVIRONMENT` node is a `BEGIN` node, then content children until
the next `R_CURLY` or `END_ENVIRONMENT_NAME` at the enclosing level, then an
`END` node when `END_ENVIRONMENT_NAME` is next and a zero-length `MISSING`
leaf otherwise; the names in the begin and end groups are never compared, and
a mismatch changes nothing in the structure. -/
theorem claim_C4 :
    (∀ fuel toks es rest, environment (fuel + 1) toks = some (es, rest) →
      ∃ binner r1 mid r2,
        begin fuel toks = some ([.node BEGIN binner], r1) ∧
        contentLoop fuel envBodyStop ctxDefault r1 = some (mid, r2) ∧
        (r2 = [] ∨ ∃ u rs, r2 = u :: rs ∧
          (u.kind = R_CURLY ∨ u.kind = END_ENVIRONMENT_NAME)) ∧
        ((∃ einner r3, headKind r2 = some END_ENVIRONMENT_NAME ∧
            endCmd fuel r2 = some ([.node END einner], r3) ∧ rest = r3 ∧
            es = [.node ENVIRONMENT
              (.node BEGIN binner :: (mid ++ [.node END einner]))]) ∨
         (¬ headKind r2 = some END_ENVIRONMENT_NAME ∧ rest = r2 ∧
            es = [.node ENVIRONMENT (.node BEGIN binner :: (mid ++ [missingTok]))]))) ∧
    (∀ n1 n2 : String,
      environment 40 [tk BEGIN_ENVIRONMENT_NAME "\\begin", tk L_CURLY "\x7b",
          tk WORD n1, tk R_CURLY "\x7d", tk WORD "x",
          tk END_ENVIRONMENT_NAME "\\end", tk L_CURLY "\x7b", tk WORD n2,
          tk R_CURLY "\x7d"] =
        some ([.node ENVIRONMENT [
          .node BEGIN [.token BEGIN_ENVIRONMENT_NAME "\\begin",
            .node CURLY_GROUP_WORD [.token L_CURLY "\x7b",
              .node KEY [.token WORD n1], .token R_CURLY "\x7d"]],
          .node TEXT [.token WORD "x"],
          .node END [.token END_ENVIRONMENT_NAME "\\end",
            .node CURLY_GROUP_WORD [.token L_CURLY "\x7b",
              .node KEY [.token WORD n2], .token R_CURLY "\x7d"]]]], [])) := by
  refine ⟨?_, fun n1 n2 => rfl⟩
  intro fuel toks es rest h
  simp only [environment] at h
  (try rw [Option.bind_eq_bind'] at h); rw [Option.bind_eq_some] at h
  obtain ⟨⟨bes, r1⟩, hb, h⟩ := h
  (try simp only at h)
  (try rw [Option.bind_eq_bind'] at h); rw [Option.bind_eq_some] at h
  obtain ⟨⟨mid, r2⟩, hcl, h⟩ := h
  obtain ⟨binner, hbes⟩ := begin_shape fuel toks bes r1 hb
  subst hbes
  have hstop := contentLoop_stop fuel envBodyStop ctxDefault r1 mid r2 hcl
  refine ⟨binner, r1, mid, r2, hb, hcl, ?_, ?_⟩
  · rcases hstop with h0 | ⟨u, rs, hru, hsu⟩
    · exact Or.inl h0
    · exact Or.inr ⟨u, rs, hru, (envBodyStop_true_iff u.kind).mp hsu⟩
  · by_cases hif : headKind r2 = some END_ENVIRONMENT_NAME
    · rw [if_pos hif] at h
      (try rw [Option.bind_eq_bind'] at h); rw [Option.bind_eq_some] at h
      obtain ⟨⟨ees, r3⟩, he, h⟩ := h
      obtain ⟨einner, hees⟩ := endCmd_shape fuel r2 ees r3 he
      subst hees
      simp only [Option.some.injEq, Prod.mk.injEq] at h
      obtain ⟨hes, hr⟩ := h
      refine Or.inl ⟨einner, r3, hif, he, hr.symm, ?_⟩
      rw [← hes]; simp
    · rw [if_neg hif] at h
      simp only [Option.some.injEq, Prod.mk.injEq] at h
      obtain ⟨hes, hr⟩ := h
      refine Or.inr ⟨hif, hr.symm, ?_⟩
      rw [← hes]; simp

theorem claim_C4_witness :
    ∃ binner r1 mid r2,
      begin 39 [tk BEGIN_ENVIRONMENT_NAME "\\begin", tk L_CURLY "\x7b",
          tk WORD "foo", tk R_CURLY "\x7d", tk WORD "x",
          tk END_ENVIRONMENT_NAME "\\end", tk L_CURLY "\x7b", tk WORD "bar",
          tk R_CURLY "\x7d"] = some ([.node BEGIN binner], r1) ∧
      contentLoop 39 envBodyStop ctxDefault r1 = some (mid, r2) := by
  obtain ⟨binner, r1, mid, r2, hb, hcl, _, _⟩ :=
    claim_C4.1 39 [tk BEGIN_ENVIRONMENT_NAME "\\begin", tk L_CURLY "\x7b",
      tk WORD "foo", tk R_CURLY "\x7d", tk WORD "x",
      tk END_ENVIRONMENT_NAME "\\end", tk L_CURLY "\x7b", tk WORD "bar",
      tk R_CURLY "\x7d"]
      [.node ENVIRONMENT [
        .node BEGIN [.token BEGIN_ENVIRONMENT_NAME "\\begin",
          .node CURLY_GROUP_WORD [.token L_CURLY "\x7b",
            .node KEY [.token WORD "foo"], .token R_CURLY "\x7d"]],
        .node TEXT [.token WORD "x"],
        .node END [.token END_ENVIRONMENT_NAME "\\end",
          .node CURLY_GROUP_WORD [.token L_CURLY "\x7b",
            .node KEY [.token WORD "bar"], .token R_CURLY "\x7d"]]]] [] rfl
  exact ⟨binner, r1, mid, r2, hb, hcl⟩

/-- C7: whenever `label_number`'s first argument group is followed by a second
curly group, the rule parses that group and then appends a zero-length
`MISSING` leaf right after it, unconditionally — whatever the second group
contains. -/
theorem claim_C7 :
    (∀ fuel t rest es r, label_number (fuel + 1) (t :: rest) = some (es, r) →
      ∃ tr r0 g1 r1,
        takeTrivia rest = (tr, r0) ∧
        slotIf (headKind r0 = some L_CURLY) (curly_group_word fuel r0)
          [missingTok] r0 = some (g1, r1) ∧
        ((∃ cg r2, headKind r1 = some L_CURLY ∧
            curly_group fuel r1 = some (cg, r2) ∧
            es = [.node LABEL_NUMBER
              (tokElem t :: tr ++ g1 ++ (cg ++ [missingTok]))] ∧ r = r2) ∨
         (¬ headKind r1 = some L_CURLY ∧
            es = [.node LABEL_NUMBER (tokElem t :: tr ++ g1)] ∧ r = r1))) ∧
    (∀ w : String,
      label_number 40 [tk LABEL_NUMBER_NAME "\\newlabel", tk L_CURLY "\x7b",
          tk WORD "name", tk R_CURLY "\x7d", tk L_CURLY "\x7b", tk WORD w,
          tk R_CURLY "\x7d"] =
        some ([.node LABEL_NUMBER [
          .token LABEL_NUMBER_NAME "\\newlabel",
          .node CURLY_GROUP_WORD [.token L_CURLY "\x7b",
            .node KEY [.token WORD "name"], .token R_CURLY "\x7d"],
          .node CURLY_GROUP [.token L_CURLY "\x7b",
            .node TEXT [.token WORD w], .token R_CURLY "\x7d"],
          missingTok]], [])) := by
  refine ⟨?_, fun w => rfl⟩
  intro fuel t rest es r h
  rcases htr : takeTrivia rest with ⟨tr, r0⟩
  simp only [label_number, htr] at h
  (try rw [Option.bind_eq_bind'] at h); rw [Option.bind_eq_some] at h
  obtain ⟨⟨g1, r1⟩, h1, h⟩ := h
  (try simp only at h)
  refine ⟨tr, r0, g1, r1, rfl, h1, ?_⟩
  by_cases hc : headKind r1 = some L_CURLY
  · simp only [slotIf] at h
    rw [if_pos hc] at h
    (try rw [Option.bind_eq_bind'] at h); rw [Option.bind_eq_some] at h
    obtain ⟨⟨g2, r2⟩, hslot, h⟩ := h
    (try rw [Option.bind_eq_bind'] at hslot); rw [Option.bind_eq_some] at hslot
    obtain ⟨⟨cg, r'⟩, hcg, hslot⟩ := hslot
    simp only [Option.some.injEq, Prod.mk.injEq] at hslot
    obtain ⟨hg2, hr2⟩ := hslot
    simp only [Option.some.injEq, Prod.mk.injEq] at h
    obtain ⟨hes, hr⟩ := h
    refine Or.inl ⟨cg, r', hc, hcg, ?_, ?_⟩
    · rw [← hes, ← hg2]
    · rw [← hr, ← hr2]
  · simp only [slotIf] at h
    rw [if_neg hc] at h
    (try rw [Option.bind_eq_bind'] at h); rw [Option.bind_eq_some] at h
    obtain ⟨⟨g2, r2⟩, hslot, h⟩ := h
    simp only [Option.some.injEq, Prod.mk.injEq] at hslot
    obtain ⟨hg2, hr2⟩ := hslot
    simp only [Option.some.injEq, Prod.mk.injEq] at h
    obtain ⟨hes, hr⟩ := h
    refine Or.inr ⟨hc, ?_, ?_⟩
    · rw [← hes, ← hg2]; simp
    · rw [← hr, ← hr2]

theorem claim_C7_witness :
    ∃ tr r0 g1 r1,
      takeTrivia [tk L_CURLY "\x7b", tk WORD "name", tk R_CURLY "\x7d",
        tk L_CURLY "\x7b", tk WORD "w", tk R_CURLY "\x7d"] = (tr, r0) ∧
      slotIf (headKind r0 = some L_CURLY) (curly_group_word 39 r0)
        [missingTok] r0 = some (g1, r1) := by
  obtain ⟨tr, r0, g1, r1, htr, h1, _⟩ :=
    claim_C7.1 39 (tk LABEL_NUMBER_NAME "\\newlabel")
      [tk L_CURLY "\x7b", tk WORD "name", tk R_CURLY "\x7d",
       tk L_CURLY "\x7b", tk WORD "w", tk R_CURLY "\x7d"]
      [.node LABEL_NUMBER [
        .token LABEL_NUMBER_NAME "\\newlabel",
        .node CURLY_GROUP_WORD [.token L_CURLY "\x7b",
          .node KEY [.token WORD "name"], .token R_CURLY "\x7d"],
        .node CURLY_GROUP [.token L_CURLY "\x7b",
          .node TEXT [.token WORD "w"], .token R_CURLY "\x7d"],
        missingTok]] [] rfl
  exact ⟨tr, r0, g1, r1, htr, h1⟩

/-- C10: a `GENERIC_COMMAND` node is the command-name token followed by a
possibly empty run of trivia leaves, curly groups and mixed groups; the node
ends at the first token of any other kind, which is left unconsumed for the
enclosing rule. -/
theorem claim_C10 :
    ∀ fuel t rest es r, generic_command (fuel + 1) (t :: rest) = some (es, r) →
      ∃ args,
        es = [GreenElem.node GENERIC_COMMAND (tokElem t :: args)] ∧
        (∀ e ∈ args,
          (∃ u : Token, e = tokElem u ∧
            (u.kind = LINE_BREAK ∨ u.kind = WHITESPACE ∨ u.kind = COMMENT)) ∨
          (∃ cs, e = GreenElem.node CURLY_GROUP cs) ∨
          (∃ cs, e = GreenElem.node MIXED_GROUP cs)) ∧
        (r = [] ∨ ∃ u rs, r = u :: rs ∧ gcContinue u.kind = false) := by
  intro fuel t rest es r h
  simp only [generic_command] at h
  (try rw [Option.bind_eq_bind'] at h); rw [Option.bind_eq_some] at h
  obtain ⟨⟨args, r1⟩, hl, h⟩ := h
  simp only [Option.some.injEq, Prod.mk.injEq] at h
  obtain ⟨hes, hr⟩ := h
  obtain ⟨hmem, hrest⟩ := gcLoop_shape fuel rest args r1 hl
  exact ⟨args, hes.symm, hmem, hr ▸ hrest⟩

theorem claim_C10_witness :
    ∃ args,
      [GreenElem.node GENERIC_COMMAND [tokElem (tk GENERIC_COMMAND_NAME "\\foo"),
        tokElem (tk WHITESPACE " ")]] =
        [GreenElem.node GENERIC_COMMAND
          (tokElem (tk GENERIC_COMMAND_NAME "\\foo") :: args)] ∧
      (∀ e ∈ args,
        (∃ u : Token, e = tokElem u ∧
          (u.kind = LINE_BREAK ∨ u.kind = WHITESPACE ∨ u.kind = COMMENT)) ∨
        (∃ cs, e = GreenElem.node CURLY_GROUP cs) ∨
        (∃ cs, e = GreenElem.node MIXED_GROUP cs)) ∧
      (([tk WORD "x"] : List Token) = [] ∨
        ∃ u rs, ([tk WORD "x"] : List Token) = u :: rs ∧
          gcContinue u.kind = false) :=
  claim_C10 9 (tk GENERIC_COMMAND_NAME "\\foo") [tk WHITESPACE " ", tk WORD "x"]
    [GreenElem.node GENERIC_COMMAND [tokElem (tk GENERIC_COMMAND_NAME "\\foo"),
      tokElem (tk WHITESPACE " ")]] [tk WORD "x"] rfl

/-- C5 (amended): the content loop of `brack_group` terminates on `R_CURLY`,
`R_BRACK`, `PART_NAME`, `CHAPTER_NAME`, `SECTION_NAME`, `SUBSECTION_NAME`,
`PARAGRAPH_NAME`, `SUBPARAGRAPH_NAME`, `ENUM_ITEM_NAME` and
`END_ENVIRONMENT_NAME` — exactly these, so NOT on `SUBSUBSECTION_NAME` — and
such a terminator is left unconsumed outside the loop's output.  The original
claim is false: `\subsubsection` after an unclosed `[` is absorbed into the
`BRACK_GROUP` node. -/
theorem claim_C5 :
    (∀ fuel (t : Token) rest es r,
      brack_group (fuel + 1) (t :: rest) = some (es, r) →
      ∃ inner r1 ce r2, contentLoop fuel brackGroupStop ctxDefault rest =
          some (inner, r1) ∧
        expect R_BRACK r1 = (ce, r2) ∧
        es = [.node BRACK_GROUP (tokElem t :: inner ++ ce)] ∧ r = r2) ∧
    (∀ k, brackGroupStop k = true ↔
      (k = R_CURLY ∨ k = R_BRACK ∨ k = PART_NAME ∨ k = CHAPTER_NAME ∨
       k = SECTION_NAME ∨ k = SUBSECTION_NAME ∨ k = PARAGRAPH_NAME ∨
       k = SUBPARAGRAPH_NAME ∨ k = ENUM_ITEM_NAME ∨
       k = END_ENVIRONMENT_NAME)) ∧
    (∀ fuel (t : Token) rs, brackGroupStop t.kind = true →
      contentLoop (fuel + 1) brackGroupStop ctxDefault (t :: rs) =
        some ([], t :: rs)) ∧
    (∀ fuel toks es r1,
      contentLoop fuel brackGroupStop ctxDefault toks = some (es, r1) →
      r1 = [] ∨ ∃ u rs, r1 = u :: rs ∧ brackGroupStop u.kind = true) ∧
    brackGroupStop SUBSUBSECTION_NAME = false := by
  refine ⟨?_, ?_, ?_, ?_, rfl⟩
  · intro fuel t rest es r h
    simp only [brack_group] at h
    (try rw [Option.bind_eq_bind'] at h); rw [Option.bind_eq_some] at h
    obtain ⟨⟨inner, r1⟩, hcl, h⟩ := h
    (try simp only at h)
    rcases hex : expect R_BRACK r1 with ⟨ce, r2⟩
    rw [hex] at h
    simp only [Option.some.injEq, Prod.mk.injEq] at h
    obtain ⟨hes, hr⟩ := h
    exact ⟨inner, r1, ce, r2, hcl, hex, hes.symm, hr.symm⟩
  · intro k; cases k <;> simp [brackGroupStop]
  · exact fun fuel t rs h => contentLoop_immediate fuel brackGroupStop ctxDefault t rs h
  · exact fun fuel toks es r1 h => contentLoop_stop fuel brackGroupStop ctxDefault toks es r1 h

theorem claim_C5_witness :
    contentLoop 10 brackGroupStop ctxDefault [tk SECTION_NAME "\\section"] =
      some ([], [tk SECTION_NAME "\\section"]) :=
  claim_C5.2.2.1 9 (tk SECTION_NAME "\\section") [] rfl

theorem claim_C5_counterexample :
    brack_group 20 [tk L_BRACK "[", tk SUBSUBSECTION_NAME "\\subsubsection"] =
      some ([.node BRACK_GROUP [.token L_BRACK "[",
        .node SUBSUBSECTION [.token SUBSUBSECTION_NAME "\\subsubsection",
          .token MISSING ""],
        .token MISSING ""]], []) ∧
    brackGroupStop SUBSUBSECTION_NAME = false :=
  ⟨rfl, rfl⟩

/-- C6 (amended): inside a key-value body, whenever a `KEY` is followed by
`=`, the `VALUE` (when the lookahead guard admits one) is a content
subsequence parsed with `allow_comma = false` and terminated by `COMMA`,
`R_BRACK`, `R_CURLY` or end of input — exactly these, and none of them is
consumed into the `VALUE` node.  The original claim is false: `R_PAREN` and
`END_ENVIRONMENT_NAME` do not terminate the value loop and are consumed into
the `VALUE` node when they occur after the first value token. -/
theorem claim_C6 :
    (∀ fuel toks, value (fuel + 1) toks =
      (contentLoop fuel valueStop ⟨true, false⟩ toks).bind fun p =>
        some ([.node VALUE p.1], p.2)) ∧
    (∀ k, valueStop k = true ↔ (k = COMMA ∨ k = R_BRACK ∨ k = R_CURLY)) ∧
    (∀ fuel (t : Token) rs, valueStop t.kind = true →
      contentLoop (fuel + 1) valueStop ⟨true, false⟩ (t :: rs) =
        some ([], t :: rs)) ∧
    (∀ fuel toks es r, value fuel toks = some (es, r) →
      ∃ inner, es = [.node VALUE inner] ∧
        (r = [] ∨ ∃ u rs, r = u :: rs ∧ valueStop u.kind = true)) ∧
    (∀ fuel (t : Token) rest es r,
      key_value_pair (fuel + 1) (t :: rest) = some (es, r) →
      (∃ ke u tr r2 ves r3, value fuel r2 = some (ves, r3) ∧
        es = [.node KEY_VALUE_PAIR ((ke :: tokElem u :: tr) ++ ves)] ∧ r = r3) ∨
      (∃ ke u tr r2, es = [.node KEY_VALUE_PAIR ((ke :: tokElem u :: tr) ++
        [.token MISSING ""])] ∧ r = r2) ∨
      (∃ ke, es = [.node KEY_VALUE_PAIR [ke]])) ∧
    (valueStop R_PAREN = false ∧ valueStop END_ENVIRONMENT_NAME = false) := by
  refine ⟨fun fuel toks => rfl, ?_, ?_, ?_, ?_, rfl, rfl⟩
  · intro k; cases k <;> simp [valueStop]
  · exact fun fuel t rs h => contentLoop_immediate fuel valueStop ⟨true, false⟩ t rs h
  · intro fuel toks es r h
    match fuel with
    | 0 => simp [value] at h
    | fuel + 1 =>
      simp only [value] at h
      (try rw [Option.bind_eq_bind'] at h); rw [Option.bind_eq_some] at h
      obtain ⟨⟨inner, r1⟩, hcl, h⟩ := h
      simp only [Option.some.injEq, Prod.mk.injEq] at h
      obtain ⟨hes, hr⟩ := h
      exact ⟨inner, hes.symm,
        hr ▸ contentLoop_stop fuel valueStop ⟨true, false⟩ toks inner r1 hcl⟩
  · intro fuel t rest es r h
    rcases hkc : keyCore t rest with ⟨ke, r1⟩
    simp only [key_value_pair, hkc] at h
    rcases r1 with _ | ⟨u, r1'⟩ <;> (try simp only at h)
    · simp only [Option.some.injEq, Prod.mk.injEq] at h
      exact Or.inr (Or.inr ⟨ke, h.1.symm⟩)
    · by_cases hu : u.kind = EQUALITY_SIGN
      · rw [if_pos hu] at h
        rcases htr : takeTrivia r1' with ⟨tr, r2⟩
        rw [htr] at h
        (try simp only at h)
        rcases hh : headKind r2 with _ | k
        · rw [hh] at h
          simp only [Option.some.injEq, Prod.mk.injEq] at h
          exact Or.inr (Or.inl ⟨ke, u, tr, r2, h.1.symm, h.2.symm⟩)
        · rw [hh] at h
          cases k <;>
          first
          | (simp only [Option.some.injEq, Prod.mk.injEq] at h
             exact Or.inr (Or.inl ⟨ke, u, tr, r2, h.1.symm, h.2.symm⟩))
          | ((try simp only at h)
             (try rw [Option.bind_eq_bind'] at h); rw [Option.bind_eq_some] at h
             obtain ⟨⟨ves, r3⟩, hv, h⟩ := h
             simp only [Option.some.injEq, Prod.mk.injEq] at h
             exact Or.inl ⟨ke, u, tr, r2, ves, r3, hv, h.1.symm, h.2.symm⟩)
      · rw [if_neg hu] at h
        simp only [Option.some.injEq, Prod.mk.injEq] at h
        exact Or.inr (Or.inr ⟨ke, h.1.symm⟩)

theorem claim_C6_witness :
    ∃ inner, ([GreenElem.node VALUE []] : List GreenElem) =
        [.node VALUE inner] ∧
      (([tk COMMA ","] : List Token) = [] ∨
        ∃ u rs, ([tk COMMA ","] : List Token) = u :: rs ∧
          valueStop u.kind = true) :=
  claim_C6.2.2.2.1 5 [tk COMMA ","] [GreenElem.node VALUE []] [tk COMMA ","] rfl

theorem claim_C6_counterexample :
    value 30 [tk WORD "a", tk R_PAREN ")"] =
      some ([.node VALUE [.node TEXT [.token WORD "a"],
        .node ERROR [.token R_PAREN ")"]]], []) ∧
    value 30 [tk WORD "a", tk END_ENVIRONMENT_NAME "\\end"] =
      some ([.node VALUE [.node TEXT [.token WORD "a"],
        .node GENERIC_COMMAND [.token END_ENVIRONMENT_NAME "\\end"]]], []) :=
  ⟨rfl, rfl⟩

end Latex
